import Mathlib

/-!
WowDumpFix: thunk resolver and import-table rebuild.

A shallow embedding of `wow_imports.cpp` (`ImportUnpacker::resolve`,
`ImportUnpacker::resolveBlock`, `GetImportAddressTable`, `RebuildImports`).

* `SIZE_T` values are natural numbers below `2 ^ 64`; every C operation that
  can wrap is written with an explicit `% SIZE_T_MOD`.
* The target process is a byte memory together with two oracles that say
  whether a `RemoteRead` / `RemoteWrite` of a given range succeeds.
* Capstone is a parameter: a function from (bytes, address, max count) to the
  decoded instructions.
* `resolve` contains a `for (;;)` loop, so it takes a fuel argument counting
  loop iterations; `none` means the loop has not returned within the fuel.
* Every call of the memory accessor and every `pluginLog` line is recorded in
  an event trace.
-/

namespace WowDumpFix

/-! ## Machine constants -/

/-- Number of values of a 64-bit `SIZE_T`. -/
def SIZE_T_MOD : Nat := 2 ^ 64

/-- Number of values of a 32-bit `DWORD`. -/
def DWORD_MOD : Nat := 2 ^ 32

/-- Windows page size. -/
def PAGE_SIZE : Nat := 0x1000

/-- Constant `iatMaxEntryCount` (line 10). -/
def iatMaxEntryCount : Nat := 4096

/-- Local constant `blockSize` of `resolve` (line 41). -/
def blockSize : Nat := 0x50

/-- Value of `sizeof(SIZE_T)`. -/
def sizeofSIZE_T : Nat := 8

/-- Value of `sizeof(DWORD)`. -/
def sizeofDWORD : Nat := 4

/-! ## Capstone data -/

/-- Instruction ids of Capstone that the source switches on; every other id is `other`. -/
inductive x86_insn where
  | X86_INS_MOV
  | X86_INS_MOVABS
  | X86_INS_ADD
  | X86_INS_SUB
  | X86_INS_XOR
  | X86_INS_JMP
  | other
  deriving DecidableEq, Repr

/-- Operand kinds of Capstone (`x86_op_type`). -/
inductive x86_op_type where
  | X86_OP_INVALID
  | X86_OP_REG
  | X86_OP_IMM
  | X86_OP_MEM
  deriving DecidableEq, Repr

/-- One operand (`cs_x86_op`): its kind and the 64-bit content of the operand union as the
source reads it through `.imm`. -/
structure cs_x86_op where
  type : x86_op_type
  imm : Nat

/-- Operand detail of an instruction (`cs_x86`): the operand count and the operand array. -/
structure cs_x86 where
  op_count : Nat
  operands : Nat → cs_x86_op

/-- A decoded instruction (`cs_insn`): its id and its detail pointer (`none` is `NULL`). -/
structure cs_insn where
  id : x86_insn
  detail : Option cs_x86

/-- The disassembler handle: whether `cs_open` and `cs_option` succeed, and what
`cs_disasm code address count` decodes. -/
structure Capstone where
  openOk : Bool
  disasm : List Nat → Nat → Nat → List cs_insn

/-! ## Target process -/

/-- The debuggee: byte memory, the success oracles of the memory accessor, and
`debuggee.imageBase`. -/
structure Process where
  mem : Nat → Nat
  canRead : Nat → Nat → Bool
  canWrite : Nat → Nat → Bool
  imageBase : Nat

/-- Everything observable that a run does: accessor calls and log lines. -/
inductive Event where
  | remoteRead (address size : Nat) (ok : Bool)
  | remoteWrite (address : Nat) (data : List Nat) (ok : Bool)
  | logReadFailed (size ea : Nat)
  | logUnhandledInsn (ea : Nat)
  | logInitFailed
  | logFoundIAT (address : Nat)
  | logReadTableFailed (address : Nat)
  | logWriteTableFailed (address : Nat)
  | logPatchFailed (address : Nat)
  | logRestored (count address : Nat)
  deriving DecidableEq, Repr

/-- The `size` bytes of memory from `address` on. -/
def memBytes (mem : Nat → Nat) (address size : Nat) : List Nat :=
  (List.range size).map (fun k => mem (address + k))

/-- Modelled from the spec: `memory::util::RemoteRead` (memory.h is not part of the sources),
the accessor `read_bytes(address, length) -> bytes | fail`. -/
def RemoteRead (P : Process) (address size : Nat) : Option (List Nat) :=
  if P.canRead address size then some (memBytes P.mem address size) else none

/-- Memory after storing `data` at `address`. -/
def storeBytes (mem : Nat → Nat) (address : Nat) (data : List Nat) : Nat → Nat :=
  fun a => if address ≤ a ∧ a < address + data.length then data.getD (a - address) 0 else mem a

/-- Modelled from the spec: `memory::util::RemoteWrite` (memory.h is not part of the sources),
the accessor `write_bytes(address, bytes) -> ok | fail`. -/
def RemoteWrite (P : Process) (address : Nat) (data : List Nat) : Option Process :=
  if P.canWrite address data.length then
    some { P with mem := storeBytes P.mem address data }
  else none

/-! ## `ImportUnpacker::resolveBlock` -/

/-- Line 81: `uint8_t nIndex = pX86->op_count - 1`. -/
def nIndex (pX86 : cs_x86) : Nat := (pX86.op_count + 255) % 256

/-- Result of `resolveBlock`: the returned flag, the by-reference `EA` and `Import`, and the
lines logged. -/
structure BlockResult where
  done : Bool
  EA : Nat
  Import : Nat
  log : List Event

/-- The loop of lines 69-130 over the decoded instructions, with the fall-through of line 131. -/
def interpret : List cs_insn → Nat → Nat → BlockResult
  | [], EA, Import => { done := false, EA := EA, Import := Import, log := [] }
  | ins :: rest, EA, Import =>
    match ins.detail with
    | none => { done := false, EA := EA, Import := Import, log := [] }
    | some pX86 =>
      let op := pX86.operands (nIndex pX86)
      match ins.id with
      | .X86_INS_MOV => interpret rest EA (op.imm % SIZE_T_MOD)
      | .X86_INS_MOVABS => interpret rest EA (op.imm % SIZE_T_MOD)
      | .X86_INS_ADD => interpret rest EA ((Import + op.imm % SIZE_T_MOD) % SIZE_T_MOD)
      | .X86_INS_SUB =>
        interpret rest EA ((Import + SIZE_T_MOD - op.imm % SIZE_T_MOD) % SIZE_T_MOD)
      | .X86_INS_XOR => interpret rest EA (Import ^^^ (op.imm % SIZE_T_MOD))
      | .X86_INS_JMP =>
        if op.type = .X86_OP_REG then
          { done := true, EA := EA, Import := Import, log := [] }
        else
          { done := false, EA := op.imm % SIZE_T_MOD, Import := Import, log := [] }
      | .other =>
        { done := false, EA := 0, Import := Import, log := [Event.logUnhandledInsn EA] }

/-- Lines 64-139: decode at most five instructions of the first `CodeSize` bytes of `CodeBuf`
and interpret them. -/
def resolveBlock (cs : Capstone) (CodeBuf : List Nat) (CodeSize EA Import : Nat) : BlockResult :=
  interpret (cs.disasm (CodeBuf.take CodeSize) EA 5) EA Import

/-! ## `ImportUnpacker::resolve` -/

/-- Line 46: `min(blockSize, (ThunkBase & 0xFFFFFFFFFFFFF000) + PAGE_SIZE - ea)` in `SIZE_T`
arithmetic. -/
def readSize (ThunkBase ea : Nat) : Nat :=
  min blockSize
    (((ThunkBase &&& 0xFFFFFFFFFFFFF000) + PAGE_SIZE + SIZE_T_MOD - ea % SIZE_T_MOD) % SIZE_T_MOD)

/-- The `for (;;)` loop of lines 45-59. The fuel counts iterations; the result is the value
returned by `resolve` with the events so far, or `none` when the fuel is used up. -/
def resolveLoop (cs : Capstone) (P : Process) (ThunkBase : Nat) :
    Nat → Nat → Nat → List Event → Option (Nat × List Event)
  | 0, _, _, _ => none
  | fuel + 1, ea, Import, tr =>
    match RemoteRead P ea (readSize ThunkBase ea) with
    | none =>
      some (0, tr ++ [Event.remoteRead ea (readSize ThunkBase ea) false,
                      Event.logReadFailed (readSize ThunkBase ea) ea])
    | some bytes =>
      let codeBlock := bytes ++ (List.replicate blockSize 0x90).drop (readSize ThunkBase ea)
      let r := resolveBlock cs codeBlock (readSize ThunkBase ea) ea Import
      let tr1 := tr ++ Event.remoteRead ea (readSize ThunkBase ea) true :: r.log
      if r.done then some (r.Import, tr1)
      else resolveLoop cs P ThunkBase fuel r.EA r.Import tr1

/-- Lines 39-62: `resolve(ThunkBase)` with `import = 0` and `ea = ThunkBase`. -/
def resolve (cs : Capstone) (P : Process) (fuel ThunkBase : Nat) : Option (Nat × List Event) :=
  resolveLoop cs P ThunkBase fuel ThunkBase 0 []

/-! ## Import table -/

/-- The fields of `REMOTE_PE_HEADER` that `RebuildImports` uses: the remote base address, the
`VirtualAddress` of the section that `GetPeSectionByName(HeaderData, ".rdata")` finds
(`none` is `nullptr`), and the offset
`SIZE_T(dataDirectory[IMAGE_DIRECTORY_ENTRY_IAT]) - SIZE_T(dosHeader)`. -/
structure REMOTE_PE_HEADER where
  remoteBaseAddress : Nat
  rdata : Option Nat
  iatDirOffset : Nat

/-- Lines 12-16. -/
def GetImportAddressTable (HeaderData : REMOTE_PE_HEADER) : Nat :=
  match HeaderData.rdata with
  | some VirtualAddress => (HeaderData.remoteBaseAddress + VirtualAddress) % SIZE_T_MOD
  | none => 0

/-- Little-endian value of a byte string. -/
def leValue : List Nat → Nat
  | [] => 0
  | b :: bs => b % 256 + 256 * leValue bs

/-- Little-endian bytes of the low `w` bytes of `v`. -/
def leBytes (w v : Nat) : List Nat :=
  (List.range w).map (fun j => v / 256 ^ j % 256)

/-- The `SIZE_T` array that a buffer of bytes holds: entry `k` is the word at byte `8 * k`. -/
def slotsOfBytes (bytes : List Nat) (n : Nat) : List Nat :=
  (List.range n).map (fun k => leValue ((bytes.drop (sizeofSIZE_T * k)).take sizeofSIZE_T))

/-- The bytes of a `SIZE_T` vector (`unpackedThunkArray.data()`). -/
def bytesOfSlots (slots : List Nat) : List Nat :=
  slots.flatMap (leBytes sizeofSIZE_T)

/-- The local state of the table walk of lines 163-186, with the indices of `iatThunkArray`
that were read and the arguments of the `resolve` calls, in order. -/
structure WalkState where
  i : Nat
  unpackedThunkArray : List Nat
  importCountDelta : Nat
  calls : List Nat
  reads : List Nat
  trace : List Event

/-- What happens while `i` stays at one slot. -/
inductive SlotResult where
  | next (inner : Bool) (s : WalkState)
  | finished (s : WalkState)
  | noReturn (s : WalkState)

/-- Why a run gives no result: an index past the end of `iatThunkArray` was read, or a
`resolve` call did not return. -/
inductive Stuck where
  | outOfBounds
  | noReturn
  deriving DecidableEq, Repr

/-- Lines 184-185 followed by the `i++` of the outer loop. -/
def afterInner (s : WalkState) : SlotResult :=
  .next false { s with
    unpackedThunkArray := s.unpackedThunkArray ++ [0]
    importCountDelta := s.importCountDelta + 1
    i := s.i + 1 }

/-- Head of the inner loop (line 174) at a slot of value `v`, and its body (lines 176-182)
with the `i++` of the inner loop. -/
def innerHead (res : Nat → Option (Nat × List Event)) (imageBase v : Nat) (s : WalkState) :
    SlotResult :=
  if v > 0 then
    if v ≥ imageBase then afterInner s
    else
      match res v with
      | none => .noReturn s
      | some (resolveret, ev) =>
        .next true { s with
          unpackedThunkArray := s.unpackedThunkArray ++ [resolveret]
          calls := s.calls ++ [v]
          trace := s.trace ++ ev
          i := s.i + 1 }
  else afterInner s

/-- Head of the outer loop (line 167) at a slot of value `v`, the check of lines 169-172, and
the entry into the inner loop at the same slot. -/
def outerHead (res : Nat → Option (Nat × List Event)) (imageBase v : Nat) (s : WalkState) :
    SlotResult :=
  if v > 0 ∧ v < imageBase then
    if v ≥ 0x00007FF000000000 then .finished s
    else innerHead res imageBase v s
  else .finished s

/-- The nested loops of lines 167-186 over the slots from index `s.i` on; `inner` tells
whether control is at the head of the inner loop. Reading past the array is `outOfBounds`. -/
def walk (res : Nat → Option (Nat × List Event)) (imageBase : Nat) :
    Bool → List Nat → WalkState → Except Stuck WalkState
  | _, [], _ => .error .outOfBounds
  | inner, v :: rest, s =>
    let s1 := { s with reads := s.reads ++ [s.i] }
    match (if inner then innerHead res imageBase v s1 else outerHead res imageBase v s1) with
    | .next inner1 s2 => walk res imageBase inner1 rest s2
    | .finished s2 => .ok s2
    | .noReturn _ => .error .noReturn

/-- Initial state of the walk (lines 163-167). -/
def walkInit : WalkState :=
  { i := 0, unpackedThunkArray := [], importCountDelta := 1, calls := [], reads := [],
    trace := [] }

/-- What a returned `RebuildImports` leaves: the return value, the target process, the final
`unpackedThunkArray`, the `resolve` calls, the indices read, and the events. -/
structure RebuildResult where
  ret : Bool
  proc : Process
  output : List Nat
  calls : List Nat
  reads : List Nat
  trace : List Event

/-- Lines 199-202. -/
def iatDDAddress (HeaderData : REMOTE_PE_HEADER) : Nat :=
  (HeaderData.iatDirOffset + HeaderData.remoteBaseAddress) % SIZE_T_MOD

/-- Line 207: the address `iatDDAddress + sizeof(DWORD)` of the size field, an addition in
`SIZE_T`. -/
def iatSizeAddress (HeaderData : REMOTE_PE_HEADER) : Nat :=
  (iatDDAddress HeaderData + sizeofDWORD) % SIZE_T_MOD

/-- Line 204. -/
def iatRVA (HeaderData : REMOTE_PE_HEADER) : Nat :=
  (GetImportAddressTable HeaderData + SIZE_T_MOD - HeaderData.remoteBaseAddress % SIZE_T_MOD)
    % SIZE_T_MOD % DWORD_MOD

/-- Line 190. -/
def iatSize (unpackedThunkArray : List Nat) : Nat :=
  unpackedThunkArray.length * sizeofSIZE_T % SIZE_T_MOD % DWORD_MOD

/-- Lines 188-215: everything after the walk. -/
def finishRebuild (P : Process) (HeaderData : REMOTE_PE_HEADER) (w : WalkState)
    (tr : List Event) : RebuildResult :=
  let importAddressTable := GetImportAddressTable HeaderData
  let unpackedThunkArray := w.unpackedThunkArray ++ [0]
  let size := iatSize unpackedThunkArray
  let data := (bytesOfSlots unpackedThunkArray).take size
  let tr := tr ++ w.trace
  match RemoteWrite P importAddressTable data with
  | none =>
    { ret := false, proc := P, output := unpackedThunkArray, calls := w.calls, reads := w.reads,
      trace := tr ++ [Event.remoteWrite importAddressTable data false,
                      Event.logWriteTableFailed importAddressTable] }
  | some P1 =>
    let tr := tr ++ [Event.remoteWrite importAddressTable data true]
    let dd := iatDDAddress HeaderData
    let rvaBytes := leBytes sizeofDWORD (iatRVA HeaderData)
    match RemoteWrite P1 dd rvaBytes with
    | none =>
      { ret := false, proc := P1, output := unpackedThunkArray, calls := w.calls,
        reads := w.reads,
        trace := tr ++ [Event.remoteWrite dd rvaBytes false, Event.logPatchFailed dd] }
    | some P2 =>
      let tr := tr ++ [Event.remoteWrite dd rvaBytes true]
      let sizeBytes := leBytes sizeofDWORD size
      match RemoteWrite P2 (iatSizeAddress HeaderData) sizeBytes with
      | none =>
        { ret := false, proc := P2, output := unpackedThunkArray, calls := w.calls,
          reads := w.reads,
          trace := tr ++ [Event.remoteWrite (iatSizeAddress HeaderData) sizeBytes false,
                          Event.logPatchFailed dd] }
      | some P3 =>
        { ret := true, proc := P3, output := unpackedThunkArray, calls := w.calls,
          reads := w.reads,
          trace := tr ++ [Event.remoteWrite (iatSizeAddress HeaderData) sizeBytes true,
            Event.logRestored
              ((unpackedThunkArray.length + SIZE_T_MOD - w.importCountDelta) % SIZE_T_MOD)
              importAddressTable] }

/-- Lines 141-216, over any function `res` standing for `unpacker.resolve`. -/
def RebuildImportsWith (res : Nat → Option (Nat × List Event)) (cs : Capstone) (P : Process)
    (HeaderData : REMOTE_PE_HEADER) : Except Stuck RebuildResult :=
  if cs.openOk then
    let importAddressTable := GetImportAddressTable HeaderData
    let tr := [Event.logFoundIAT importAddressTable]
    match RemoteRead P importAddressTable (iatMaxEntryCount * sizeofSIZE_T) with
    | none =>
      .ok { ret := false, proc := P, output := [], calls := [], reads := [],
            trace := tr ++ [Event.remoteRead importAddressTable
                              (iatMaxEntryCount * sizeofSIZE_T) false,
                            Event.logReadTableFailed importAddressTable] }
    | some bytes =>
      let iatThunkArray := slotsOfBytes bytes iatMaxEntryCount
      let tr := tr ++ [Event.remoteRead importAddressTable
                         (iatMaxEntryCount * sizeofSIZE_T) true]
      match walk res P.imageBase false iatThunkArray walkInit with
      | .error e => .error e
      | .ok w => .ok (finishRebuild P HeaderData w tr)
  else
    .ok { ret := false, proc := P, output := [], calls := [], reads := [],
          trace := [Event.logInitFailed] }

/-- Lines 141-216 with the `resolve` of this file; `fuel` bounds the loop iterations of each
`resolve` call. -/
def RebuildImports (cs : Capstone) (fuel : Nat) (P : Process) (HeaderData : REMOTE_PE_HEADER) :
    Except Stuck RebuildResult :=
  RebuildImportsWith (resolve cs P fuel) cs P HeaderData

/-- The little-endian word of `w` bytes that memory holds at `address`. -/
def wordAt (mem : Nat → Nat) (address w : Nat) : Nat :=
  leValue (memBytes mem address w)

/-- The table slot `k` of the target: the `SIZE_T` at `table + 8 * k`. -/
def slotAt (mem : Nat → Nat) (table k : Nat) : Nat :=
  wordAt mem (table + sizeofSIZE_T * k) sizeofSIZE_T

/-- A `DWORD` field of the target at `address`. -/
def dwordAt (mem : Nat → Nat) (address : Nat) : Nat :=
  wordAt mem address sizeofDWORD

/-- The value that `res` returns for a thunk (0 when it does not return). -/
def resVal (res : Nat → Option (Nat × List Event)) (t : Nat) : Nat :=
  match res t with
  | some (v, _) => v
  | none => 0

/-- The events of the call of `res` on a thunk. -/
def resEv (res : Nat → Option (Nat × List Event)) (t : Nat) : List Event :=
  match res t with
  | some (_, ev) => ev
  | none => []

/-- A slot value is a packed thunk: nonzero and below the image base. -/
def isPacked (imageBase v : Nat) : Bool :=
  decide (0 < v) && decide (v < imageBase)

/-- The walk state after the inner loop has resolved the packed thunks `ts` in a row. -/
def afterRun (res : Nat → Option (Nat × List Event)) (ts : List Nat) (s : WalkState) :
    WalkState :=
  { i := s.i + ts.length
    unpackedThunkArray := s.unpackedThunkArray ++ ts.map (resVal res)
    importCountDelta := s.importCountDelta
    calls := s.calls ++ ts
    reads := s.reads ++ List.range' s.i ts.length
    trace := s.trace ++ ts.flatMap (resEv res) }

/-- The walk state after the inner loop has met a boundary slot: a zero is appended, the
group count grows, and the outer loop steps over the slot. -/
def afterBoundary (s : WalkState) : WalkState :=
  { i := s.i + 1
    unpackedThunkArray := s.unpackedThunkArray ++ [0]
    importCountDelta := s.importCountDelta + 1
    calls := s.calls
    reads := s.reads ++ [s.i]
    trace := s.trace }

/-- The raw table: the `iatMaxEntryCount` slots of the target from `table` on. -/
def rawTable (mem : Nat → Nat) (table : Nat) : List Nat :=
  (List.range iatMaxEntryCount).map (slotAt mem table)

/-- What the walk writes for a visited slot of value `v`: the resolved pointer for a packed
thunk, and 0 for a boundary slot. -/
def rebuiltSlot (res : Nat → Option (Nat × List Event)) (imageBase v : Nat) : Nat :=
  if isPacked imageBase v then resVal res v else 0

/-- The slots of a sequence of groups, each a run of thunks followed by its boundary slot. -/
def groupSlots (groups : List (List Nat × Nat)) : List Nat :=
  groups.flatMap (fun g => g.1 ++ [g.2])

/-- Every group is a nonempty run of packed thunks followed by a slot that is not packed. -/
def validGroups (imageBase : Nat) (groups : List (List Nat × Nat)) : Bool :=
  groups.all (fun g => !g.1.isEmpty && g.1.all (isPacked imageBase) && !isPacked imageBase g.2)

/-- The walk state after the visited slots `visited`, grouped in `groupCount` groups, when
the walk then stops at the next slot. -/
def afterWalk (res : Nat → Option (Nat × List Event)) (imageBase : Nat) (visited : List Nat)
    (groupCount : Nat) (s : WalkState) : WalkState :=
  { i := s.i + visited.length
    unpackedThunkArray := s.unpackedThunkArray ++ visited.map (rebuiltSlot res imageBase)
    importCountDelta := s.importCountDelta + groupCount
    calls := s.calls ++ visited.filter (isPacked imageBase)
    reads := s.reads ++ List.range' s.i (visited.length + 1)
    trace := s.trace ++ (visited.filter (isPacked imageBase)).flatMap (resEv res) }

/-- Memory of the target after the three writes of lines 193-207 for the vector `out`. -/
def patchedMem (P : Process) (HeaderData : REMOTE_PE_HEADER) (out : List Nat) : Nat → Nat :=
  storeBytes
    (storeBytes
      (storeBytes P.mem (GetImportAddressTable HeaderData)
        ((bytesOfSlots out).take (iatSize out)))
      (iatDDAddress HeaderData) (leBytes sizeofDWORD (iatRVA HeaderData)))
    (iatSizeAddress HeaderData) (leBytes sizeofDWORD (iatSize out))

/-! ## The thunk patterns of the specification -/

/-- The immediate instructions of the specification: load-immediate, add-immediate,
subtract-immediate, xor-immediate. -/
inductive ThunkOp where
  | load (X : Nat)
  | add (Y : Nat)
  | sub (Z : Nat)
  | xor (Y : Nat)
  deriving DecidableEq, Repr

/-- Effect of one immediate instruction on the accumulator, as the specification words it:
load overwrites, add / subtract / xor combine, in 64-bit wrapping arithmetic. -/
def ThunkOp.apply (acc : Nat) : ThunkOp → Nat
  | .load X => X % SIZE_T_MOD
  | .add Y => (acc + Y) % SIZE_T_MOD
  | .sub Z => (acc + (SIZE_T_MOD - Z % SIZE_T_MOD)) % SIZE_T_MOD
  | .xor Y => acc ^^^ (Y % SIZE_T_MOD)

/-- The accumulator after the instructions `ops`, starting from `acc`. -/
def accumulate (acc : Nat) (ops : List ThunkOp) : Nat :=
  ops.foldl ThunkOp.apply acc

/-- The decoded instruction `ins` is the immediate instruction `op`: it has operand detail, its
last operand is an immediate, and its id and immediate are those of `op`. -/
def encodes (ins : cs_insn) (op : ThunkOp) : Bool :=
  match ins.detail with
  | none => false
  | some pX86 =>
    decide ((pX86.operands (nIndex pX86)).type = .X86_OP_IMM) &&
    match op with
    | .load X =>
      (decide (ins.id = .X86_INS_MOV) || decide (ins.id = .X86_INS_MOVABS)) &&
        decide ((pX86.operands (nIndex pX86)).imm = X)
    | .add Y => decide (ins.id = .X86_INS_ADD) && decide ((pX86.operands (nIndex pX86)).imm = Y)
    | .sub Z => decide (ins.id = .X86_INS_SUB) && decide ((pX86.operands (nIndex pX86)).imm = Z)
    | .xor Y => decide (ins.id = .X86_INS_XOR) && decide ((pX86.operands (nIndex pX86)).imm = Y)

/-- The instructions `pre` are, one by one, the immediate instructions `ops`. -/
def encodesAll : List cs_insn → List ThunkOp → Bool
  | [], [] => true
  | ins :: pre, op :: ops => encodes ins op && encodesAll pre ops
  | _, _ => false

/-- The decoded instruction is an indirect jump via a register. -/
def isJmpReg (ins : cs_insn) : Bool :=
  match ins.detail with
  | none => false
  | some pX86 =>
    decide (ins.id = .X86_INS_JMP) && decide ((pX86.operands (nIndex pX86)).type = .X86_OP_REG)

/-- The decoded instruction is a jump to the immediate address `A`. -/
def isJmpImm (ins : cs_insn) (A : Nat) : Bool :=
  match ins.detail with
  | none => false
  | some pX86 =>
    decide (ins.id = .X86_INS_JMP) &&
      decide ((pX86.operands (nIndex pX86)).type = .X86_OP_IMM) &&
      decide ((pX86.operands (nIndex pX86)).imm = A)

/-- The decoded instruction has operand detail and an id outside
MOV, MOVABS, ADD, SUB, XOR, JMP. -/
def isUnsupported (ins : cs_insn) : Bool :=
  ins.detail.isSome && decide (ins.id = .other)

/-- Number of unsupported-instruction entries in a trace. -/
def unhandledCount (tr : List Event) : Nat :=
  (tr.filter (fun e => match e with | .logUnhandledInsn _ => true | _ => false)).length

/-- The windows that a trace requested from the memory accessor, as (address, size). -/
def windowsOf (tr : List Event) : List (Nat × Nat) :=
  tr.filterMap (fun e => match e with | .remoteRead a n _ => some (a, n) | _ => none)

/-- Bytes from `ea` to the end of the page that contains `ea`. -/
def bytesToPageEnd (ea : Nat) : Nat := PAGE_SIZE - ea % PAGE_SIZE

/-! ## A small x86-64 decoder, for concrete thunks -/

/-- Sign extension of a 32-bit immediate to 64 bits. -/
def sext32 (v : Nat) : Nat := if v < 2 ^ 31 then v else v + (2 ^ 64 - 2 ^ 32)

/-- Operand array holding `o0` and `o1`. -/
def operandArray (o0 o1 : cs_x86_op) : Nat → cs_x86_op :=
  fun k => if k = 0 then o0 else if k = 1 then o1 else { type := .X86_OP_INVALID, imm := 0 }

/-- The operand `rax` (`X86_REG_RAX` is 35). -/
def opRax : cs_x86_op := { type := .X86_OP_REG, imm := 35 }

/-- An immediate operand. -/
def opImm (v : Nat) : cs_x86_op := { type := .X86_OP_IMM, imm := v }

/-- An instruction `id rax, imm`. -/
def insRaxImm (id : x86_insn) (v : Nat) : cs_insn :=
  { id := id, detail := some { op_count := 2, operands := operandArray opRax (opImm v) } }

/-- An instruction with the single operand `o`. -/
def insOne (id : x86_insn) (o : cs_x86_op) : cs_insn :=
  { id := id, detail := some { op_count := 1, operands := operandArray o o } }

/-- An instruction without operands, such as `nop`. -/
def insNone (id : x86_insn) : cs_insn :=
  { id := id,
    detail := some { op_count := 0,
                     operands := fun _ => { type := .X86_OP_INVALID, imm := 0 } } }

/-- One instruction of the subset `movabs rax, imm64` (48 B8), `add / sub / xor rax, imm32`
(48 05 / 48 2D / 48 35), `jmp rax` (FF E0), `jmp rel32` (E9), `nop` (90), with its length. -/
def decodeOne (code : List Nat) (address : Nat) : Option (cs_insn × Nat) :=
  match code with
  | [] => none
  | b0 :: t0 =>
    if b0 = 0x90 then some (insNone .other, 1)
    else if b0 = 0xE9 then
      if 4 ≤ t0.length then
        some (insOne .X86_INS_JMP
          (opImm ((address + 5 + sext32 (leValue (t0.take 4))) % SIZE_T_MOD)), 5)
      else none
    else if b0 = 0xFF then
      match t0 with
      | [] => none
      | b1 :: _ => if b1 = 0xE0 then some (insOne .X86_INS_JMP opRax, 2) else none
    else if b0 = 0x48 then
      match t0 with
      | [] => none
      | b1 :: t1 =>
        if b1 = 0xB8 then
          if 8 ≤ t1.length then some (insRaxImm .X86_INS_MOVABS (leValue (t1.take 8)), 10)
          else none
        else if 4 ≤ t1.length then
          if b1 = 0x05 then some (insRaxImm .X86_INS_ADD (sext32 (leValue (t1.take 4))), 6)
          else if b1 = 0x2D then some (insRaxImm .X86_INS_SUB (sext32 (leValue (t1.take 4))), 6)
          else if b1 = 0x35 then some (insRaxImm .X86_INS_XOR (sext32 (leValue (t1.take 4))), 6)
          else none
        else none
    else none

/-- Decode instructions one after the other until `count` are decoded or one fails. -/
def disasmLoop : Nat → List Nat → Nat → List cs_insn
  | 0, _, _ => []
  | count + 1, code, address =>
    match decodeOne code address with
    | none => []
    | some (ins, len) => ins :: disasmLoop count (code.drop len) (address + len)

/-- A disassembler for the subset of `decodeOne`. -/
def x64 : Capstone :=
  { openOk := true, disasm := fun code address count => disasmLoop count code address }

/-- Memory holding the given byte strings at the given addresses, and zero elsewhere. -/
def memOf : List (Nat × List Nat) → Nat → Nat
  | [] => fun _ => 0
  | (address, data) :: segs => storeBytes (memOf segs) address data

/-- A process in which every access succeeds. -/
def openProcess (mem : Nat → Nat) (imageBase : Nat) : Process :=
  { mem := mem, canRead := fun _ _ => true, canWrite := fun _ _ => true, imageBase := imageBase }

/-- Thunk at 0x10FFB: `jmp 0x11000`, the first byte of the next page, where the code is
`movabs rax, 0x7FF712345678; jmp rax`. -/
def pageEndJump : Process :=
  openProcess (memOf
    [(0x10FFB, [0xE9, 0x00, 0x00, 0x00, 0x00]),
     (0x11000, [0x48, 0xB8, 0x78, 0x56, 0x34, 0x12, 0xF7, 0x7F, 0x00, 0x00, 0xFF, 0xE0])])
    0x7FF700000000

/-- Thunk at 0x10000: `jmp 0x12FF8`, eight bytes before the end of another page, where the
code is `jmp rax`. -/
def farJump : Process :=
  openProcess (memOf
    [(0x10000, [0xE9, 0xF3, 0x2F, 0x00, 0x00]),
     (0x12FF8, [0xFF, 0xE0])])
    0x7FF700000000

/-- Thunk at 0x10000: `movabs rax, 0x7FF712345678`, five times `add rax, 1`, and `jmp rax`:
the first five decoded instructions hold no jump. -/
def longThunk : Process :=
  openProcess (memOf
    [(0x10000, [0x48, 0xB8, 0x78, 0x56, 0x34, 0x12, 0xF7, 0x7F, 0x00, 0x00,
                0x48, 0x05, 0x01, 0x00, 0x00, 0x00, 0x48, 0x05, 0x01, 0x00, 0x00, 0x00,
                0x48, 0x05, 0x01, 0x00, 0x00, 0x00, 0x48, 0x05, 0x01, 0x00, 0x00, 0x00,
                0x48, 0x05, 0x01, 0x00, 0x00, 0x00, 0xFF, 0xE0])])
    0x7FF700000000

/-- Thunk at 0x10000: `movabs rax, 0x7FF712345678; nop`, in a process whose address 0 is
readable and holds `jmp rax`. -/
def nullReadable : Process :=
  openProcess (memOf
    [(0x10000, [0x48, 0xB8, 0x78, 0x56, 0x34, 0x12, 0xF7, 0x7F, 0x00, 0x00, 0x90]),
     (0, [0xFF, 0xE0])])
    0x7FF700000000

/-- Thunk at 0x10000: `movabs rax, 0x7FF712345678; add rax, 0x10; sub rax, 0x20; jmp rax`. -/
def straightLine : Process :=
  openProcess (memOf
    [(0x10000, [0x48, 0xB8, 0x78, 0x56, 0x34, 0x12, 0xF7, 0x7F, 0x00, 0x00,
                0x48, 0x05, 0x10, 0x00, 0x00, 0x00, 0x48, 0x2D, 0x20, 0x00, 0x00, 0x00,
                0xFF, 0xE0])])
    0x7FF700000000

/-- Thunk at 0x10000: `movabs rax, 0x7FF712345678; nop`, in a process whose address 0 cannot
be read. -/
def nullUnreadable : Process :=
  { mem := memOf [(0x10000, [0x48, 0xB8, 0x78, 0x56, 0x34, 0x12, 0xF7, 0x7F, 0x00, 0x00, 0x90])]
    canRead := fun a _ => decide (0x1000 ≤ a)
    canWrite := fun a _ => decide (0x1000 ≤ a)
    imageBase := 0x7FF700000000 }

/-- From cursor `ea`, the loop of `resolve(ThunkBase)` decodes an instruction outside the
supported set after `hops` jumps to immediate addresses, every window being readable and
holding only immediate instructions before its jump or before the unsupported instruction. -/
inductive ReachesUnsupported (cs : Capstone) (P : Process) (ThunkBase : Nat) :
    Nat → Nat → Prop where
  | here (ea : Nat) (pre : List cs_insn) (ops : List ThunkOp) (bad : cs_insn)
      (rest : List cs_insn)
      (hread : P.canRead ea (readSize ThunkBase ea) = true)
      (hdis : cs.disasm (memBytes P.mem ea (readSize ThunkBase ea)) ea 5 = pre ++ bad :: rest)
      (hpre : encodesAll pre ops = true)
      (hbad : isUnsupported bad = true) :
      ReachesUnsupported cs P ThunkBase ea 0
  | hop (ea A hops : Nat) (pre : List cs_insn) (ops : List ThunkOp) (j : cs_insn)
      (rest : List cs_insn)
      (hread : P.canRead ea (readSize ThunkBase ea) = true)
      (hdis : cs.disasm (memBytes P.mem ea (readSize ThunkBase ea)) ea 5 = pre ++ j :: rest)
      (hpre : encodesAll pre ops = true)
      (hj : isJmpImm j A = true)
      (hnext : ReachesUnsupported cs P ThunkBase (A % SIZE_T_MOD) hops) :
      ReachesUnsupported cs P ThunkBase ea (hops + 1)

/-! ## Concrete tables -/

/-- Header of the concrete tables: image at 0x7FF700000000, `.rdata` at RVA 0x2000, so the
table is at 0x7FF700002000, and the IAT directory entry at offset 0x1E8 of the headers. -/
def exampleHeader : REMOTE_PE_HEADER :=
  { remoteBaseAddress := 0x7FF700000000, rdata := some 0x2000, iatDirOffset := 0x1E8 }

/-- Code `movabs rax, 0x7FF712345678; jmp rax`. -/
def thunkCode1 : List Nat :=
  [0x48, 0xB8, 0x78, 0x56, 0x34, 0x12, 0xF7, 0x7F, 0x00, 0x00, 0xFF, 0xE0]

/-- Code `movabs rax, 0x7FF7AABBCCDD; jmp rax`. -/
def thunkCode2 : List Nat :=
  [0x48, 0xB8, 0xDD, 0xCC, 0xBB, 0xAA, 0xF7, 0x7F, 0x00, 0x00, 0xFF, 0xE0]

/-- Directory entry bytes with RVA 0x5000 and size 0x100. -/
def staleDirectory : List Nat := [0x00, 0x50, 0x00, 0x00, 0x00, 0x01, 0x00, 0x00]

/-- A packed table `[0x10000, 0x10100, 0, 0, ...]` whose two thunks resolve to
0x7FF712345678 and 0x7FF7AABBCCDD. -/
def packedTable : Process :=
  openProcess (memOf
    [(0x7FF7000001E8, staleDirectory),
     (0x7FF700002000, [0x00, 0x00, 0x01, 0x00, 0x00, 0x00, 0x00, 0x00,
                       0x00, 0x01, 0x01, 0x00, 0x00, 0x00, 0x00, 0x00]),
     (0x10000, thunkCode1),
     (0x10100, thunkCode2)])
    0x7FF700000000

/-- A packed table `[0x10000, 0x10100, 0x10200, 0, 0, ...]` whose second thunk is a `nop`, in
a process whose first page cannot be accessed. -/
def failingTable : Process :=
  { mem := memOf
      [(0x7FF7000001E8, staleDirectory),
       (0x7FF700002000, [0x00, 0x00, 0x01, 0x00, 0x00, 0x00, 0x00, 0x00,
                         0x00, 0x01, 0x01, 0x00, 0x00, 0x00, 0x00, 0x00,
                         0x00, 0x02, 0x01, 0x00, 0x00, 0x00, 0x00, 0x00]),
       (0x10000, thunkCode1),
       (0x10100, [0x90]),
       (0x10200, thunkCode2)]
    canRead := fun a _ => decide (0x1000 ≤ a)
    canWrite := fun a _ => decide (0x1000 ≤ a)
    imageBase := 0x7FF700000000 }

/-- A table `[0x7FF712345678, 0x7FF7AABBCCDD, 0, ...]` of resolved addresses. -/
def resolvedTable : Process :=
  openProcess (memOf
    [(0x7FF7000001E8, staleDirectory),
     (0x7FF700002000, [0x78, 0x56, 0x34, 0x12, 0xF7, 0x7F, 0x00, 0x00,
                       0xDD, 0xCC, 0xBB, 0xAA, 0xF7, 0x7F, 0x00, 0x00])])
    0x7FF700000000

/-- An empty table (first slot 0) under a directory entry with RVA 0x5000 and size 0x100. -/
def emptyTable : Process :=
  openProcess (memOf [(0x7FF7000001E8, staleDirectory)]) 0x7FF700000000

/-- What the first run on `packedTable` returns. -/
def packedTableRebuilt : RebuildResult :=
  { ret := true
    proc := { packedTable with
      mem := (patchedMem packedTable exampleHeader [0x7FF712345678, 0x7FF7AABBCCDD, 0, 0]) }
    output := [0x7FF712345678, 0x7FF7AABBCCDD, 0, 0]
    calls := [0x10000, 0x10100]
    reads := [0, 1, 2, 3]
    trace :=
      [Event.logFoundIAT 0x7FF700002000,
       Event.remoteRead 0x7FF700002000 0x8000 true,
       Event.remoteRead 0x10000 0x50 true,
       Event.remoteRead 0x10100 0x50 true,
       Event.remoteWrite 0x7FF700002000
         (bytesOfSlots [0x7FF712345678, 0x7FF7AABBCCDD, 0, 0]) true,
       Event.remoteWrite 0x7FF7000001E8 (leBytes 4 0x2000) true,
       Event.remoteWrite 0x7FF7000001EC (leBytes 4 32) true,
       Event.logRestored 2 0x7FF700002000] }

/-! ## Jump re-seats, and further concrete thunks -/

/-- From the loop state (`ea`, `acc`) of `resolve(ThunkBase)`, `hops` jumps to immediate
addresses lead to the loop state (`ea1`, `acc1`): every window on the way is readable and
holds only immediate instructions before its jump. -/
inductive Reseats (cs : Capstone) (P : Process) (ThunkBase : Nat) :
    Nat → Nat → Nat → Nat → Nat → Prop where
  | here (ea acc : Nat) : Reseats cs P ThunkBase ea acc ea acc 0
  | hop (ea acc A ea1 acc1 hops : Nat) (pre : List cs_insn) (ops : List ThunkOp) (j : cs_insn)
      (rest : List cs_insn)
      (hread : P.canRead ea (readSize ThunkBase ea) = true)
      (hdis : cs.disasm (memBytes P.mem ea (readSize ThunkBase ea)) ea 5 = pre ++ j :: rest)
      (hpre : encodesAll pre ops = true)
      (hj : isJmpImm j A = true)
      (hnext : Reseats cs P ThunkBase (A % SIZE_T_MOD) (accumulate acc ops) ea1 acc1 hops) :
      Reseats cs P ThunkBase ea acc ea1 acc1 (hops + 1)

/-- Thunk at 0x10000: `movabs rax, 0x7FF712345678; jmp 0x30000`, in a process whose memory
from 0x20000 on cannot be read. -/
def jumpToUnreadable : Process :=
  { mem := memOf
      [(0x10000, [0x48, 0xB8, 0x78, 0x56, 0x34, 0x12, 0xF7, 0x7F, 0x00, 0x00,
                  0xE9, 0xF1, 0xFF, 0x01, 0x00])]
    canRead := fun a _ => decide (a < 0x20000)
    canWrite := fun a _ => decide (a < 0x20000)
    imageBase := 0x7FF700000000 }

/-- Thunk at 0x10000: `movabs rax, 0x7FF712345678; jmp 0x10100; add rax, 5`, and at 0x10100,
in the same page: `add rax, 0x10; jmp rax`. -/
def carryThunk : Process :=
  openProcess (memOf
    [(0x10000, [0x48, 0xB8, 0x78, 0x56, 0x34, 0x12, 0xF7, 0x7F, 0x00, 0x00,
                0xE9, 0xF1, 0x00, 0x00, 0x00, 0x48, 0x05, 0x05, 0x00, 0x00, 0x00]),
     (0x10100, [0x48, 0x05, 0x10, 0x00, 0x00, 0x00, 0xFF, 0xE0])])
    0x7FF700000000

/-! ## The end of the walk -/

/-- Index `k` of the raw array ends the walk: slot `k` is not a packed thunk, and `k` is 0 or
slot `k - 1` is not a packed thunk either. -/
def isStop (imageBase : Nat) (raw : List Nat) (k : Nat) : Bool :=
  decide (k < raw.length) && !isPacked imageBase (raw.getD k 0) &&
    (decide (k = 0) || !isPacked imageBase (raw.getD (k - 1) 0))

/-- The same for the slots `l` from the current index on, where `inner` tells whether control
is at the head of the inner loop: at the current slot only the outer loop ends the walk. -/
def isStopFrom (imageBase : Nat) (inner : Bool) (l : List Nat) (k : Nat) : Bool :=
  decide (k < l.length) && !isPacked imageBase (l.getD k 0) &&
    (if k = 0 then !inner else !isPacked imageBase (l.getD (k - 1) 0))

/-- Number of boundary slots (slots that are not packed thunks) among the visited slots. -/
def boundaryCount (imageBase : Nat) (visited : List Nat) : Nat :=
  (visited.filter (fun v => !isPacked imageBase v)).length

/-- The outer loop ends the walk at a slot of value `v` (lines 167-172): `v` is not a packed
thunk, or it is at or above 0x00007FF000000000. -/
def endsWalk (imageBase v : Nat) : Bool :=
  !isPacked imageBase v || decide (0x00007FF000000000 ≤ v)

/-- Index `k` of the raw array ends the walk: control is at the head of the outer loop there
(`k` is 0 or slot `k - 1` is not a packed thunk) and slot `k` ends the outer loop. -/
def isEnd (imageBase : Nat) (raw : List Nat) (k : Nat) : Bool :=
  decide (k < raw.length) && endsWalk imageBase (raw.getD k 0) &&
    (decide (k = 0) || !isPacked imageBase (raw.getD (k - 1) 0))

/-- The same for the slots `l` from the current index on, where `inner` tells whether control
is at the head of the inner loop. -/
def isEndFrom (imageBase : Nat) (inner : Bool) (l : List Nat) (k : Nat) : Bool :=
  decide (k < l.length) && endsWalk imageBase (l.getD k 0) &&
    (if k = 0 then !inner else !isPacked imageBase (l.getD (k - 1) 0))

/-- The writes that a trace requested from the memory accessor, as (address, data). -/
def writesOf (tr : List Event) : List (Nat × List Nat) :=
  tr.filterMap (fun e => match e with | .remoteWrite a d _ => some (a, d) | _ => none)

/-! ## Further concrete tables -/

/-- Header of an image in which `.rdata` is not found. -/
def noRdataHeader : REMOTE_PE_HEADER :=
  { remoteBaseAddress := 0x7FF700000000, rdata := none, iatDirOffset := 0x1E8 }

/-- The process of `packedTable` in which the write of the size field of the directory entry,
at 0x7FF7000001EC, fails. -/
def sizeWriteFails : Process :=
  { packedTable with canWrite := fun a _ => decide (a ≠ 0x7FF7000001EC) }

/-- Header of an image loaded at 0x7FE000000000, below the high-address bound, with the table
at 0x7FE000002000 and the IAT directory entry at offset 0x1E8. -/
def lowHeader : REMOTE_PE_HEADER :=
  { remoteBaseAddress := 0x7FE000000000, rdata := some 0x2000, iatDirOffset := 0x1E8 }

/-- A table `[0x10000, 0x7FE000001234, 0x10100, 0, 0, ...]` of an image at 0x7FE000000000: a
slot at or above the image base between two packed thunks. -/
def separatorTable : Process :=
  openProcess (memOf
    [(0x7FE0000001E8, staleDirectory),
     (0x7FE000002000, [0x00, 0x00, 0x01, 0x00, 0x00, 0x00, 0x00, 0x00,
                       0x34, 0x12, 0x00, 0x00, 0xE0, 0x7F, 0x00, 0x00,
                       0x00, 0x01, 0x01, 0x00, 0x00, 0x00, 0x00, 0x00]),
     (0x10000, thunkCode1),
     (0x10100, thunkCode2)])
    0x7FE000000000

end WowDumpFix

namespace WowDumpFix

/-! ## Lemmas on the resolver -/

theorem length_memBytes (mem : Nat → Nat) (a n : Nat) : (memBytes mem a n).length = n := by
  simp [memBytes]

theorem take_window (mem : Nat → Nat) (a n : Nat) (l : List Nat) :
    (memBytes mem a n ++ l).take n = memBytes mem a n := by
  have h := length_memBytes mem a n
  rw [List.take_append_of_le_length (by omega), List.take_of_length_le (by omega)]

/-- One iteration of the loop of `resolve` when the window is readable. -/
theorem resolveLoop_step (cs : Capstone) (P : Process) (ThunkBase fuel ea acc : Nat)
    (tr : List Event) (hread : P.canRead ea (readSize ThunkBase ea) = true) :
    resolveLoop cs P ThunkBase (fuel + 1) ea acc tr =
      if (interpret (cs.disasm (memBytes P.mem ea (readSize ThunkBase ea)) ea 5) ea acc).done
      then some
        ((interpret (cs.disasm (memBytes P.mem ea (readSize ThunkBase ea)) ea 5) ea acc).Import,
          tr ++ Event.remoteRead ea (readSize ThunkBase ea) true ::
            (interpret (cs.disasm (memBytes P.mem ea (readSize ThunkBase ea)) ea 5) ea acc).log)
      else resolveLoop cs P ThunkBase fuel
        (interpret (cs.disasm (memBytes P.mem ea (readSize ThunkBase ea)) ea 5) ea acc).EA
        (interpret (cs.disasm (memBytes P.mem ea (readSize ThunkBase ea)) ea 5) ea acc).Import
        (tr ++ Event.remoteRead ea (readSize ThunkBase ea) true ::
          (interpret (cs.disasm (memBytes P.mem ea (readSize ThunkBase ea)) ea 5) ea acc).log) := by
  simp only [resolveLoop, RemoteRead, hread, if_true, resolveBlock, take_window]

/-- One iteration of the loop of `resolve` when the window cannot be read. -/
theorem resolveLoop_readFail (cs : Capstone) (P : Process) (ThunkBase fuel ea acc : Nat)
    (tr : List Event) (hread : P.canRead ea (readSize ThunkBase ea) = false) :
    resolveLoop cs P ThunkBase (fuel + 1) ea acc tr =
      some (0, tr ++ [Event.remoteRead ea (readSize ThunkBase ea) false,
                      Event.logReadFailed (readSize ThunkBase ea) ea]) := by
  simp [resolveLoop, RemoteRead, hread]

theorem interpret_encodes (ins : cs_insn) (op : ThunkOp) (l : List cs_insn) (EA acc : Nat)
    (h : encodes ins op = true) :
    interpret (ins :: l) EA acc = interpret l EA (op.apply acc) := by
  obtain ⟨id, detail⟩ := ins
  cases detail with
  | none => simp [encodes] at h
  | some d =>
    rcases op with X | Y | Z | Y <;>
      simp only [encodes, Bool.and_eq_true, Bool.or_eq_true, decide_eq_true_eq] at h
    · obtain ⟨-, hid, himm⟩ := h
      rcases hid with hid | hid <;> subst hid <;> simp [interpret, ThunkOp.apply, himm]
    · obtain ⟨-, hid, himm⟩ := h
      subst hid
      simp [interpret, ThunkOp.apply, himm]
    · obtain ⟨-, hid, himm⟩ := h
      subst hid
      have hlt := Nat.mod_lt Z (show SIZE_T_MOD > 0 by decide)
      simp only [interpret, ThunkOp.apply, himm, Nat.add_sub_assoc (Nat.le_of_lt hlt)]
    · obtain ⟨-, hid, himm⟩ := h
      subst hid
      simp [interpret, ThunkOp.apply, himm]

theorem interpret_encodesAll (pre : List cs_insn) (ops : List ThunkOp) (l : List cs_insn)
    (EA acc : Nat) (h : encodesAll pre ops = true) :
    interpret (pre ++ l) EA acc = interpret l EA (accumulate acc ops) := by
  induction pre generalizing ops acc with
  | nil =>
    cases ops with
    | nil => rfl
    | cons _ _ => simp [encodesAll] at h
  | cons ins pre ih =>
    cases ops with
    | nil => simp [encodesAll] at h
    | cons op ops =>
      simp only [encodesAll, Bool.and_eq_true] at h
      rw [List.cons_append, interpret_encodes ins op _ EA acc h.1, ih ops _ h.2]
      rfl

theorem interpret_jmpReg (j : cs_insn) (l : List cs_insn) (EA acc : Nat)
    (h : isJmpReg j = true) :
    interpret (j :: l) EA acc = { done := true, EA := EA, Import := acc, log := [] } := by
  obtain ⟨id, detail⟩ := j
  cases detail with
  | none => simp [isJmpReg] at h
  | some d =>
    simp only [isJmpReg, Bool.and_eq_true, decide_eq_true_eq] at h
    obtain ⟨hid, hty⟩ := h
    subst hid
    simp [interpret, hty]

theorem interpret_jmpImm (j : cs_insn) (A : Nat) (l : List cs_insn) (EA acc : Nat)
    (h : isJmpImm j A = true) :
    interpret (j :: l) EA acc =
      { done := false, EA := A % SIZE_T_MOD, Import := acc, log := [] } := by
  obtain ⟨id, detail⟩ := j
  cases detail with
  | none => simp [isJmpImm] at h
  | some d =>
    simp only [isJmpImm, Bool.and_eq_true, decide_eq_true_eq] at h
    obtain ⟨⟨hid, hty⟩, himm⟩ := h
    subst hid
    simp [interpret, hty, himm]

theorem interpret_unsupported (b : cs_insn) (l : List cs_insn) (EA acc : Nat)
    (h : isUnsupported b = true) :
    interpret (b :: l) EA acc =
      { done := false, EA := 0, Import := acc, log := [Event.logUnhandledInsn EA] } := by
  obtain ⟨id, detail⟩ := b
  cases detail with
  | none => simp [isUnsupported] at h
  | some d =>
    simp only [isUnsupported, Option.isSome_some, Bool.true_and, decide_eq_true_eq] at h
    subst h
    simp [interpret]

theorem unhandledCount_append (a b : List Event) :
    unhandledCount (a ++ b) = unhandledCount a + unhandledCount b := by
  simp [unhandledCount, List.filter_append]

/-- From a cursor that reaches an unsupported instruction, the loop returns 0 with one more
unsupported-instruction entry, when the window at address 0 cannot be read. -/
theorem resolveLoop_unsupported (cs : Capstone) (P : Process) (ThunkBase fuel : Nat)
    (hnull : P.canRead 0 (readSize ThunkBase 0) = false) (ea hops : Nat)
    (h : ReachesUnsupported cs P ThunkBase ea hops) (acc : Nat) (tr0 : List Event) :
    ∃ tr, resolveLoop cs P ThunkBase (hops + 2 + fuel) ea acc tr0 = some (0, tr) ∧
      unhandledCount tr = unhandledCount tr0 + 1 ∧
      Event.logReadFailed (readSize ThunkBase 0) 0 ∈ tr := by
  induction h generalizing acc tr0 with
  | here ea pre ops bad rest hread hdis hpre hbad =>
    have e : 0 + 2 + fuel = (fuel + 1) + 1 := by omega
    rw [e, resolveLoop_step cs P ThunkBase _ ea acc tr0 hread, hdis,
      interpret_encodesAll pre ops _ ea acc hpre, interpret_unsupported bad rest ea _ hbad]
    simp only [Bool.false_eq_true, if_false]
    rw [resolveLoop_readFail cs P ThunkBase fuel 0 _ _ hnull]
    refine ⟨_, rfl, ?_, ?_⟩
    · simp [unhandledCount_append, unhandledCount]
    · simp
  | hop ea A hops pre ops j rest hread hdis hpre hj _ ih =>
    have e : hops + 1 + 2 + fuel = (hops + 2 + fuel) + 1 := by omega
    rw [e, resolveLoop_step cs P ThunkBase _ ea acc tr0 hread, hdis,
      interpret_encodesAll pre ops _ ea acc hpre, interpret_jmpImm j A rest ea _ hj]
    simp only [Bool.false_eq_true, if_false]
    obtain ⟨tr, h1, h2, h3⟩ := ih (accumulate acc ops)
      (tr0 ++ [Event.remoteRead ea (readSize ThunkBase ea) true])
    refine ⟨tr, h1, ?_, h3⟩
    rw [h2]
    simp [unhandledCount_append, unhandledCount]

/-- At the cursor 0x11000 of `pageEndJump` the loop of `resolve(0x10FFB)` makes no progress. -/
theorem pageEndJump_stuck (fuel acc : Nat) (tr : List Event) :
    resolveLoop x64 pageEndJump 0x10FFB fuel 0x11000 acc tr = none := by
  induction fuel generalizing tr with
  | zero => rfl
  | succ fuel ih =>
    have hsz : readSize 0x10FFB 0x11000 = 0 := by decide
    rw [resolveLoop_step x64 pageEndJump 0x10FFB fuel 0x11000 acc tr rfl, hsz]
    exact ih _

/-- At the cursor 0x10000 of `longThunk` the loop of `resolve(0x10000)` makes no progress. -/
theorem longThunk_stuck (fuel acc : Nat) (tr : List Event) :
    resolveLoop x64 longThunk 0x10000 fuel 0x10000 acc tr = none := by
  induction fuel generalizing acc tr with
  | zero => rfl
  | succ fuel ih =>
    have hdis : x64.disasm (memBytes longThunk.mem 0x10000 (readSize 0x10000 0x10000)) 0x10000 5
        = [insRaxImm .X86_INS_MOVABS 0x7FF712345678, insRaxImm .X86_INS_ADD 1,
           insRaxImm .X86_INS_ADD 1, insRaxImm .X86_INS_ADD 1, insRaxImm .X86_INS_ADD 1] ++
          [] := by rfl
    have henc : encodesAll
        [insRaxImm .X86_INS_MOVABS 0x7FF712345678, insRaxImm .X86_INS_ADD 1,
         insRaxImm .X86_INS_ADD 1, insRaxImm .X86_INS_ADD 1, insRaxImm .X86_INS_ADD 1]
        [.load 0x7FF712345678, .add 1, .add 1, .add 1, .add 1] = true := by decide
    rw [resolveLoop_step x64 longThunk 0x10000 fuel 0x10000 acc tr rfl, hdis,
      interpret_encodesAll _ _ [] 0x10000 acc henc]
    exact ih _ _

/-! ## Claims on the resolver -/

/-- C2: a straight-line thunk of immediate instructions (load, add, sub, xor) followed by an
indirect jump via register, all decoded in the first window, resolves to the accumulator
obtained by starting at 0 and applying the instructions in order in 64-bit wrapping
arithmetic; `load X` gives `X`, `load X; add Y; sub Z` gives `X + Y - Z`, and
`load X; xor Y` gives `X ^ Y`. The statement holds for every number of immediate
instructions that the disassembler returns before the jump, in particular for at most four. -/
theorem resolve_straight_line (cs : Capstone) (P : Process) (ThunkBase fuel : Nat)
    (pre : List cs_insn) (ops : List ThunkOp) (j : cs_insn) (rest : List cs_insn)
    (hread : P.canRead ThunkBase (readSize ThunkBase ThunkBase) = true)
    (hdis : cs.disasm (memBytes P.mem ThunkBase (readSize ThunkBase ThunkBase)) ThunkBase 5
      = pre ++ j :: rest)
    (hpre : encodesAll pre ops = true) (hj : isJmpReg j = true) :
    resolve cs P (fuel + 1) ThunkBase
        = some (accumulate 0 ops,
            [Event.remoteRead ThunkBase (readSize ThunkBase ThunkBase) true]) ∧
      (∀ X, accumulate 0 [.load X] = X % 2 ^ 64) ∧
      (∀ X Y Z, (accumulate 0 [.load X, .add Y, .sub Z] : Int)
          = ((X : Int) + (Y : Int) - (Z : Int)) % 2 ^ 64) ∧
      (∀ X Y, accumulate 0 [.load X, .xor Y] = (X % 2 ^ 64) ^^^ (Y % 2 ^ 64)) := by
  refine ⟨?_, ?_, ?_, ?_⟩
  · rw [resolve, resolveLoop_step cs P ThunkBase fuel ThunkBase 0 [] hread, hdis,
      interpret_encodesAll pre ops _ ThunkBase 0 hpre, interpret_jmpReg j rest ThunkBase _ hj]
    simp
  · intro X
    rfl
  · intro X Y Z
    simp only [accumulate, List.foldl, ThunkOp.apply, SIZE_T_MOD]
    omega
  · intro X Y
    rfl

/-- Witness of C2 on the thunk `movabs rax, 0x7FF712345678; add rax, 0x10; sub rax, 0x20;
jmp rax`. -/
theorem resolve_straight_line_witness :
    resolve x64 straightLine 1 0x10000
      = some (0x7FF712345668, [Event.remoteRead 0x10000 0x50 true]) :=
  (resolve_straight_line x64 straightLine 0x10000 0
    [insRaxImm .X86_INS_MOVABS 0x7FF712345678, insRaxImm .X86_INS_ADD 0x10,
      insRaxImm .X86_INS_SUB 0x20]
    [.load 0x7FF712345678, .add 0x10, .sub 0x20]
    (insOne .X86_INS_JMP opRax) [] rfl rfl (by decide) (by decide)).1

/-- C3: on the thunk `pageEndJump` the window at S = 0x10FFB decodes to a jump to
A = 0x11000, the first byte of the page after the page of S, and the code at A decodes to
`movabs rax, 0x7FF712345678; jmp rax`, yet `resolve(S)` requests a window of length 0 at A and
never returns, whatever the fuel. -/
theorem resolve_pageEndJump_never_returns :
    (match x64.disasm (memBytes pageEndJump.mem 0x10FFB (readSize 0x10FFB 0x10FFB)) 0x10FFB 5
      with
      | [j] => isJmpImm j 0x11000
      | _ => false) = true ∧
    (match x64.disasm (memBytes pageEndJump.mem 0x11000 blockSize) 0x11000 5 with
      | [i, j] => encodes i (.load 0x7FF712345678) && isJmpReg j
      | _ => false) = true ∧
    readSize 0x10FFB 0x11000 = 0 ∧
    ∀ fuel, resolve x64 pageEndJump fuel 0x10FFB = none := by
  refine ⟨by decide, by decide, by decide, ?_⟩
  intro fuel
  cases fuel with
  | zero => rfl
  | succ fuel =>
    have hdis : x64.disasm (memBytes pageEndJump.mem 0x10FFB (readSize 0x10FFB 0x10FFB))
        0x10FFB 5 = [] ++ insOne .X86_INS_JMP (opImm 0x11000) :: [] := by rfl
    rw [resolve, resolveLoop_step x64 pageEndJump 0x10FFB fuel 0x10FFB 0 [] rfl, hdis,
      List.nil_append, interpret_jmpImm _ 0x11000 [] 0x10FFB 0 (by decide)]
    exact pageEndJump_stuck fuel _ _

/-- C4: on the thunk `farJump`, `resolve(0x10000)` re-seats the cursor to 0x12FF8, eight bytes
before the end of its page, and requests a window of 0x50 bytes there, which crosses the page
boundary 0x13000: the length is computed from the page of the thunk base, not from the page
of the cursor. -/
theorem resolve_farJump_window_crosses_page :
    resolve x64 farJump 2 0x10000
      = some (0, [Event.remoteRead 0x10000 0x50 true, Event.remoteRead 0x12FF8 0x50 true]) ∧
    bytesToPageEnd 0x12FF8 = 8 ∧
    readSize 0x10000 0x12FF8 = 0x50 ∧
    0x12FF8 / PAGE_SIZE ≠ (0x12FF8 + 0x50 - 1) / PAGE_SIZE := by
  refine ⟨by rfl, by decide, by decide, by decide⟩

/-- C5: on the thunk `longThunk`, whose first five decoded instructions are
`movabs; add; add; add; add` with no jump, `resolve` fetches the same window again and again:
no amount of fuel makes it return, so it neither stops at a step bound nor returns 0. -/
theorem resolve_longThunk_never_returns :
    (match x64.disasm (memBytes longThunk.mem 0x10000 (readSize 0x10000 0x10000)) 0x10000 5 with
      | [i0, i1, i2, i3, i4] =>
        encodesAll [i0, i1, i2, i3, i4] [.load 0x7FF712345678, .add 1, .add 1, .add 1, .add 1]
      | _ => false) = true ∧
    ∀ fuel, resolve x64 longThunk fuel 0x10000 = none := by
  refine ⟨by decide, ?_⟩
  intro fuel
  exact longThunk_stuck fuel 0 []

/-- C6 as stated fails: on `nullReadable` the first window decodes to
`movabs rax, 0x7FF712345678; nop`, so an unsupported instruction is decoded before any
terminal jump, but address 0 is readable and holds `jmp rax`, and `resolve` returns the
accumulator 0x7FF712345678 instead of 0. -/
theorem resolve_unsupported_counterexample :
    (match x64.disasm (memBytes nullReadable.mem 0x10000 (readSize 0x10000 0x10000)) 0x10000 5
      with
      | [i, b] => encodes i (.load 0x7FF712345678) && isUnsupported b
      | _ => false) = true ∧
    resolve x64 nullReadable 2 0x10000
      = some (0x7FF712345678,
          [Event.remoteRead 0x10000 0x50 true, Event.logUnhandledInsn 0x10000,
           Event.remoteRead 0 0x50 true]) := by
  refine ⟨by decide, by rfl⟩

/-- C6 amended: when an instruction outside MOV, MOVABS, ADD, SUB, XOR, JMP is decoded before
any terminal jump (after any number of jumps to immediate addresses and any immediate
instructions), and the window that `resolve` then requests at address 0 cannot be read,
`resolve` returns 0, its trace holds exactly one unsupported-instruction entry, and the
failed read at address 0 is logged; the accumulator plays no role. -/
theorem resolve_unsupported (cs : Capstone) (P : Process) (ThunkBase hops fuel : Nat)
    (h : ReachesUnsupported cs P ThunkBase ThunkBase hops)
    (hnull : P.canRead 0 (readSize ThunkBase 0) = false) :
    ∃ tr, resolve cs P (hops + 2 + fuel) ThunkBase = some (0, tr) ∧
      unhandledCount tr = 1 ∧
      Event.logReadFailed (readSize ThunkBase 0) 0 ∈ tr := by
  obtain ⟨tr, h1, h2, h3⟩ :=
    resolveLoop_unsupported cs P ThunkBase fuel hnull ThunkBase hops h 0 []
  exact ⟨tr, h1, by simpa [unhandledCount] using h2, h3⟩

/-- Witness of C6 amended on `nullUnreadable`: `movabs rax, 0x7FF712345678; nop` with an
unreadable address 0. -/
theorem resolve_unsupported_witness :
    ∃ tr, resolve x64 nullUnreadable (0 + 2 + 0) 0x10000 = some (0, tr) ∧
      unhandledCount tr = 1 ∧
      Event.logReadFailed (readSize 0x10000 0) 0 ∈ tr :=
  resolve_unsupported x64 nullUnreadable 0x10000 0 0
    (ReachesUnsupported.here 0x10000 [insRaxImm .X86_INS_MOVABS 0x7FF712345678]
      [.load 0x7FF712345678] (insNone .other) [] rfl rfl (by decide) (by decide))
    (by decide)

/-! ## Lemmas on memory words -/

theorem leValue_leBytes (w v : Nat) : leValue (leBytes w v) = v % 256 ^ w := by
  induction w generalizing v with
  | zero => simp [leBytes, leValue, Nat.mod_one]
  | succ w ih =>
    have h : leBytes (w + 1) v = v % 256 :: leBytes w (v / 256) := by
      simp only [leBytes, List.range_succ_eq_map, List.map_cons, List.map_map, pow_zero,
        Nat.div_one]
      congr 1
      apply List.map_congr_left
      intro j _
      simp only [Function.comp, pow_succ, Nat.div_div_eq_div_mul]
      rw [Nat.mul_comm]
    rw [h, leValue, ih, Nat.mod_mod, pow_succ', Nat.mod_mul]

theorem length_leBytes (w v : Nat) : (leBytes w v).length = w := by
  simp [leBytes]

theorem length_bytesOfSlots (out : List Nat) :
    (bytesOfSlots out).length = sizeofSIZE_T * out.length := by
  induction out with
  | nil => rfl
  | cons v out ih =>
    simp only [bytesOfSlots, List.flatMap_cons, List.length_append, length_leBytes,
      List.length_cons] at ih ⊢
    rw [ih]
    ring

theorem memBytes_congr (m1 m2 : Nat → Nat) (a w : Nat)
    (h : ∀ j, j < w → m1 (a + j) = m2 (a + j)) : memBytes m1 a w = memBytes m2 a w := by
  apply List.map_congr_left
  intro j hj
  exact h j (List.mem_range.mp hj)

/-- A store leaves the words outside its range unchanged. -/
theorem wordAt_store_frame (mem : Nat → Nat) (a : Nat) (data : List Nat) (b w : Nat)
    (h : b + w ≤ a ∨ a + data.length ≤ b) :
    wordAt (storeBytes mem a data) b w = wordAt mem b w := by
  unfold wordAt
  rw [memBytes_congr (storeBytes mem a data) mem b w]
  intro j hj
  unfold storeBytes
  rw [if_neg]
  omega

/-- A store of the bytes of `v` is read back as `v`. -/
theorem wordAt_store_same (mem : Nat → Nat) (a w v : Nat) :
    wordAt (storeBytes mem a (leBytes w v)) a w = v % 256 ^ w := by
  rw [← leValue_leBytes w v]
  unfold wordAt
  congr 1
  apply List.ext_getElem
  · simp [memBytes, leBytes]
  · intro j h1 h2
    simp only [memBytes, List.length_map, List.length_range] at h1
    simp only [memBytes, List.getElem_map, List.getElem_range, storeBytes, length_leBytes]
    rw [if_pos (by omega), Nat.add_sub_cancel_left, List.getD_eq_getElem _ _ h2]

theorem getElem?_leBytes (w v j : Nat) (hj : j < w) :
    (leBytes w v)[j]? = some (v / 256 ^ j % 256) := by
  simp [leBytes, List.getElem?_map, List.getElem?_range hj]

theorem bytesOfSlots_cons (v : Nat) (out : List Nat) :
    bytesOfSlots (v :: out) = leBytes 8 v ++ bytesOfSlots out := by
  simp [bytesOfSlots, sizeofSIZE_T]

/-- Byte `j` of slot `k` in the bytes of a `SIZE_T` vector. -/
theorem getElem?_bytesOfSlots (out : List Nat) (k j : Nat) (hj : j < 8) :
    (bytesOfSlots out)[8 * k + j]? = out[k]?.map (fun v => v / 256 ^ j % 256) := by
  induction out generalizing k with
  | nil => simp [bytesOfSlots]
  | cons v out ih =>
    rw [bytesOfSlots_cons]
    cases k with
    | zero =>
      rw [List.getElem?_append_left (by rw [length_leBytes]; omega)]
      simp [getElem?_leBytes _ _ _ hj]
    | succ k =>
      rw [List.getElem?_append_right (by rw [length_leBytes]; omega), length_leBytes]
      have e : 8 * (k + 1) + j - 8 = 8 * k + j := by omega
      rw [e, ih k]
      simp

/-- A stored `SIZE_T` vector is read back slot by slot. -/
theorem slotAt_store_slots (mem : Nat → Nat) (a : Nat) (out : List Nat) (k : Nat)
    (hk : k < out.length) :
    slotAt (storeBytes mem a (bytesOfSlots out)) a k = out[k] % 2 ^ 64 := by
  have hv := leValue_leBytes 8 out[k]
  have hp : 256 ^ 8 = 2 ^ 64 := by decide
  rw [hp] at hv
  rw [← hv]
  unfold slotAt wordAt
  simp only [sizeofSIZE_T]
  congr 1
  apply List.ext_getElem?
  intro j
  by_cases hj : j < 8
  · rw [getElem?_leBytes _ _ _ hj]
    have hlen := length_bytesOfSlots out
    simp only [sizeofSIZE_T] at hlen
    simp only [memBytes, List.getElem?_map, List.getElem?_range hj, Option.map_some',
      storeBytes, hlen]
    rw [if_pos (by omega)]
    have e : a + 8 * k + j - a = 8 * k + j := by omega
    rw [e, List.getD_eq_getElem?_getD, getElem?_bytesOfSlots out k j hj,
      List.getElem?_eq_getElem hk]
    rfl
  · have h1 : (memBytes (storeBytes mem a (bytesOfSlots out)) (a + 8 * k) 8)[j]? = none := by
      apply List.getElem?_eq_none
      rw [length_memBytes]; omega
    have h2 : (leBytes 8 out[k])[j]? = none := by
      apply List.getElem?_eq_none
      rw [length_leBytes]; omega
    rw [h1, h2]

/-- A store at the table leaves the slots after the stored bytes unchanged. -/
theorem slotAt_store_after (mem : Nat → Nat) (a : Nat) (data : List Nat) (k : Nat)
    (hk : data.length ≤ 8 * k) :
    slotAt (storeBytes mem a data) a k = slotAt mem a k := by
  unfold slotAt
  apply wordAt_store_frame
  right
  simp only [sizeofSIZE_T]
  omega

/-- The array that the bulk read of the table fills: entry `k` is slot `k` of the target. -/
theorem slotsOfBytes_memBytes (mem : Nat → Nat) (a n : Nat) :
    slotsOfBytes (memBytes mem a (n * sizeofSIZE_T)) n = (List.range n).map (slotAt mem a) := by
  unfold slotsOfBytes
  apply List.map_congr_left
  intro k hk
  have hk := List.mem_range.mp hk
  unfold slotAt wordAt
  simp only [sizeofSIZE_T]
  congr 1
  apply List.ext_getElem?
  intro j
  by_cases hj : j < 8
  · rw [List.getElem?_take_of_lt hj, List.getElem?_drop]
    simp only [memBytes, List.getElem?_map]
    rw [List.getElem?_range (by omega), List.getElem?_range hj]
    simp [Nat.add_assoc]
  · rw [List.getElem?_eq_none, List.getElem?_eq_none]
    · rw [length_memBytes]; omega
    · rw [List.length_take]; omega

/-! ## Lemmas on the table walk -/

theorem isPacked_false_iff (imageBase v : Nat) :
    isPacked imageBase v = false ↔ v = 0 ∨ imageBase ≤ v := by
  simp only [isPacked, Bool.and_eq_false_iff, decide_eq_false_iff_not]
  omega

theorem isPacked_true_iff (imageBase v : Nat) :
    isPacked imageBase v = true ↔ 0 < v ∧ v < imageBase := by
  simp [isPacked]

theorem resVal_of_eq {res : Nat → Option (Nat × List Event)} {t r : Nat} {ev : List Event}
    (h : res t = some (r, ev)) : resVal res t = r := by
  simp [resVal, h]

theorem resEv_of_eq {res : Nat → Option (Nat × List Event)} {t r : Nat} {ev : List Event}
    (h : res t = some (r, ev)) : resEv res t = ev := by
  simp [resEv, h]

/-- The inner loop at a packed thunk that `res` resolves. -/
theorem walk_inner_packed (res : Nat → Option (Nat × List Event)) (imageBase t : Nat)
    (l : List Nat) (s : WalkState) (hp : isPacked imageBase t = true)
    (hr : (res t).isSome = true) :
    walk res imageBase true (t :: l) s = walk res imageBase true l (afterRun res [t] s) := by
  obtain ⟨⟨r, ev⟩, hr⟩ := Option.isSome_iff_exists.mp hr
  rw [isPacked_true_iff] at hp
  simp only [walk, if_true, innerHead, gt_iff_lt, hp.1, ge_iff_le, Nat.not_le.mpr hp.2,
    if_false, hr, afterRun, List.length_singleton, List.map_cons, List.map_nil,
    resVal_of_eq hr, List.range'_one, List.flatMap_cons, List.flatMap_nil, List.append_nil,
    resEv_of_eq hr]

theorem afterRun_cons (res : Nat → Option (Nat × List Event)) (t : Nat) (ts : List Nat)
    (s : WalkState) : afterRun res ts (afterRun res [t] s) = afterRun res (t :: ts) s := by
  simp [afterRun, List.range'_succ]
  omega

theorem afterRun_nil (res : Nat → Option (Nat × List Event)) (s : WalkState) :
    afterRun res [] s = s := by
  simp [afterRun]

/-- The inner loop over a run of packed thunks that `res` resolves. -/
theorem walk_run (res : Nat → Option (Nat × List Event)) (imageBase : Nat) (ts l : List Nat)
    (s : WalkState) (hp : ∀ t ∈ ts, isPacked imageBase t = true)
    (hr : ∀ t ∈ ts, (res t).isSome = true) :
    walk res imageBase true (ts ++ l) s = walk res imageBase true l (afterRun res ts s) := by
  induction ts generalizing s with
  | nil => rw [afterRun_nil]; rfl
  | cons t ts ih =>
    rw [List.cons_append,
      walk_inner_packed res imageBase t _ s (hp t (List.mem_cons_self _ _))
        (hr t (List.mem_cons_self _ _)),
      ih _ (fun u hu => hp u (List.mem_cons_of_mem _ hu))
        (fun u hu => hr u (List.mem_cons_of_mem _ hu)),
      afterRun_cons]

/-- The inner loop at a boundary slot: a zero is appended and the outer loop goes on after
the slot. -/
theorem walk_inner_boundary (res : Nat → Option (Nat × List Event)) (imageBase b : Nat)
    (l : List Nat) (s : WalkState) (hb : isPacked imageBase b = false) :
    walk res imageBase true (b :: l) s = walk res imageBase false l (afterBoundary s) := by
  rw [isPacked_false_iff] at hb
  rcases hb with hb | hb
  · subst hb
    simp [walk, innerHead, afterInner, afterBoundary]
  · by_cases h0 : b > 0
    · simp [walk, innerHead, afterInner, afterBoundary, h0, hb]
    · simp [walk, innerHead, afterInner, afterBoundary, h0]

/-- The outer loop at a packed thunk below the high-address bound enters the inner loop. -/
theorem walk_outer_packed (res : Nat → Option (Nat × List Event)) (imageBase t : Nat)
    (l : List Nat) (s : WalkState) (hp : isPacked imageBase t = true)
    (hhigh : t < 0x00007FF000000000) :
    walk res imageBase false (t :: l) s = walk res imageBase true (t :: l) s := by
  rw [isPacked_true_iff] at hp
  simp [walk, outerHead, hp.1, hp.2, Nat.not_le.mpr hhigh]

/-- The outer loop stops at a slot that is not a packed thunk. -/
theorem walk_outer_stop (res : Nat → Option (Nat × List Event)) (imageBase b : Nat)
    (l : List Nat) (s : WalkState) (hb : isPacked imageBase b = false) :
    walk res imageBase false (b :: l) s = .ok { s with reads := s.reads ++ [s.i] } := by
  rw [isPacked_false_iff] at hb
  have hn : ¬ (b > 0 ∧ b < imageBase) := by omega
  simp [walk, outerHead, hn]

theorem validGroups_cons (imageBase : Nat) (g : List Nat × Nat) (gs : List (List Nat × Nat)) :
    validGroups imageBase (g :: gs) = true ↔
      (g.1 ≠ [] ∧ (∀ t ∈ g.1, isPacked imageBase t = true) ∧ isPacked imageBase g.2 = false) ∧
        validGroups imageBase gs = true := by
  simp [validGroups, and_assoc]

/-- The walk over a sequence of groups followed by a slot that is not a packed thunk. -/
theorem walk_groups (res : Nat → Option (Nat × List Event)) (imageBase : Nat)
    (groups : List (List Nat × Nat)) (b : Nat) (rest : List Nat) (s : WalkState)
    (hhigh : ∀ t ∈ groupSlots groups, isPacked imageBase t = true → t < 0x00007FF000000000)
    (hv : validGroups imageBase groups = true)
    (hr : ∀ t ∈ groupSlots groups, isPacked imageBase t = true → (res t).isSome = true)
    (hb : isPacked imageBase b = false) :
    walk res imageBase false (groupSlots groups ++ b :: rest) s
      = .ok (afterWalk res imageBase (groupSlots groups) groups.length s) := by
  induction groups generalizing s with
  | nil =>
    rw [show groupSlots [] = [] from rfl, List.nil_append, walk_outer_stop _ _ _ _ _ hb]
    simp [afterWalk]
  | cons g gs ih =>
    obtain ⟨ts, bd⟩ := g
    rw [validGroups_cons] at hv
    obtain ⟨⟨hne, hpk, hbd⟩, hvs⟩ := hv
    simp only at hne hpk hbd
    have hslots : groupSlots ((ts, bd) :: gs) = ts ++ bd :: groupSlots gs := by
      simp [groupSlots]
    rw [hslots] at hr hhigh ⊢
    obtain ⟨t, ts1, rfl⟩ := List.exists_cons_of_ne_nil hne
    have ht := hpk t (List.mem_cons_self _ _)
    rw [List.append_assoc, List.cons_append,
      walk_outer_packed res imageBase t _ s ht
        (hhigh t (List.mem_append_left _ (List.mem_cons_self _ _)) ht),
      ← List.cons_append,
      walk_run res imageBase (t :: ts1) _ s hpk
        (fun u hu => hr u (List.mem_append_left _ hu) (hpk u hu)),
      List.cons_append, walk_inner_boundary res imageBase bd _ _ hbd,
      ih _ (fun u hu hp => hhigh u
        (List.mem_append_right _ (List.mem_cons_of_mem _ hu)) hp) hvs
        (fun u hu hp => hr u (List.mem_append_right _ (List.mem_cons_of_mem _ hu)) hp)]
    have hfil : List.filter (isPacked imageBase) (t :: ts1) = t :: ts1 :=
      List.filter_eq_self.mpr hpk
    have hmap : List.map (rebuiltSlot res imageBase) (t :: ts1)
        = List.map (resVal res) (t :: ts1) := by
      apply List.map_congr_left
      intro u hu
      simp [rebuiltSlot, hpk u hu]
    congr 1
    simp only [afterWalk, afterBoundary, afterRun, List.length_append, List.length_cons,
      List.map_append, List.filter_append, hfil, hmap, WalkState.mk.injEq]
    refine ⟨by omega, ?_, by omega, ?_, ?_, ?_⟩
    · simp [rebuiltSlot, hbd, List.map_cons]
    · simp [List.filter_cons, hbd]
    · have e1 : [s.i + (ts1.length + 1)] = List.range' (s.i + (ts1.length + 1)) 1 := by simp
      rw [e1, List.append_assoc, List.append_assoc]
      congr 1
      rw [List.range'_append_1, List.range'_append_1]
      congr 1
      omega
    · simp [List.filter_cons, hbd]

/-! ## Lemmas on `RebuildImports` -/

theorem length_rawTable (mem : Nat → Nat) (a : Nat) :
    (rawTable mem a).length = iatMaxEntryCount := by
  simp [rawTable]

theorem iatSize_eq (out : List Nat) (h : out.length ≤ iatMaxEntryCount + 1) :
    iatSize out = 8 * out.length := by
  simp only [iatMaxEntryCount] at h
  simp only [iatSize, sizeofSIZE_T, SIZE_T_MOD, DWORD_MOD]
  omega

theorem take_bytesOfSlots (out : List Nat) (h : out.length ≤ iatMaxEntryCount + 1) :
    (bytesOfSlots out).take (iatSize out) = bytesOfSlots out := by
  apply List.take_of_length_le
  rw [length_bytesOfSlots, iatSize_eq out h]
  simp [sizeofSIZE_T]

/-- With the directory entry below the table, the address of the size field does not wrap. -/
theorem iatSizeAddress_eq (HeaderData : REMOTE_PE_HEADER)
    (hdir : iatDDAddress HeaderData + 8 ≤ GetImportAddressTable HeaderData) :
    iatSizeAddress HeaderData = iatDDAddress HeaderData + 4 := by
  have hlt : GetImportAddressTable HeaderData < SIZE_T_MOD := by
    unfold GetImportAddressTable
    split
    · exact Nat.mod_lt _ (by decide)
    · decide
  unfold iatSizeAddress
  simp only [sizeofDWORD, SIZE_T_MOD] at hlt ⊢
  exact Nat.mod_eq_of_lt (by omega)

/-- With the directory entry in the last four bytes of the address space, the address of the
size field wraps to 0. -/
theorem iatSizeAddress_wraps :
    iatDDAddress { remoteBaseAddress := 0xFFFFFFFFFFFFFE14, rdata := none, iatDirOffset := 0x1E8 }
      = 0xFFFFFFFFFFFFFFFC ∧
    iatSizeAddress { remoteBaseAddress := 0xFFFFFFFFFFFFFE14, rdata := none, iatDirOffset := 0x1E8 }
      = 0 := by
  decide

/-- Everything after the walk, when the three writes succeed. -/
theorem finishRebuild_ok (P : Process) (HeaderData : REMOTE_PE_HEADER) (w : WalkState)
    (tr : List Event)
    (hlen : w.unpackedThunkArray.length ≤ iatMaxEntryCount)
    (hw1 : P.canWrite (GetImportAddressTable HeaderData)
      (8 * (w.unpackedThunkArray.length + 1)) = true)
    (hw2 : P.canWrite (iatDDAddress HeaderData) 4 = true)
    (hw3 : P.canWrite (iatSizeAddress HeaderData) 4 = true) :
    finishRebuild P HeaderData w tr =
      { ret := true
        proc := { P with mem := patchedMem P HeaderData (w.unpackedThunkArray ++ [0]) }
        output := w.unpackedThunkArray ++ [0]
        calls := w.calls
        reads := w.reads
        trace := tr ++ w.trace ++
          [Event.remoteWrite (GetImportAddressTable HeaderData)
              (bytesOfSlots (w.unpackedThunkArray ++ [0])) true,
            Event.remoteWrite (iatDDAddress HeaderData)
              (leBytes 4 (iatRVA HeaderData)) true,
            Event.remoteWrite (iatSizeAddress HeaderData)
              (leBytes 4 (8 * (w.unpackedThunkArray.length + 1))) true,
            Event.logRestored
              ((w.unpackedThunkArray.length + 1 + SIZE_T_MOD - w.importCountDelta) % SIZE_T_MOD)
              (GetImportAddressTable HeaderData)] } := by
  have hl : (w.unpackedThunkArray ++ [0]).length ≤ iatMaxEntryCount + 1 := by
    simp only [List.length_append, List.length_singleton]; omega
  have hsz := iatSize_eq _ hl
  have htk := take_bytesOfSlots _ hl
  have hbl := length_bytesOfSlots (w.unpackedThunkArray ++ [0])
  simp only [List.length_append, List.length_singleton, sizeofSIZE_T] at hsz hbl
  rw [iatSize_eq _ hl] at htk
  simp only [List.length_append, List.length_singleton] at htk
  simp only [finishRebuild, patchedMem, htk, RemoteWrite, hbl, hw1, if_true, sizeofDWORD,
    length_leBytes, hw2, hw3, hsz, List.length_append, List.length_singleton,
    List.append_assoc, List.cons_append, List.nil_append]

/-- The run on a table made of groups followed by a slot that is not a packed thunk, up to
the end of the walk. -/
theorem RebuildImportsWith_groups (res : Nat → Option (Nat × List Event)) (cs : Capstone)
    (P : Process) (HeaderData : REMOTE_PE_HEADER) (groups : List (List Nat × Nat)) (b : Nat)
    (rest : List Nat)
    (hopen : cs.openOk = true)
    (hread : P.canRead (GetImportAddressTable HeaderData)
      (iatMaxEntryCount * sizeofSIZE_T) = true)
    (htable : rawTable P.mem (GetImportAddressTable HeaderData) = groupSlots groups ++ b :: rest)
    (hhigh : ∀ t ∈ groupSlots groups, isPacked P.imageBase t = true → t < 0x00007FF000000000)
    (hv : validGroups P.imageBase groups = true)
    (hr : ∀ t ∈ groupSlots groups, isPacked P.imageBase t = true → (res t).isSome = true)
    (hb : isPacked P.imageBase b = false) :
    RebuildImportsWith res cs P HeaderData =
      .ok (finishRebuild P HeaderData
        (afterWalk res P.imageBase (groupSlots groups) groups.length walkInit)
        [Event.logFoundIAT (GetImportAddressTable HeaderData),
         Event.remoteRead (GetImportAddressTable HeaderData)
           (iatMaxEntryCount * sizeofSIZE_T) true]) := by
  have hw := walk_groups res P.imageBase groups b rest walkInit hhigh hv hr hb
  rw [← htable] at hw
  simp only [RebuildImportsWith, hopen, if_true, RemoteRead, hread, slotsOfBytes_memBytes]
  rw [show (List.range iatMaxEntryCount).map (slotAt P.mem (GetImportAddressTable HeaderData))
    = rawTable P.mem (GetImportAddressTable HeaderData) from rfl, hw]
  rfl

/-- After the three writes, slot `k` of the table holds entry `k` of the vector written. -/
theorem patchedMem_slot (P : Process) (HeaderData : REMOTE_PE_HEADER) (out : List Nat) (k : Nat)
    (hlen : out.length ≤ iatMaxEntryCount + 1)
    (hdir : iatDDAddress HeaderData + 8 ≤ GetImportAddressTable HeaderData)
    (hk : k < out.length) :
    slotAt (patchedMem P HeaderData out) (GetImportAddressTable HeaderData) k
      = out[k] % 2 ^ 64 := by
  rw [← slotAt_store_slots P.mem (GetImportAddressTable HeaderData) out k hk]
  unfold patchedMem slotAt
  rw [iatSizeAddress_eq HeaderData hdir, take_bytesOfSlots out hlen,
    wordAt_store_frame _ _ _ _ _ (by right; rw [length_leBytes]; simp only [sizeofDWORD]; omega),
    wordAt_store_frame _ _ _ _ _ (by right; rw [length_leBytes]; simp only [sizeofDWORD]; omega)]

/-- After the three writes, the slots behind the vector written are unchanged. -/
theorem patchedMem_slot_after (P : Process) (HeaderData : REMOTE_PE_HEADER) (out : List Nat)
    (k : Nat) (hlen : out.length ≤ iatMaxEntryCount + 1)
    (hdir : iatDDAddress HeaderData + 8 ≤ GetImportAddressTable HeaderData)
    (hk : out.length ≤ k) :
    slotAt (patchedMem P HeaderData out) (GetImportAddressTable HeaderData) k
      = slotAt P.mem (GetImportAddressTable HeaderData) k := by
  have hb := length_bytesOfSlots out
  simp only [sizeofSIZE_T] at hb
  rw [← slotAt_store_after P.mem (GetImportAddressTable HeaderData) (bytesOfSlots out) k
    (by omega)]
  unfold patchedMem slotAt
  rw [iatSizeAddress_eq HeaderData hdir, take_bytesOfSlots out hlen,
    wordAt_store_frame _ _ _ _ _ (by right; rw [length_leBytes]; simp only [sizeofDWORD]; omega),
    wordAt_store_frame _ _ _ _ _ (by right; rw [length_leBytes]; simp only [sizeofDWORD]; omega)]

/-- After the three writes, the size field of the directory entry holds `iatSize`. -/
theorem patchedMem_size (P : Process) (HeaderData : REMOTE_PE_HEADER) (out : List Nat)
    (hdir : iatDDAddress HeaderData + 8 ≤ GetImportAddressTable HeaderData) :
    dwordAt (patchedMem P HeaderData out) (iatDDAddress HeaderData + 4) = iatSize out := by
  unfold patchedMem dwordAt
  rw [iatSizeAddress_eq HeaderData hdir]
  simp only [sizeofDWORD]
  rw [wordAt_store_same]
  have : iatSize out < 2 ^ 32 := Nat.mod_lt _ (by decide)
  exact Nat.mod_eq_of_lt (by simpa using this)

/-- After the three writes, the RVA field of the directory entry holds `iatRVA`. -/
theorem patchedMem_rva (P : Process) (HeaderData : REMOTE_PE_HEADER) (out : List Nat) :
    dwordAt (patchedMem P HeaderData out) (iatDDAddress HeaderData) = iatRVA HeaderData := by
  have hdd : iatDDAddress HeaderData < 2 ^ 64 := Nat.mod_lt _ (by decide)
  have hsa : iatDDAddress HeaderData + 4 ≤ iatSizeAddress HeaderData ∨
      iatSizeAddress HeaderData + 4 ≤ iatDDAddress HeaderData := by
    unfold iatSizeAddress
    simp only [sizeofDWORD, SIZE_T_MOD]
    omega
  unfold patchedMem dwordAt
  simp only [sizeofDWORD]
  rw [wordAt_store_frame _ _ _ _ _ (by rw [length_leBytes]; exact hsa), wordAt_store_same]
  have : iatRVA HeaderData < 2 ^ 32 := Nat.mod_lt _ (by decide)
  exact Nat.mod_eq_of_lt (by simpa using this)

/-! ## Lemmas on the patched memory and on complete runs -/

theorem interpret_lt (l : List cs_insn) (EA acc : Nat) (h : acc < SIZE_T_MOD) :
    (interpret l EA acc).Import < SIZE_T_MOD := by
  induction l generalizing acc with
  | nil => exact h
  | cons ins l ih =>
    obtain ⟨id, detail⟩ := ins
    have hm : ∀ x : Nat, x % SIZE_T_MOD < SIZE_T_MOD := fun x => Nat.mod_lt _ (by decide)
    cases detail with
    | none => exact h
    | some d =>
      cases id <;> simp only [interpret]
      · exact ih _ (hm _)
      · exact ih _ (hm _)
      · exact ih _ (hm _)
      · exact ih _ (hm _)
      · exact ih _ (Nat.xor_lt_two_pow h (hm _))
      · split <;> exact h
      · exact h

theorem resolveLoop_lt (cs : Capstone) (P : Process) (ThunkBase fuel ea acc : Nat)
    (tr : List Event) (h : acc < SIZE_T_MOD) (v : Nat) (tr1 : List Event)
    (hres : resolveLoop cs P ThunkBase fuel ea acc tr = some (v, tr1)) : v < SIZE_T_MOD := by
  induction fuel generalizing ea acc tr with
  | zero => simp [resolveLoop] at hres
  | succ fuel ih =>
    by_cases hread : P.canRead ea (readSize ThunkBase ea) = true
    · rw [resolveLoop_step cs P ThunkBase fuel ea acc tr hread] at hres
      split at hres
      · simp only [Option.some.injEq, Prod.mk.injEq] at hres
        rw [← hres.1]
        exact interpret_lt _ _ _ h
      · exact ih _ _ _ (interpret_lt _ _ _ h) hres
    · rw [resolveLoop_readFail cs P ThunkBase fuel ea acc tr (by simpa using hread)] at hres
      simp only [Option.some.injEq, Prod.mk.injEq] at hres
      rw [← hres.1]
      decide

/-- Whatever `resolve` returns is below `2 ^ 64`. -/
theorem resVal_resolve_lt (cs : Capstone) (P : Process) (fuel t : Nat) :
    resVal (resolve cs P fuel) t < 2 ^ 64 := by
  unfold resVal
  split
  · next v ev hres => exact resolveLoop_lt cs P t fuel t 0 [] (by decide) v ev hres
  · decide

theorem rebuiltSlot_resolve_lt (cs : Capstone) (P : Process) (fuel imageBase v : Nat) :
    rebuiltSlot (resolve cs P fuel) imageBase v < 2 ^ 64 := by
  unfold rebuiltSlot
  split
  · exact resVal_resolve_lt cs P fuel v
  · decide

/-- The complete run on a table made of groups followed by a slot that is not a packed
thunk, when every access succeeds. -/
theorem RebuildImportsWith_groups_ok (res : Nat → Option (Nat × List Event)) (cs : Capstone)
    (P : Process) (HeaderData : REMOTE_PE_HEADER) (groups : List (List Nat × Nat)) (b : Nat)
    (rest : List Nat)
    (hopen : cs.openOk = true)
    (hread : P.canRead (GetImportAddressTable HeaderData)
      (iatMaxEntryCount * sizeofSIZE_T) = true)
    (htable : rawTable P.mem (GetImportAddressTable HeaderData) = groupSlots groups ++ b :: rest)
    (hhigh : ∀ t ∈ groupSlots groups, isPacked P.imageBase t = true → t < 0x00007FF000000000)
    (hv : validGroups P.imageBase groups = true)
    (hr : ∀ t ∈ groupSlots groups, isPacked P.imageBase t = true → (res t).isSome = true)
    (hb : isPacked P.imageBase b = false)
    (hw1 : P.canWrite (GetImportAddressTable HeaderData)
      (8 * ((groupSlots groups).length + 1)) = true)
    (hw2 : P.canWrite (iatDDAddress HeaderData) 4 = true)
    (hw3 : P.canWrite (iatSizeAddress HeaderData) 4 = true) :
    RebuildImportsWith res cs P HeaderData =
      .ok { ret := true
            proc := { P with mem := (patchedMem P HeaderData
              ((groupSlots groups).map (rebuiltSlot res P.imageBase) ++ [0])) }
            output := (groupSlots groups).map (rebuiltSlot res P.imageBase) ++ [0]
            calls := (groupSlots groups).filter (isPacked P.imageBase)
            reads := List.range' 0 ((groupSlots groups).length + 1)
            trace :=
              [Event.logFoundIAT (GetImportAddressTable HeaderData),
               Event.remoteRead (GetImportAddressTable HeaderData)
                 (iatMaxEntryCount * sizeofSIZE_T) true] ++
              ((groupSlots groups).filter (isPacked P.imageBase)).flatMap (resEv res) ++
              [Event.remoteWrite (GetImportAddressTable HeaderData)
                 (bytesOfSlots ((groupSlots groups).map (rebuiltSlot res P.imageBase) ++ [0]))
                 true,
               Event.remoteWrite (iatDDAddress HeaderData) (leBytes 4 (iatRVA HeaderData)) true,
               Event.remoteWrite (iatSizeAddress HeaderData)
                 (leBytes 4 (8 * ((groupSlots groups).length + 1))) true,
               Event.logRestored
                 (((groupSlots groups).length + 1 + SIZE_T_MOD - (1 + groups.length))
                   % SIZE_T_MOD)
                 (GetImportAddressTable HeaderData)] } := by
  have hlen := congrArg List.length htable
  rw [length_rawTable, List.length_append, List.length_cons] at hlen
  rw [RebuildImportsWith_groups res cs P HeaderData groups b rest hopen hread htable hhigh hv
    hr hb, finishRebuild_ok]
  · simp [afterWalk, walkInit]
  · simp only [afterWalk, walkInit, List.nil_append, List.length_map]; omega
  · simpa [afterWalk, walkInit] using hw1
  · exact hw2
  · exact hw3

/-- The first slot of the raw table. -/
theorem rawTable_cons (mem : Nat → Nat) (a : Nat) :
    rawTable mem a = slotAt mem a 0 :: (rawTable mem a).tail := by
  have hcons : ∀ l : List Nat, ∀ h : 0 < l.length, l = l[0] :: l.tail := by
    intro l h
    cases l with
    | nil => simp at h
    | cons x xs => rfl
  have hlen : 0 < (rawTable mem a).length := by rw [length_rawTable]; decide
  have h0 : (rawTable mem a)[0] = slotAt mem a 0 := by simp [rawTable]
  rw [← h0]
  exact hcons _ hlen

/-- The complete run on a table whose first slot is not a packed thunk, when every access
succeeds: nothing is resolved and a single zero slot is written. -/
theorem RebuildImportsWith_stop_first (res : Nat → Option (Nat × List Event)) (cs : Capstone)
    (P : Process) (HeaderData : REMOTE_PE_HEADER)
    (hopen : cs.openOk = true)
    (hread : P.canRead (GetImportAddressTable HeaderData)
      (iatMaxEntryCount * sizeofSIZE_T) = true)
    (hfirst : isPacked P.imageBase (slotAt P.mem (GetImportAddressTable HeaderData) 0) = false)
    (hw1 : P.canWrite (GetImportAddressTable HeaderData) 8 = true)
    (hw2 : P.canWrite (iatDDAddress HeaderData) 4 = true)
    (hw3 : P.canWrite (iatSizeAddress HeaderData) 4 = true) :
    RebuildImportsWith res cs P HeaderData =
      .ok { ret := true
            proc := { P with mem := patchedMem P HeaderData [0] }
            output := [0]
            calls := []
            reads := [0]
            trace :=
              [Event.logFoundIAT (GetImportAddressTable HeaderData),
               Event.remoteRead (GetImportAddressTable HeaderData)
                 (iatMaxEntryCount * sizeofSIZE_T) true,
               Event.remoteWrite (GetImportAddressTable HeaderData) (bytesOfSlots [0]) true,
               Event.remoteWrite (iatDDAddress HeaderData) (leBytes 4 (iatRVA HeaderData)) true,
               Event.remoteWrite (iatSizeAddress HeaderData) (leBytes 4 8) true,
               Event.logRestored 0 (GetImportAddressTable HeaderData)] } := by
  rw [RebuildImportsWith_groups_ok res cs P HeaderData [] _ _ hopen hread
    (rawTable_cons P.mem _) (by simp [groupSlots]) rfl (by simp [groupSlots]) hfirst
    (by simpa [groupSlots] using hw1) hw2 hw3]
  simp [groupSlots, SIZE_T_MOD]

theorem forall₂_resolved (res : Nat → Option (Nat × List Event)) (ts rs : List Nat)
    (h : List.Forall₂ (fun t r => ∃ ev, res t = some (r, ev)) ts rs) :
    ts.map (resVal res) = rs ∧ ∀ t ∈ ts, (res t).isSome = true := by
  induction h with
  | nil => simp
  | cons hhead _ ih =>
    obtain ⟨ev, hev⟩ := hhead
    refine ⟨by simp [resVal_of_eq hev, ih.1], ?_⟩
    intro t ht
    rcases List.mem_cons.mp ht with rfl | ht
    · simp [hev]
    · exact ih.2 t ht

theorem map_rebuiltSlot_packed (res : Nat → Option (Nat × List Event)) (imageBase : Nat)
    (ts : List Nat) (hp : ∀ t ∈ ts, isPacked imageBase t = true) :
    ts.map (rebuiltSlot res imageBase) = ts.map (resVal res) := by
  apply List.map_congr_left
  intro t ht
  simp [rebuiltSlot, hp t ht]

/-- The raw table split after its first `n` slots. -/
theorem rawTable_split (mem : Nat → Nat) (a n : Nat) (hn : n ≤ iatMaxEntryCount) :
    rawTable mem a = (List.range n).map (slotAt mem a) ++ (rawTable mem a).drop n := by
  have h := (List.take_append_drop n (rawTable mem a)).symm
  have ht : (rawTable mem a).take n = (List.range n).map (slotAt mem a) := by
    unfold rawTable
    rw [← List.map_take, List.take_range, Nat.min_eq_left hn]
  rw [ht] at h
  exact h

/-- The raw table split after its first `n` slots, of values `l`. -/
theorem rawTable_firstSlots (mem : Nat → Nat) (a n : Nat) (l : List Nat)
    (hn : n ≤ iatMaxEntryCount) (hl : (List.range n).map (slotAt mem a) = l) :
    rawTable mem a = l ++ (rawTable mem a).drop n := by
  rw [← hl]
  exact rawTable_split mem a n hn

theorem append_cons_cons (ts : List Nat) (x y : Nat) (rest : List Nat) :
    (ts ++ [x, y]) ++ rest = ts ++ x :: y :: rest := by
  simp

theorem packedTable_raw :
    rawTable packedTable.mem (GetImportAddressTable exampleHeader)
      = [0x10000, 0x10100] ++ 0 :: 0 ::
        (rawTable packedTable.mem (GetImportAddressTable exampleHeader)).drop 4 :=
  (rawTable_firstSlots packedTable.mem (GetImportAddressTable exampleHeader) 4
    ([0x10000, 0x10100] ++ [0, 0]) (by decide) (by rfl)).trans (append_cons_cons _ _ _ _)

theorem failingGroups_slots (X : List Nat) :
    ([0x10000, 0x10100, 0x10200] ++ [0, 0]) ++ X
      = groupSlots [([0x10000, 0x10100, 0x10200], 0)] ++ 0 :: X := by
  simp [groupSlots]

theorem failingTable_raw :
    rawTable failingTable.mem (GetImportAddressTable exampleHeader)
      = groupSlots [([0x10000, 0x10100, 0x10200], 0)] ++ 0 ::
        (rawTable failingTable.mem (GetImportAddressTable exampleHeader)).drop 5 :=
  (rawTable_firstSlots failingTable.mem (GetImportAddressTable exampleHeader) 5
    ([0x10000, 0x10100, 0x10200] ++ [0, 0]) (by decide) (by rfl)).trans
    (failingGroups_slots _)

theorem resolvedTable_slots :
    (List.range 3).map (slotAt resolvedTable.mem (GetImportAddressTable exampleHeader))
      = [0x7FF712345678, 0x7FF7AABBCCDD, 0] := by
  rfl

theorem staleDirectory_fields (P : Process)
    (h : memBytes P.mem (iatDDAddress exampleHeader) 8 = staleDirectory) :
    dwordAt P.mem (iatDDAddress exampleHeader) = 0x5000 ∧
      dwordAt P.mem (iatDDAddress exampleHeader + 4) = 0x100 := by
  have h0 : memBytes P.mem (iatDDAddress exampleHeader) 4 = [0x00, 0x50, 0x00, 0x00] := by
    have := congrArg (List.take 4) h
    simpa [memBytes, staleDirectory, List.range, List.range.loop] using this
  have h1 : memBytes P.mem (iatDDAddress exampleHeader + 4) 4 = [0x00, 0x01, 0x00, 0x00] := by
    have := congrArg (List.drop 4) h
    simpa [memBytes, staleDirectory, List.range, List.range.loop, Nat.add_assoc] using this
  constructor
  · simp only [dwordAt, wordAt, sizeofDWORD, h0]; decide
  · simp only [dwordAt, wordAt, sizeofDWORD, h1]; decide

theorem RemoteWrite_some (P P1 : Process) (a : Nat) (d : List Nat)
    (h : RemoteWrite P a d = some P1) :
    P.canWrite a d.length = true ∧ P1 = { P with mem := storeBytes P.mem a d } := by
  unfold RemoteWrite at h
  split at h
  · next hc =>
    injection h with h
    exact ⟨hc, h.symm⟩
  · exact Option.noConfusion h

/-- The vector written is the walk's vector with the terminator of line 188. -/
theorem finishRebuild_output (P : Process) (HeaderData : REMOTE_PE_HEADER) (w : WalkState)
    (tr : List Event) :
    (finishRebuild P HeaderData w tr).output = w.unpackedThunkArray ++ [0] := by
  unfold finishRebuild
  dsimp only
  split
  · rfl
  · split
    · rfl
    · split <;> rfl

/-- The part after the walk returns success only after its three writes. -/
theorem finishRebuild_ret_true (P : Process) (HeaderData : REMOTE_PE_HEADER) (w : WalkState)
    (tr : List Event) (hret : (finishRebuild P HeaderData w tr).ret = true) :
    P.canWrite (iatDDAddress HeaderData) 4 = true ∧
      P.canWrite (iatSizeAddress HeaderData) 4 = true ∧
      (finishRebuild P HeaderData w tr).proc
        = { P with mem := patchedMem P HeaderData (finishRebuild P HeaderData w tr).output } := by
  unfold finishRebuild at hret ⊢
  dsimp only at hret ⊢
  cases h1 : RemoteWrite P (GetImportAddressTable HeaderData)
      (List.take (iatSize (w.unpackedThunkArray ++ [0]))
        (bytesOfSlots (w.unpackedThunkArray ++ [0]))) with
  | none =>
    rw [h1] at hret
    exact Bool.noConfusion hret
  | some P1 =>
    rw [h1] at hret
    dsimp only at hret ⊢
    obtain ⟨-, hP1⟩ := RemoteWrite_some _ _ _ _ h1
    cases h2 : RemoteWrite P1 (iatDDAddress HeaderData)
        (leBytes sizeofDWORD (iatRVA HeaderData)) with
    | none =>
      rw [h2] at hret
      exact Bool.noConfusion hret
    | some P2 =>
      rw [h2] at hret
      dsimp only at hret ⊢
      obtain ⟨hc2, hP2⟩ := RemoteWrite_some _ _ _ _ h2
      cases h3 : RemoteWrite P2 (iatSizeAddress HeaderData)
          (leBytes sizeofDWORD (iatSize (w.unpackedThunkArray ++ [0]))) with
      | none =>
        rw [h3] at hret
        exact Bool.noConfusion hret
      | some P3 =>
        dsimp only
        obtain ⟨hc3, hP3⟩ := RemoteWrite_some _ _ _ _ h3
        rw [length_leBytes] at hc2 hc3
        subst hP1
        subst hP2
        subst hP3
        exact ⟨hc2, hc3, rfl⟩

/-- A run that returns success has made its three writes: the target is the process with
the patched memory, and the accesses it needed were allowed. -/
theorem RebuildImportsWith_ret_true (res : Nat → Option (Nat × List Event)) (cs : Capstone)
    (P : Process) (HeaderData : REMOTE_PE_HEADER) (r : RebuildResult)
    (h : RebuildImportsWith res cs P HeaderData = .ok r) (hret : r.ret = true) :
    cs.openOk = true ∧
      P.canRead (GetImportAddressTable HeaderData) (iatMaxEntryCount * sizeofSIZE_T) = true ∧
      P.canWrite (iatDDAddress HeaderData) 4 = true ∧
      P.canWrite (iatSizeAddress HeaderData) 4 = true ∧
      r.proc = { P with mem := patchedMem P HeaderData r.output } ∧
      0 < r.output.length := by
  unfold RebuildImportsWith at h
  split at h
  · next hopen =>
    dsimp only at h
    split at h
    · injection h with h
      subst h
      exact Bool.noConfusion hret
    · next bytes hrd =>
      have hread : P.canRead (GetImportAddressTable HeaderData)
          (iatMaxEntryCount * sizeofSIZE_T) = true := by
        unfold RemoteRead at hrd
        split at hrd
        · assumption
        · exact Option.noConfusion hrd
      split at h
      · exact Except.noConfusion h
      · next w _ =>
        injection h with h
        subst h
        obtain ⟨h2, h3, hp⟩ := finishRebuild_ret_true P HeaderData w _ hret
        refine ⟨hopen, hread, h2, h3, hp, ?_⟩
        rw [finishRebuild_output]
        simp
  · injection h with h
    subst h
    exact Bool.noConfusion hret

/-- The first run on `packedTable`. -/
theorem packedTable_first_run :
    RebuildImports x64 1 packedTable exampleHeader = .ok packedTableRebuilt := by
  have hraw : rawTable packedTable.mem (GetImportAddressTable exampleHeader)
      = groupSlots [([0x10000, 0x10100], 0)] ++ 0 ::
        (rawTable packedTable.mem (GetImportAddressTable exampleHeader)).drop 4 :=
    packedTable_raw.trans
      ((fun X => by simp [groupSlots] :
        ∀ X : List Nat, [0x10000, 0x10100] ++ 0 :: 0 :: X
          = groupSlots [([0x10000, 0x10100], 0)] ++ 0 :: X) _)
  have hrun := RebuildImportsWith_groups_ok (resolve x64 packedTable 1) x64 packedTable
    exampleHeader [([0x10000, 0x10100], 0)] 0 _ rfl rfl hraw (by decide) (by decide)
    (by decide) (by decide) rfl rfl rfl
  have hout : (groupSlots [([0x10000, 0x10100], 0)]).map
      (rebuiltSlot (resolve x64 packedTable 1) packedTable.imageBase) ++ [0]
        = [0x7FF712345678, 0x7FF7AABBCCDD, 0, 0] := by rfl
  rw [hout] at hrun
  rw [RebuildImports, hrun]
  rfl

/-- The table slots of the target after the first run on `packedTable`. -/
theorem packedTableRebuilt_slots (k : Nat) (hk : k < 4) :
    slotAt packedTableRebuilt.proc.mem (GetImportAddressTable exampleHeader) k
      = [0x7FF712345678, 0x7FF7AABBCCDD, 0, 0].getD k 0 := by
  show slotAt (patchedMem packedTable exampleHeader [0x7FF712345678, 0x7FF7AABBCCDD, 0, 0])
    _ k = _
  rw [patchedMem_slot packedTable exampleHeader [0x7FF712345678, 0x7FF7AABBCCDD, 0, 0] k
    (by decide) (by decide) hk]
  interval_cases k <;> rfl

/-- A second run on the target of a successful run whose rebuilt slots are resolved
addresses or zero. -/
theorem second_run (cs : Capstone) (fuel : Nat) (P : Process) (HeaderData : REMOTE_PE_HEADER)
    (r1 : RebuildResult)
    (hfirst : RebuildImports cs fuel P HeaderData = .ok r1) (hret : r1.ret = true)
    (hslots : ∀ k, k < r1.output.length →
      slotAt r1.proc.mem (GetImportAddressTable HeaderData) k = 0 ∨
        P.imageBase ≤ slotAt r1.proc.mem (GetImportAddressTable HeaderData) k)
    (hw1 : P.canWrite (GetImportAddressTable HeaderData) 8 = true) :
    RebuildImports cs fuel r1.proc HeaderData = .ok
        { ret := true
          proc := { r1.proc with mem := patchedMem r1.proc HeaderData [0] }
          output := [0]
          calls := []
          reads := [0]
          trace :=
            [Event.logFoundIAT (GetImportAddressTable HeaderData),
             Event.remoteRead (GetImportAddressTable HeaderData)
               (iatMaxEntryCount * sizeofSIZE_T) true,
             Event.remoteWrite (GetImportAddressTable HeaderData) (bytesOfSlots [0]) true,
             Event.remoteWrite (iatDDAddress HeaderData) (leBytes 4 (iatRVA HeaderData)) true,
             Event.remoteWrite (iatSizeAddress HeaderData) (leBytes 4 8) true,
             Event.logRestored 0 (GetImportAddressTable HeaderData)] } ∧
      dwordAt r1.proc.mem (iatDDAddress HeaderData) = iatRVA HeaderData := by
  obtain ⟨hopen, hread, h2, h3, hp, hne⟩ :=
    RebuildImportsWith_ret_true (resolve cs P fuel) cs P HeaderData r1 hfirst hret
  have hslot : isPacked P.imageBase
      (slotAt r1.proc.mem (GetImportAddressTable HeaderData) 0) = false :=
    (isPacked_false_iff _ _).mpr (hslots 0 hne)
  have hcr : r1.proc.canRead = P.canRead := by rw [hp]
  have hcw : r1.proc.canWrite = P.canWrite := by rw [hp]
  have hib : r1.proc.imageBase = P.imageBase := by rw [hp]
  constructor
  · exact RebuildImportsWith_stop_first (resolve cs r1.proc fuel) cs r1.proc HeaderData hopen
      (by rw [hcr]; exact hread) (by rw [hib]; exact hslot) (by rw [hcw]; exact hw1)
      (by rw [hcw]; exact h2) (by rw [hcw]; exact h3)
  · rw [hp]
    exact patchedMem_rva P HeaderData r1.output

/-! ## Claims on `RebuildImports` -/

/-- C1: for a raw table whose first n >= 1 slots are packed thunks T1..Tn (nonzero, below the
image base and below 0x00007FF000000000) followed by two zero slots, with every access
succeeding and resolve(Ti) = Ri, `RebuildImports` returns success, resolves T1..Tn, writes
exactly [R1, ..., Rn, 0, 0] at the table address, and patches the directory size field to
(n + 2) * 8. The directory entry is assumed to lie before the table, as the headers do. -/
theorem rebuild_packed_group (cs : Capstone) (fuel : Nat) (P : Process)
    (HeaderData : REMOTE_PE_HEADER) (ts rs rest : List Nat)
    (hn : 1 ≤ ts.length)
    (hopen : cs.openOk = true)
    (hread : P.canRead (GetImportAddressTable HeaderData)
      (iatMaxEntryCount * sizeofSIZE_T) = true)
    (hw1 : P.canWrite (GetImportAddressTable HeaderData) (8 * (ts.length + 2)) = true)
    (hw2 : P.canWrite (iatDDAddress HeaderData) 4 = true)
    (hw3 : P.canWrite (iatDDAddress HeaderData + 4) 4 = true)
    (hdir : iatDDAddress HeaderData + 8 ≤ GetImportAddressTable HeaderData)
    (htable : rawTable P.mem (GetImportAddressTable HeaderData) = ts ++ 0 :: 0 :: rest)
    (hpacked : ∀ t ∈ ts, 0 < t ∧ t < P.imageBase ∧ t < 0x00007FF000000000)
    (hres : List.Forall₂ (fun t r => ∃ ev, resolve cs P fuel t = some (r, ev)) ts rs) :
    ∃ r, RebuildImports cs fuel P HeaderData = .ok r ∧ r.ret = true ∧ r.calls = ts ∧
      r.output = rs ++ [0, 0] ∧
      (∀ k, k < ts.length + 2 →
        slotAt r.proc.mem (GetImportAddressTable HeaderData) k = (rs ++ [0, 0]).getD k 0) ∧
      dwordAt r.proc.mem (iatDDAddress HeaderData + 4) = (ts.length + 2) * 8 := by
  obtain ⟨hmap, hsome⟩ := forall₂_resolved (resolve cs P fuel) ts rs hres
  have hpk : ∀ t ∈ ts, isPacked P.imageBase t = true := fun t ht => by
    rw [isPacked_true_iff]; exact ⟨(hpacked t ht).1, (hpacked t ht).2.1⟩
  have h0 : isPacked P.imageBase 0 = false := by simp [isPacked]
  have hgs : groupSlots [(ts, 0)] = ts ++ [0] := by simp [groupSlots]
  have hne : ts ≠ [] := by
    intro h; rw [h] at hn; simp at hn
  have hlen := congrArg List.length htable
  rw [length_rawTable, List.length_append, List.length_cons, List.length_cons] at hlen
  have hrun := RebuildImportsWith_groups_ok (resolve cs P fuel) cs P HeaderData [(ts, 0)] 0
    rest hopen hread (by rw [hgs]; simpa using htable)
    (by
      intro t ht hp
      rw [hgs] at ht
      rcases List.mem_append.mp ht with ht | ht
      · exact (hpacked t ht).2.2
      · simp only [List.mem_singleton] at ht; subst ht; simp [h0] at hp)
    (by rw [validGroups]; simp [hne, h0]; exact hpk)
    (by
      intro t ht hp
      rw [hgs] at ht
      rcases List.mem_append.mp ht with ht | ht
      · exact hsome t ht
      · simp only [List.mem_singleton] at ht; subst ht; simp [h0] at hp)
    h0
    (by rw [hgs]; simpa using hw1) hw2 (by rw [iatSizeAddress_eq HeaderData hdir]; exact hw3)
  have hout : (groupSlots [(ts, 0)]).map (rebuiltSlot (resolve cs P fuel) P.imageBase) ++ [0]
      = rs ++ [0, 0] := by
    rw [hgs, List.map_append, map_rebuiltSlot_packed _ _ ts hpk, hmap]
    simp [rebuiltSlot, h0]
  have hrl : rs.length = ts.length := by rw [← hmap, List.length_map]
  rw [hout] at hrun
  refine ⟨_, hrun, rfl, ?_, rfl, ?_, ?_⟩
  · simp only [hgs, List.filter_append, List.filter_eq_self.mpr hpk]
    simp [List.filter_cons, h0]
  · intro k hk
    have hk2 : k < (rs ++ [0, 0]).length := by simp [hrl]; omega
    show slotAt (patchedMem P HeaderData (rs ++ [0, 0])) _ k = _
    rw [patchedMem_slot P HeaderData _ k
      (by simp only [List.length_append, hrl, List.length_cons, List.length_nil]; omega) hdir hk2,
      List.getD_eq_getElem _ _ hk2]
    apply Nat.mod_eq_of_lt
    have hall : ∀ x ∈ rs ++ [0, 0], x < 2 ^ 64 := by
      intro x hx
      rcases List.mem_append.mp hx with hx | hx
      · rw [← hmap] at hx
        obtain ⟨t, _, rfl⟩ := List.mem_map.mp hx
        exact resVal_resolve_lt cs P fuel t
      · simp only [List.mem_cons, List.mem_singleton, List.not_mem_nil, or_false,
          or_self] at hx
        subst hx; decide
    exact hall _ (List.getElem_mem hk2)
  · show dwordAt (patchedMem P HeaderData (rs ++ [0, 0])) _ = _
    rw [patchedMem_size _ _ _ hdir, iatSize_eq]
    · simp [hrl]; ring
    · simp only [List.length_append, hrl, List.length_cons, List.length_nil]; omega

/-- Witness of C1 on `packedTable`: the table `[0x10000, 0x10100, 0, 0, ...]` becomes
`[0x7FF712345678, 0x7FF7AABBCCDD, 0, 0]` with directory size 4 * 8. -/
theorem rebuild_packed_group_witness :
    ∃ r, RebuildImports x64 1 packedTable exampleHeader = .ok r ∧ r.ret = true ∧
      r.calls = [0x10000, 0x10100] ∧
      r.output = [0x7FF712345678, 0x7FF7AABBCCDD] ++ [0, 0] ∧
      (∀ k, k < [0x10000, 0x10100].length + 2 →
        slotAt r.proc.mem (GetImportAddressTable exampleHeader) k
          = ([0x7FF712345678, 0x7FF7AABBCCDD] ++ [0, 0]).getD k 0) ∧
      dwordAt r.proc.mem (iatDDAddress exampleHeader + 4) = ([0x10000, 0x10100].length + 2) * 8 :=
  rebuild_packed_group x64 1 packedTable exampleHeader [0x10000, 0x10100]
    [0x7FF712345678, 0x7FF7AABBCCDD]
    ((rawTable packedTable.mem (GetImportAddressTable exampleHeader)).drop 4)
    (by decide) rfl rfl rfl rfl rfl (by decide) packedTable_raw (by decide)
    (.cons ⟨[Event.remoteRead 0x10000 0x50 true], by rfl⟩
      (.cons ⟨[Event.remoteRead 0x10100 0x50 true], by rfl⟩ .nil))

/-- C9 as stated fails: on `emptyTable` the first slot is 0 and every access succeeds, yet
the call changes the directory entry from RVA 0x5000 and size 0x100 to RVA 0x2000 and
size 8. -/
theorem rebuild_empty_table_counterexample :
    slotAt emptyTable.mem (GetImportAddressTable exampleHeader) 0 = 0 ∧
    ∃ r, RebuildImports x64 1 emptyTable exampleHeader = .ok r ∧ r.ret = true ∧
      dwordAt emptyTable.mem (iatDDAddress exampleHeader) = 0x5000 ∧
      dwordAt r.proc.mem (iatDDAddress exampleHeader) = 0x2000 ∧
      dwordAt emptyTable.mem (iatDDAddress exampleHeader + 4) = 0x100 ∧
      dwordAt r.proc.mem (iatDDAddress exampleHeader + 4) = 8 := by
  have hrun := RebuildImportsWith_stop_first (resolve x64 emptyTable 1) x64 emptyTable
    exampleHeader rfl rfl (by decide) rfl rfl rfl
  have hst := staleDirectory_fields emptyTable (by rfl)
  refine ⟨by decide, _, hrun, rfl, hst.1, ?_, hst.2, ?_⟩
  · show dwordAt (patchedMem emptyTable exampleHeader [0]) _ = _
    rw [patchedMem_rva]; decide
  · show dwordAt (patchedMem emptyTable exampleHeader [0]) _ = _
    rw [patchedMem_size _ _ _ (by decide)]; decide

/-- C9 amended: for every table whose first slot is 0, with all accesses succeeding,
`RebuildImports` returns success, invokes `resolve` zero times, reports zero restored imports
and leaves every table slot unchanged; it writes the directory entry, whose RVA field becomes
the RVA of the table and whose size field becomes 8. The directory entry is assumed to lie
before the table. -/
theorem rebuild_empty_table (cs : Capstone) (fuel : Nat) (P : Process)
    (HeaderData : REMOTE_PE_HEADER)
    (hopen : cs.openOk = true)
    (hread : P.canRead (GetImportAddressTable HeaderData)
      (iatMaxEntryCount * sizeofSIZE_T) = true)
    (hw1 : P.canWrite (GetImportAddressTable HeaderData) 8 = true)
    (hw2 : P.canWrite (iatDDAddress HeaderData) 4 = true)
    (hw3 : P.canWrite (iatDDAddress HeaderData + 4) 4 = true)
    (hdir : iatDDAddress HeaderData + 8 ≤ GetImportAddressTable HeaderData)
    (hfirst : slotAt P.mem (GetImportAddressTable HeaderData) 0 = 0) :
    ∃ r, RebuildImports cs fuel P HeaderData = .ok r ∧ r.ret = true ∧ r.calls = [] ∧
      Event.logRestored 0 (GetImportAddressTable HeaderData) ∈ r.trace ∧
      (∀ k, slotAt r.proc.mem (GetImportAddressTable HeaderData) k
        = slotAt P.mem (GetImportAddressTable HeaderData) k) ∧
      dwordAt r.proc.mem (iatDDAddress HeaderData) = iatRVA HeaderData ∧
      dwordAt r.proc.mem (iatDDAddress HeaderData + 4) = 8 := by
  have hrun := RebuildImportsWith_stop_first (resolve cs P fuel) cs P HeaderData hopen hread
    (by rw [hfirst]; simp [isPacked]) hw1 hw2 (by rw [iatSizeAddress_eq HeaderData hdir]; exact hw3)
  refine ⟨_, hrun, rfl, rfl, by simp, ?_, ?_, ?_⟩
  · intro k
    show slotAt (patchedMem P HeaderData [0]) _ k = _
    cases k with
    | zero =>
      rw [patchedMem_slot P HeaderData [0] 0 (by decide) hdir (by decide), hfirst]
      rfl
    | succ k =>
      exact patchedMem_slot_after P HeaderData [0] (k + 1) (by decide) hdir
        (by simp)
  · show dwordAt (patchedMem P HeaderData [0]) _ = _
    rw [patchedMem_rva]
  · show dwordAt (patchedMem P HeaderData [0]) _ = _
    rw [patchedMem_size _ _ _ hdir]; decide

/-- Witness of C9 amended on `emptyTable`. -/
theorem rebuild_empty_table_witness :
    ∃ r, RebuildImports x64 1 emptyTable exampleHeader = .ok r ∧ r.ret = true ∧ r.calls = [] ∧
      Event.logRestored 0 (GetImportAddressTable exampleHeader) ∈ r.trace ∧
      (∀ k, slotAt r.proc.mem (GetImportAddressTable exampleHeader) k
        = slotAt emptyTable.mem (GetImportAddressTable exampleHeader) k) ∧
      dwordAt r.proc.mem (iatDDAddress exampleHeader) = iatRVA exampleHeader ∧
      dwordAt r.proc.mem (iatDDAddress exampleHeader + 4) = 8 :=
  rebuild_empty_table x64 1 emptyTable exampleHeader rfl rfl rfl rfl rfl (by decide)
    (by decide)

/-- C8 as stated fails: on `resolvedTable` the slots up to the zero terminator are the
resolved addresses 0x7FF712345678 and 0x7FF7AABBCCDD, both at or above the image base, and
`RebuildImports` invokes `resolve` zero times but overwrites the first slot with 0. -/
theorem rebuild_resolved_table_counterexample :
    (List.range 3).map (slotAt resolvedTable.mem (GetImportAddressTable exampleHeader))
      = [0x7FF712345678, 0x7FF7AABBCCDD, 0] ∧
    resolvedTable.imageBase ≤ 0x7FF712345678 ∧ resolvedTable.imageBase ≤ 0x7FF7AABBCCDD ∧
    ∃ r, RebuildImports x64 1 resolvedTable exampleHeader = .ok r ∧ r.calls = [] ∧
      slotAt r.proc.mem (GetImportAddressTable exampleHeader) 0 = 0 := by
  have hrun := RebuildImportsWith_stop_first (resolve x64 resolvedTable 1) x64 resolvedTable
    exampleHeader rfl rfl (by decide) rfl rfl rfl
  refine ⟨resolvedTable_slots, by decide, by decide, _, hrun, rfl, ?_⟩
  show slotAt (patchedMem resolvedTable exampleHeader [0]) _ 0 = _
  rw [patchedMem_slot resolvedTable exampleHeader [0] 0 (by decide) (by decide) (by decide)]
  rfl

/-- C8 amended: for every table whose slots up to the zero terminator (at index m) are all
already-resolved addresses (each at or above the image base), with all accesses succeeding,
`RebuildImports` returns success and invokes `resolve` zero times; it writes a single zero
slot, so the first slot becomes 0 and every later slot keeps its original value, and it sets
the directory size field to 8. The directory entry is assumed to lie before the table. -/
theorem rebuild_resolved_table (cs : Capstone) (fuel : Nat) (P : Process)
    (HeaderData : REMOTE_PE_HEADER) (m : Nat)
    (hopen : cs.openOk = true)
    (hread : P.canRead (GetImportAddressTable HeaderData)
      (iatMaxEntryCount * sizeofSIZE_T) = true)
    (hw1 : P.canWrite (GetImportAddressTable HeaderData) 8 = true)
    (hw2 : P.canWrite (iatDDAddress HeaderData) 4 = true)
    (hw3 : P.canWrite (iatDDAddress HeaderData + 4) 4 = true)
    (hdir : iatDDAddress HeaderData + 8 ≤ GetImportAddressTable HeaderData)
    (hres : ∀ k, k < m → P.imageBase ≤ slotAt P.mem (GetImportAddressTable HeaderData) k)
    (hterm : slotAt P.mem (GetImportAddressTable HeaderData) m = 0) :
    ∃ r, RebuildImports cs fuel P HeaderData = .ok r ∧ r.ret = true ∧ r.calls = [] ∧
      slotAt r.proc.mem (GetImportAddressTable HeaderData) 0 = 0 ∧
      (∀ k, 1 ≤ k → slotAt r.proc.mem (GetImportAddressTable HeaderData) k
        = slotAt P.mem (GetImportAddressTable HeaderData) k) ∧
      dwordAt r.proc.mem (iatDDAddress HeaderData + 4) = 8 := by
  have hfirst : isPacked P.imageBase (slotAt P.mem (GetImportAddressTable HeaderData) 0)
      = false := by
    rw [isPacked_false_iff]
    cases m with
    | zero => exact Or.inl hterm
    | succ m => exact Or.inr (hres 0 (Nat.succ_pos m))
  have hrun := RebuildImportsWith_stop_first (resolve cs P fuel) cs P HeaderData hopen hread
    hfirst hw1 hw2 (by rw [iatSizeAddress_eq HeaderData hdir]; exact hw3)
  refine ⟨_, hrun, rfl, rfl, ?_, ?_, ?_⟩
  · show slotAt (patchedMem P HeaderData [0]) _ 0 = _
    rw [patchedMem_slot P HeaderData [0] 0 (by decide) hdir (by decide)]
    rfl
  · intro k hk
    exact patchedMem_slot_after P HeaderData [0] k (by decide) hdir (by simpa using hk)
  · show dwordAt (patchedMem P HeaderData [0]) _ = _
    rw [patchedMem_size _ _ _ hdir]; decide

/-- Witness of C8 amended on `resolvedTable`, with the zero terminator at index 2. -/
theorem rebuild_resolved_table_witness :
    ∃ r, RebuildImports x64 1 resolvedTable exampleHeader = .ok r ∧ r.ret = true ∧
      r.calls = [] ∧
      slotAt r.proc.mem (GetImportAddressTable exampleHeader) 0 = 0 ∧
      (∀ k, 1 ≤ k → slotAt r.proc.mem (GetImportAddressTable exampleHeader) k
        = slotAt resolvedTable.mem (GetImportAddressTable exampleHeader) k) ∧
      dwordAt r.proc.mem (iatDDAddress exampleHeader + 4) = 8 :=
  rebuild_resolved_table x64 1 resolvedTable exampleHeader 2 rfl rfl rfl rfl rfl (by decide)
    (by decide) (by decide)

/-- C7 as stated fails: the first run on `packedTable` succeeds and leaves the table
`[0x7FF712345678, 0x7FF7AABBCCDD, 0, 0]`, every slot a resolved address or zero, with
directory size 32; the second run overwrites the first slot with 0 and sets the directory
size to 8. -/
theorem rebuild_idempotence_counterexample :
    ∃ r1 r2, RebuildImports x64 1 packedTable exampleHeader = .ok r1 ∧ r1.ret = true ∧
      (∀ k, k < r1.output.length →
        slotAt r1.proc.mem (GetImportAddressTable exampleHeader) k = 0 ∨
          packedTable.imageBase ≤ slotAt r1.proc.mem (GetImportAddressTable exampleHeader) k) ∧
      RebuildImports x64 1 r1.proc exampleHeader = .ok r2 ∧ r2.calls = [] ∧
      slotAt r1.proc.mem (GetImportAddressTable exampleHeader) 0 = 0x7FF712345678 ∧
      slotAt r2.proc.mem (GetImportAddressTable exampleHeader) 0 = 0 ∧
      dwordAt r1.proc.mem (iatDDAddress exampleHeader + 4) = 32 ∧
      dwordAt r2.proc.mem (iatDDAddress exampleHeader + 4) = 8 := by
  have hslots : ∀ k, k < packedTableRebuilt.output.length →
      slotAt packedTableRebuilt.proc.mem (GetImportAddressTable exampleHeader) k = 0 ∨
        packedTable.imageBase
          ≤ slotAt packedTableRebuilt.proc.mem (GetImportAddressTable exampleHeader) k := by
    intro k hk
    have hk4 : k < 4 := hk
    rw [packedTableRebuilt_slots k hk4]
    interval_cases k <;> decide
  have h2 := second_run x64 1 packedTable exampleHeader packedTableRebuilt
    packedTable_first_run rfl hslots rfl
  refine ⟨packedTableRebuilt, _, packedTable_first_run, rfl, hslots, h2.1, rfl,
    packedTableRebuilt_slots 0 (by decide), ?_, ?_, ?_⟩
  · show slotAt (patchedMem packedTableRebuilt.proc exampleHeader [0]) _ 0 = _
    rw [patchedMem_slot _ exampleHeader [0] 0 (by decide) (by decide) (by decide)]
    rfl
  · show dwordAt (patchedMem packedTable exampleHeader _) _ = _
    rw [patchedMem_size _ _ _ (by decide)]; decide
  · show dwordAt (patchedMem packedTableRebuilt.proc exampleHeader [0]) _ = _
    rw [patchedMem_size _ _ _ (by decide)]; decide

/-- C7 amended: on the target left by a successful rebuild in which every slot of the
rebuilt table is a resolved address (at or above the image base) or zero, a second run of
`RebuildImports` returns success, invokes `resolve` zero times, and leaves the RVA field of
the directory entry and every table slot but the first unchanged; it stores 0 in the first
slot and sets the directory size field to 8. The write of one slot at the table is assumed
to succeed, and the directory entry to lie before the table. -/
theorem rebuild_second_run (cs : Capstone) (fuel : Nat) (P : Process)
    (HeaderData : REMOTE_PE_HEADER) (r1 : RebuildResult)
    (hfirst : RebuildImports cs fuel P HeaderData = .ok r1) (hret : r1.ret = true)
    (hslots : ∀ k, k < r1.output.length →
      slotAt r1.proc.mem (GetImportAddressTable HeaderData) k = 0 ∨
        P.imageBase ≤ slotAt r1.proc.mem (GetImportAddressTable HeaderData) k)
    (hw1 : P.canWrite (GetImportAddressTable HeaderData) 8 = true)
    (hdir : iatDDAddress HeaderData + 8 ≤ GetImportAddressTable HeaderData) :
    ∃ r2, RebuildImports cs fuel r1.proc HeaderData = .ok r2 ∧ r2.ret = true ∧
      r2.calls = [] ∧
      slotAt r2.proc.mem (GetImportAddressTable HeaderData) 0 = 0 ∧
      (∀ k, 1 ≤ k → slotAt r2.proc.mem (GetImportAddressTable HeaderData) k
        = slotAt r1.proc.mem (GetImportAddressTable HeaderData) k) ∧
      dwordAt r2.proc.mem (iatDDAddress HeaderData)
        = dwordAt r1.proc.mem (iatDDAddress HeaderData) ∧
      dwordAt r2.proc.mem (iatDDAddress HeaderData + 4) = 8 := by
  obtain ⟨hrun, hrva⟩ := second_run cs fuel P HeaderData r1 hfirst hret hslots hw1
  refine ⟨_, hrun, rfl, rfl, ?_, ?_, ?_, ?_⟩
  · show slotAt (patchedMem r1.proc HeaderData [0]) _ 0 = _
    rw [patchedMem_slot r1.proc HeaderData [0] 0 (by decide) hdir (by decide)]
    rfl
  · intro k hk
    exact patchedMem_slot_after r1.proc HeaderData [0] k (by decide) hdir (by simpa using hk)
  · show dwordAt (patchedMem r1.proc HeaderData [0]) _ = _
    rw [patchedMem_rva, hrva]
  · show dwordAt (patchedMem r1.proc HeaderData [0]) _ = _
    rw [patchedMem_size _ _ _ hdir]; decide

/-- Witness of C7 amended on the target left by the first run on `packedTable`. -/
theorem rebuild_second_run_witness :
    ∃ r2, RebuildImports x64 1 packedTableRebuilt.proc exampleHeader = .ok r2 ∧
      r2.ret = true ∧ r2.calls = [] ∧
      slotAt r2.proc.mem (GetImportAddressTable exampleHeader) 0 = 0 ∧
      (∀ k, 1 ≤ k → slotAt r2.proc.mem (GetImportAddressTable exampleHeader) k
        = slotAt packedTableRebuilt.proc.mem (GetImportAddressTable exampleHeader) k) ∧
      dwordAt r2.proc.mem (iatDDAddress exampleHeader)
        = dwordAt packedTableRebuilt.proc.mem (iatDDAddress exampleHeader) ∧
      dwordAt r2.proc.mem (iatDDAddress exampleHeader + 4) = 8 :=
  rebuild_second_run x64 1 packedTable exampleHeader packedTableRebuilt
    packedTable_first_run rfl
    (fun k hk => by
      have hk4 : k < 4 := hk
      rw [packedTableRebuilt_slots k hk4]
      interval_cases k <;> decide)
    rfl (by decide)

/-! ## Further lemmas on the resolver -/

/-- The mask of line 46 clears the offset within the page. -/
theorem land_pageMask (x : Nat) (h : x < 2 ^ 64) :
    x &&& 0xFFFFFFFFFFFFF000 = x / 4096 * 4096 := by
  have hm : (0xFFFFFFFFFFFFF000 : Nat) = (2 ^ 52 - 1) <<< 12 := by decide
  have hx : x / 4096 * 4096 = (x >>> 12) <<< 12 := by
    rw [Nat.shiftLeft_eq, Nat.shiftRight_eq_div_pow]
  rw [hm, hx]
  apply Nat.eq_of_testBit_eq
  intro j
  simp only [Nat.testBit_and, Nat.testBit_shiftLeft, Nat.testBit_shiftRight,
    Nat.testBit_two_pow_sub_one]
  by_cases hj : 12 ≤ j
  · by_cases hj2 : j - 12 < 52
    · simp [hj, hj2]
    · have : x.testBit j = false := by
        apply Nat.testBit_lt_two_pow
        calc x < 2 ^ 64 := h
          _ ≤ 2 ^ j := Nat.pow_le_pow_right (by decide) (by omega)
      have e : 12 + (j - 12) = j := by omega
      simp [hj, hj2, this, e]
  · simp [hj]

/-- For a cursor in the page of the thunk base, the window of line 46 ends at the page end. -/
theorem readSize_same_page (ThunkBase ea : Nat) (hT : ThunkBase < 2 ^ 64) (he : ea < 2 ^ 64)
    (hpage : ea / PAGE_SIZE = ThunkBase / PAGE_SIZE) :
    readSize ThunkBase ea = min blockSize (bytesToPageEnd ea) := by
  unfold readSize bytesToPageEnd
  rw [land_pageMask ThunkBase hT]
  simp only [PAGE_SIZE, SIZE_T_MOD] at hpage ⊢
  congr 1
  omega

/-- The loop of `resolve` across jumps to immediate addresses. -/
theorem resolveLoop_reseats (cs : Capstone) (P : Process) (ThunkBase fuel : Nat)
    (ea acc ea1 acc1 hops : Nat) (h : Reseats cs P ThunkBase ea acc ea1 acc1 hops)
    (tr : List Event) :
    ∃ tr1, resolveLoop cs P ThunkBase (hops + fuel) ea acc tr
        = resolveLoop cs P ThunkBase fuel ea1 acc1 tr1 ∧
      unhandledCount tr1 = unhandledCount tr := by
  induction h generalizing tr with
  | here ea acc => exact ⟨tr, by rw [Nat.zero_add], rfl⟩
  | hop ea acc A ea1 acc1 hops pre ops j rest hread hdis hpre hj _ ih =>
    have e : hops + 1 + fuel = (hops + fuel) + 1 := by omega
    rw [e, resolveLoop_step cs P ThunkBase _ ea acc tr hread, hdis,
      interpret_encodesAll pre ops _ ea acc hpre, interpret_jmpImm j A rest ea _ hj]
    simp only [Bool.false_eq_true, if_false]
    obtain ⟨tr1, h1, h2⟩ := ih (tr ++ [Event.remoteRead ea (readSize ThunkBase ea) true])
    refine ⟨tr1, h1, ?_⟩
    rw [h2]
    simp [unhandledCount_append, unhandledCount]

/-- C12: when the memory accessor fails to read a code window, the first one or one fetched
after any number of jump re-seats, `resolve` returns 0 and logs the failed read, whatever
the accumulator `acc` had reached from the instructions interpreted in earlier windows. -/
theorem resolve_read_failure (cs : Capstone) (P : Process) (ThunkBase ea acc hops fuel : Nat)
    (h : Reseats cs P ThunkBase ThunkBase 0 ea acc hops)
    (hfail : P.canRead ea (readSize ThunkBase ea) = false) :
    ∃ tr, resolve cs P (hops + (fuel + 1)) ThunkBase = some (0, tr) ∧
      Event.logReadFailed (readSize ThunkBase ea) ea ∈ tr := by
  obtain ⟨tr1, h1, _⟩ := resolveLoop_reseats cs P ThunkBase (fuel + 1) ThunkBase 0 ea acc hops h []
  rw [resolve, h1, resolveLoop_readFail cs P ThunkBase fuel ea acc tr1 hfail]
  exact ⟨_, rfl, by simp⟩

/-- Witness of C12 on `jumpToUnreadable`: the accumulator holds 0x7FF712345678 when the read
at 0x30000 fails. -/
theorem resolve_read_failure_witness :
    ∃ tr, resolve x64 jumpToUnreadable (1 + (0 + 1)) 0x10000 = some (0, tr) ∧
      Event.logReadFailed (readSize 0x10000 0x30000) 0x30000 ∈ tr :=
  resolve_read_failure x64 jumpToUnreadable 0x10000 0x30000 0x7FF712345678 1 0
    (Reseats.hop 0x10000 0 0x30000 0x30000 0x7FF712345678 0
      [insRaxImm .X86_INS_MOVABS 0x7FF712345678] [.load 0x7FF712345678]
      (insOne .X86_INS_JMP (opImm 0x30000)) [] rfl (by rfl) (by decide) (by decide)
      (Reseats.here 0x30000 0x7FF712345678))
    (by decide)

/-- C19: the accumulator is carried across a jump re-seat. For a thunk that decodes to
`load X; jmp A` followed by anything, with A in the page of the start address, and at A to
`add Y; jmp reg`, `resolve` returns X + Y modulo 2^64; the instructions `rest1` that follow
the jump in the first window have no effect. -/
theorem resolve_carries_accumulator (cs : Capstone) (P : Process)
    (ThunkBase A X Y fuel : Nat) (i1 j1 i2 j2 : cs_insn) (rest1 rest2 : List cs_insn)
    (hT : ThunkBase < 2 ^ 64) (hA : A < 2 ^ 64)
    (hpage : A / PAGE_SIZE = ThunkBase / PAGE_SIZE)
    (hr1 : P.canRead ThunkBase (min blockSize (bytesToPageEnd ThunkBase)) = true)
    (hd1 : cs.disasm (memBytes P.mem ThunkBase (min blockSize (bytesToPageEnd ThunkBase)))
      ThunkBase 5 = i1 :: j1 :: rest1)
    (he1 : encodes i1 (.load X) = true) (hj1 : isJmpImm j1 A = true)
    (hr2 : P.canRead A (min blockSize (bytesToPageEnd A)) = true)
    (hd2 : cs.disasm (memBytes P.mem A (min blockSize (bytesToPageEnd A))) A 5
      = i2 :: j2 :: rest2)
    (he2 : encodes i2 (.add Y) = true) (hj2 : isJmpReg j2 = true) :
    resolve cs P (fuel + 2) ThunkBase
      = some ((X + Y) % 2 ^ 64,
          [Event.remoteRead ThunkBase (min blockSize (bytesToPageEnd ThunkBase)) true,
           Event.remoteRead A (min blockSize (bytesToPageEnd A)) true]) := by
  have hs1 := readSize_same_page ThunkBase ThunkBase hT hT rfl
  have hs2 := readSize_same_page ThunkBase A hT hA hpage
  have hAm : A % SIZE_T_MOD = A := Nat.mod_eq_of_lt (by simpa [SIZE_T_MOD] using hA)
  rw [resolve, resolveLoop_step cs P ThunkBase (fuel + 1) ThunkBase 0 [] (by rw [hs1]; exact hr1),
    hs1, hd1, interpret_encodes i1 (.load X) _ ThunkBase 0 he1,
    interpret_jmpImm j1 A rest1 ThunkBase _ hj1]
  simp only [Bool.false_eq_true, if_false, hAm]
  rw [resolveLoop_step cs P ThunkBase fuel A _ _ (by rw [hs2]; exact hr2), hs2, hd2,
    interpret_encodes i2 (.add Y) _ A _ he2, interpret_jmpReg j2 rest2 A _ hj2]
  simp only [if_true, ThunkOp.apply, SIZE_T_MOD, List.nil_append, List.cons_append,
    Option.some.injEq, Prod.mk.injEq, and_true]
  omega

/-- Witness of C19 on `carryThunk`: `movabs rax, 0x7FF712345678; jmp 0x10100; add rax, 5`
and at 0x10100 `add rax, 0x10; jmp rax` resolve to 0x7FF712345688. -/
theorem resolve_carries_accumulator_witness :
    resolve x64 carryThunk (0 + 2) 0x10000
      = some ((0x7FF712345678 + 0x10) % 2 ^ 64,
          [Event.remoteRead 0x10000 (min blockSize (bytesToPageEnd 0x10000)) true,
           Event.remoteRead 0x10100 (min blockSize (bytesToPageEnd 0x10100)) true]) :=
  resolve_carries_accumulator x64 carryThunk 0x10000 0x10100 0x7FF712345678 0x10 0
    (insRaxImm .X86_INS_MOVABS 0x7FF712345678) (insOne .X86_INS_JMP (opImm 0x10100))
    (insRaxImm .X86_INS_ADD 0x10) (insOne .X86_INS_JMP opRax)
    [insRaxImm .X86_INS_ADD 5] [] (by decide) (by decide) (by decide) rfl (by rfl) (by decide)
    (by decide) rfl (by rfl) (by decide) (by decide)

/-! ## The walk up to its end -/

theorem isStop_eq_isStopFrom (imageBase : Nat) (raw : List Nat) (k : Nat) :
    isStop imageBase raw k = isStopFrom imageBase false raw k := by
  unfold isStop isStopFrom
  by_cases hk : k = 0 <;> simp [hk]

/-- After a slot of value `v` the walk goes on at the head of the inner loop exactly when
`v` is a packed thunk, and the stop indices shift by one. -/
theorem isStopFrom_cons (imageBase : Nat) (inner : Bool) (v : Nat) (rest : List Nat) (k : Nat) :
    isStopFrom imageBase inner (v :: rest) (k + 1)
      = isStopFrom imageBase (isPacked imageBase v) rest k := by
  unfold isStopFrom
  cases k with
  | zero => simp
  | succ k => simp

theorem walk_cons (res : Nat → Option (Nat × List Event)) (imageBase : Nat) (inner : Bool)
    (v : Nat) (rest : List Nat) (s : WalkState) :
    walk res imageBase inner (v :: rest) s =
      match (if inner then innerHead res imageBase v { s with reads := s.reads ++ [s.i] }
        else outerHead res imageBase v { s with reads := s.reads ++ [s.i] }) with
      | .next inner1 s2 => walk res imageBase inner1 rest s2
      | .finished s2 => .ok s2
      | .noReturn _ => .error .noReturn := by
  rfl

/-- What one slot does to the walk: it goes on at the next slot, in the inner loop exactly
when the slot is a packed thunk, or it ends, or a `resolve` call does not return. -/
theorem slot_cases (res : Nat → Option (Nat × List Event)) (imageBase : Nat) (inner : Bool)
    (v : Nat) (s : WalkState) :
    (∃ s2, (if inner then innerHead res imageBase v { s with reads := s.reads ++ [s.i] }
        else outerHead res imageBase v { s with reads := s.reads ++ [s.i] })
          = .next (isPacked imageBase v) s2 ∧ s2.i = s.i + 1 ∧
        s2.reads = s.reads ++ [s.i]) ∨
    (∃ s2, (if inner then innerHead res imageBase v { s with reads := s.reads ++ [s.i] }
        else outerHead res imageBase v { s with reads := s.reads ++ [s.i] })
          = .finished s2 ∧ s2.reads = s.reads ++ [s.i]) ∨
    (∃ s2, (if inner then innerHead res imageBase v { s with reads := s.reads ++ [s.i] }
        else outerHead res imageBase v { s with reads := s.reads ++ [s.i] })
          = .noReturn s2) := by
  have hin : ∀ s1 : WalkState,
      (∃ s2, innerHead res imageBase v s1 = .next (isPacked imageBase v) s2 ∧
        s2.i = s1.i + 1 ∧ s2.reads = s1.reads) ∨
      (∃ s2, innerHead res imageBase v s1 = .noReturn s2) := by
    intro s1
    by_cases hp : isPacked imageBase v = true
    · have hp2 := (isPacked_true_iff _ _).mp hp
      cases hr : res v with
      | none =>
        right
        exact ⟨s1, by simp [innerHead, hp2.1, Nat.not_le.mpr hp2.2, hr]⟩
      | some p =>
        left
        obtain ⟨r, ev⟩ := p
        exact ⟨{ s1 with unpackedThunkArray := s1.unpackedThunkArray ++ [r],
                         calls := s1.calls ++ [v], trace := s1.trace ++ ev, i := s1.i + 1 },
          by simp [innerHead, hp2.1, Nat.not_le.mpr hp2.2, hr, hp], rfl, rfl⟩
    · rw [Bool.not_eq_true] at hp
      left
      have hp2 := (isPacked_false_iff _ _).mp hp
      refine ⟨{ s1 with unpackedThunkArray := s1.unpackedThunkArray ++ [0],
                        importCountDelta := s1.importCountDelta + 1, i := s1.i + 1 },
        ?_, rfl, rfl⟩
      rcases hp2 with h0 | hb
      · subst h0
        simp [innerHead, afterInner, hp]
      · by_cases h0 : v > 0
        · simp [innerHead, afterInner, hp, h0, hb]
        · simp [innerHead, afterInner, hp, h0]
  cases inner with
  | true =>
    simp only [if_true]
    rcases hin { s with reads := s.reads ++ [s.i] } with ⟨s2, h1, h2, h3⟩ | ⟨s2, h1⟩
    · exact Or.inl ⟨s2, h1, h2, h3⟩
    · exact Or.inr (Or.inr ⟨s2, h1⟩)
  | false =>
    simp only [Bool.false_eq_true, if_false]
    by_cases hc : v > 0 ∧ v < imageBase
    · by_cases hh : v ≥ 0x00007FF000000000
      · exact Or.inr (Or.inl ⟨{ s with reads := s.reads ++ [s.i] },
          by simp [outerHead, hc, hh], rfl⟩)
      · have ho : outerHead res imageBase v { s with reads := s.reads ++ [s.i] }
            = innerHead res imageBase v { s with reads := s.reads ++ [s.i] } := by
          simp [outerHead, hc, hh]
        rw [ho]
        rcases hin { s with reads := s.reads ++ [s.i] } with ⟨s2, h1, h2, h3⟩ | ⟨s2, h1⟩
        · exact Or.inl ⟨s2, h1, h2, h3⟩
        · exact Or.inr (Or.inr ⟨s2, h1⟩)
    · exact Or.inr (Or.inl ⟨{ s with reads := s.reads ++ [s.i] },
        by simp [outerHead, hc], rfl⟩)

/-- Once an index `s` ends the walk, the walk never reads past the array, its result does not
depend on the slots behind `s`, and the indices it reads are at most `s`. -/
theorem walk_reads_bounded (res : Nat → Option (Nat × List Event)) (imageBase : Nat)
    (l : List Nat) (inner : Bool) (s : Nat) (st : WalkState)
    (hs : isStopFrom imageBase inner l s = true) :
    walk res imageBase inner l st ≠ .error .outOfBounds ∧
      walk res imageBase inner (l.take (s + 1)) st = walk res imageBase inner l st ∧
      ∀ w, walk res imageBase inner l st = .ok w →
        ∀ i ∈ w.reads, i ∈ st.reads ∨ (st.i ≤ i ∧ i ≤ st.i + s) := by
  induction l generalizing inner s st with
  | nil => simp [isStopFrom] at hs
  | cons v rest ih =>
    rw [List.take_succ_cons]
    cases s with
    | zero =>
      simp only [isStopFrom, List.length_cons, List.getD_cons_zero, if_true,
        Bool.and_eq_true, Bool.not_eq_true', decide_eq_true_eq] at hs
      obtain ⟨⟨-, hv⟩, hin⟩ := hs
      subst hin
      rw [walk_outer_stop res imageBase v _ st hv, walk_outer_stop res imageBase v _ st hv]
      refine ⟨fun h => Except.noConfusion h, rfl, ?_⟩
      intro w hw i hi
      injection hw with hw
      subst hw
      simp only [List.mem_append, List.mem_singleton] at hi
      rcases hi with hi | hi
      · exact Or.inl hi
      · exact Or.inr ⟨by omega, by omega⟩
    | succ s1 =>
      rw [isStopFrom_cons] at hs
      rw [walk_cons, walk_cons]
      rcases slot_cases res imageBase inner v st with
        ⟨s2, h1, h2, h3⟩ | ⟨s2, h1, h3⟩ | ⟨s2, h1⟩
      · simp only [h1]
        obtain ⟨ha, hb, hc⟩ := ih (isPacked imageBase v) s1 s2 hs
        refine ⟨ha, hb, ?_⟩
        intro w hw i hi
        rcases hc w hw i hi with hi | hi
        · rw [h3] at hi
          simp only [List.mem_append, List.mem_singleton] at hi
          rcases hi with hi | hi
          · exact Or.inl hi
          · exact Or.inr ⟨by omega, by omega⟩
        · exact Or.inr ⟨by omega, by omega⟩
      · simp only [h1]
        refine ⟨fun h => Except.noConfusion h, trivial, ?_⟩
        intro w hw i hi
        injection hw with hw
        subst hw
        rw [h3] at hi
        simp only [List.mem_append, List.mem_singleton] at hi
        rcases hi with hi | hi
        · exact Or.inl hi
        · exact Or.inr ⟨by omega, by omega⟩
      · simp only [h1]
        refine ⟨fun h => ?_, trivial, fun w hw => Except.noConfusion hw⟩
        injection h with h
        exact Stuck.noConfusion h

theorem afterWalk_after_packed (res : Nat → Option (Nat × List Event)) (imageBase v : Nat)
    (vs : List Nat) (st : WalkState) (hp : isPacked imageBase v = true) :
    afterWalk res imageBase vs (boundaryCount imageBase vs) (afterRun res [v] st)
      = afterWalk res imageBase (v :: vs) (boundaryCount imageBase (v :: vs)) st := by
  simp [afterWalk, afterRun, boundaryCount, hp, rebuiltSlot, List.range'_succ]
  omega

theorem afterWalk_after_boundary (res : Nat → Option (Nat × List Event)) (imageBase v : Nat)
    (vs : List Nat) (st : WalkState) (hp : isPacked imageBase v = false) :
    afterWalk res imageBase vs (boundaryCount imageBase vs) (afterBoundary st)
      = afterWalk res imageBase (v :: vs) (boundaryCount imageBase (v :: vs)) st := by
  simp [afterWalk, afterBoundary, boundaryCount, hp, rebuiltSlot, List.range'_succ]
  omega

/-- The walk up to the least index that ends it, when every `resolve` call returns and no
visited thunk reaches the high-address bound. -/
theorem walk_leastStop (res : Nat → Option (Nat × List Event)) (imageBase : Nat)
    (l : List Nat) (inner : Bool) (s : Nat) (st : WalkState)
    (hhigh : ∀ t ∈ l.take s, isPacked imageBase t = true → t < 0x00007FF000000000)
    (hret : ∀ t ∈ l.take s, isPacked imageBase t = true → (res t).isSome = true)
    (hs : isStopFrom imageBase inner l s = true)
    (hleast : ∀ k, k < s → isStopFrom imageBase inner l k = false) :
    walk res imageBase inner l st
      = .ok (afterWalk res imageBase (l.take s) (boundaryCount imageBase (l.take s)) st) := by
  induction l generalizing inner s st with
  | nil => simp [isStopFrom] at hs
  | cons v rest ih =>
    cases s with
    | zero =>
      simp only [isStopFrom, List.length_cons, List.getD_cons_zero, if_true,
        Bool.and_eq_true, Bool.not_eq_true', decide_eq_true_eq] at hs
      obtain ⟨⟨-, hv⟩, hin⟩ := hs
      subst hin
      rw [walk_outer_stop res imageBase v _ st hv]
      simp [afterWalk, boundaryCount]
    | succ s1 =>
      rw [List.take_succ_cons] at hhigh hret ⊢
      rw [isStopFrom_cons] at hs
      have hleast1 : ∀ k, k < s1 → isStopFrom imageBase (isPacked imageBase v) rest k = false :=
        fun k hk => by rw [← isStopFrom_cons imageBase inner]; exact hleast (k + 1) (by omega)
      have h0 := hleast 0 (Nat.succ_pos s1)
      by_cases hp : isPacked imageBase v = true
      · have hstep : walk res imageBase inner (v :: rest) st
            = walk res imageBase true rest (afterRun res [v] st) := by
          cases inner with
          | true =>
            exact walk_inner_packed res imageBase v rest st hp
              (hret v (List.mem_cons_self _ _) hp)
          | false =>
            rw [walk_outer_packed res imageBase v rest st hp
              (hhigh v (List.mem_cons_self _ _) hp)]
            exact walk_inner_packed res imageBase v rest st hp
              (hret v (List.mem_cons_self _ _) hp)
        rw [hp] at hs hleast1
        rw [hstep, ih true s1 _ (fun t ht => hhigh t (List.mem_cons_of_mem _ ht))
          (fun t ht => hret t (List.mem_cons_of_mem _ ht)) hs hleast1,
          afterWalk_after_packed res imageBase v _ st hp]
      · rw [Bool.not_eq_true] at hp
        have hin : inner = true := by
          simp only [isStopFrom, List.length_cons, List.getD_cons_zero, if_true, hp,
            Bool.not_false, Bool.and_true, Bool.and_eq_false_iff, decide_eq_false_iff_not,
            Bool.not_eq_false'] at h0
          rcases h0 with h0 | h0
          · omega
          · exact h0
        subst hin
        rw [hp] at hs hleast1
        rw [walk_inner_boundary res imageBase v rest st hp,
          ih false s1 _ (fun t ht => hhigh t (List.mem_cons_of_mem _ ht))
            (fun t ht => hret t (List.mem_cons_of_mem _ ht)) hs hleast1,
          afterWalk_after_boundary res imageBase v _ st hp]

/-! ## Further lemmas on `RebuildImports` -/

/-- The run when `cs_open` fails. -/
theorem RebuildImportsWith_not_open (res : Nat → Option (Nat × List Event)) (cs : Capstone)
    (P : Process) (HeaderData : REMOTE_PE_HEADER) (hopen : cs.openOk = false) :
    RebuildImportsWith res cs P HeaderData =
      .ok { ret := false, proc := P, output := [], calls := [], reads := [],
            trace := [Event.logInitFailed] } := by
  unfold RebuildImportsWith
  rw [if_neg (by rw [hopen]; exact Bool.false_ne_true)]

/-- The run when the bulk read of the table fails. -/
theorem RebuildImportsWith_read_fail (res : Nat → Option (Nat × List Event)) (cs : Capstone)
    (P : Process) (HeaderData : REMOTE_PE_HEADER) (hopen : cs.openOk = true)
    (hread : P.canRead (GetImportAddressTable HeaderData)
      (iatMaxEntryCount * sizeofSIZE_T) = false) :
    RebuildImportsWith res cs P HeaderData =
      .ok { ret := false, proc := P, output := [], calls := [], reads := [],
            trace := [Event.logFoundIAT (GetImportAddressTable HeaderData),
                      Event.remoteRead (GetImportAddressTable HeaderData)
                        (iatMaxEntryCount * sizeofSIZE_T) false,
                      Event.logReadTableFailed (GetImportAddressTable HeaderData)] } := by
  have hr : RemoteRead P (GetImportAddressTable HeaderData) (iatMaxEntryCount * sizeofSIZE_T)
      = none := by
    simp [RemoteRead, hread]
  unfold RebuildImportsWith
  rw [if_pos hopen]
  dsimp only
  rw [hr]
  rfl

/-- The run after a successful bulk read of the table, when the walk ends. -/
theorem RebuildImportsWith_walk_ok (res : Nat → Option (Nat × List Event)) (cs : Capstone)
    (P : Process) (HeaderData : REMOTE_PE_HEADER) (w : WalkState) (hopen : cs.openOk = true)
    (hread : P.canRead (GetImportAddressTable HeaderData)
      (iatMaxEntryCount * sizeofSIZE_T) = true)
    (hw : walk res P.imageBase false (rawTable P.mem (GetImportAddressTable HeaderData))
      walkInit = .ok w) :
    RebuildImportsWith res cs P HeaderData =
      .ok (finishRebuild P HeaderData w
        [Event.logFoundIAT (GetImportAddressTable HeaderData),
         Event.remoteRead (GetImportAddressTable HeaderData)
           (iatMaxEntryCount * sizeofSIZE_T) true]) := by
  have hr : RemoteRead P (GetImportAddressTable HeaderData) (iatMaxEntryCount * sizeofSIZE_T)
      = some (memBytes P.mem (GetImportAddressTable HeaderData)
        (iatMaxEntryCount * sizeofSIZE_T)) := by
    simp [RemoteRead, hread]
  unfold RebuildImportsWith
  rw [if_pos hopen]
  dsimp only
  rw [hr]
  dsimp only
  rw [slotsOfBytes_memBytes,
    show (List.range iatMaxEntryCount).map (slotAt P.mem (GetImportAddressTable HeaderData))
      = rawTable P.mem (GetImportAddressTable HeaderData) from rfl, hw]
  rfl

/-- The run after a successful bulk read of the table, when the walk gives no result. -/
theorem RebuildImportsWith_walk_error (res : Nat → Option (Nat × List Event)) (cs : Capstone)
    (P : Process) (HeaderData : REMOTE_PE_HEADER) (e : Stuck) (hopen : cs.openOk = true)
    (hread : P.canRead (GetImportAddressTable HeaderData)
      (iatMaxEntryCount * sizeofSIZE_T) = true)
    (hw : walk res P.imageBase false (rawTable P.mem (GetImportAddressTable HeaderData))
      walkInit = .error e) :
    RebuildImportsWith res cs P HeaderData = .error e := by
  have hr : RemoteRead P (GetImportAddressTable HeaderData) (iatMaxEntryCount * sizeofSIZE_T)
      = some (memBytes P.mem (GetImportAddressTable HeaderData)
        (iatMaxEntryCount * sizeofSIZE_T)) := by
    simp [RemoteRead, hread]
  unfold RebuildImportsWith
  rw [if_pos hopen]
  dsimp only
  rw [hr]
  dsimp only
  rw [slotsOfBytes_memBytes,
    show (List.range iatMaxEntryCount).map (slotAt P.mem (GetImportAddressTable HeaderData))
      = rawTable P.mem (GetImportAddressTable HeaderData) from rfl, hw]

theorem finishRebuild_calls (P : Process) (HeaderData : REMOTE_PE_HEADER) (w : WalkState)
    (tr : List Event) : (finishRebuild P HeaderData w tr).calls = w.calls := by
  unfold finishRebuild
  dsimp only
  split
  · rfl
  · split
    · rfl
    · split <;> rfl

theorem finishRebuild_reads (P : Process) (HeaderData : REMOTE_PE_HEADER) (w : WalkState)
    (tr : List Event) : (finishRebuild P HeaderData w tr).reads = w.reads := by
  unfold finishRebuild
  dsimp only
  split
  · rfl
  · split
    · rfl
    · split <;> rfl

theorem getD_rawTable (mem : Nat → Nat) (a k : Nat) (hk : k < iatMaxEntryCount) :
    (rawTable mem a).getD k 0 = slotAt mem a k := by
  have hl : k < (rawTable mem a).length := by rw [length_rawTable]; exact hk
  rw [List.getD_eq_getElem _ _ hl]
  simp [rawTable]

/-- The end-of-walk test on the raw table, in terms of the slots of the target. -/
theorem isStop_rawTable (imageBase : Nat) (mem : Nat → Nat) (a k : Nat)
    (hk : k < iatMaxEntryCount) :
    isStop imageBase (rawTable mem a) k =
      (!isPacked imageBase (slotAt mem a k) &&
        (decide (k = 0) || !isPacked imageBase (slotAt mem a (k - 1)))) := by
  unfold isStop
  rw [length_rawTable, getD_rawTable mem a k hk, getD_rawTable mem a (k - 1) (by omega)]
  simp [hk]

/-- The run on a raw table with least end-of-walk index `s`, up to the end of the walk. -/
theorem RebuildImportsWith_leastStop (res : Nat → Option (Nat × List Event)) (cs : Capstone)
    (P : Process) (HeaderData : REMOTE_PE_HEADER) (s : Nat)
    (hopen : cs.openOk = true)
    (hread : P.canRead (GetImportAddressTable HeaderData)
      (iatMaxEntryCount * sizeofSIZE_T) = true)
    (hhigh : ∀ t ∈ (rawTable P.mem (GetImportAddressTable HeaderData)).take s,
      isPacked P.imageBase t = true → t < 0x00007FF000000000)
    (hret : ∀ t ∈ (rawTable P.mem (GetImportAddressTable HeaderData)).take s,
      isPacked P.imageBase t = true → (res t).isSome = true)
    (hs : isStop P.imageBase (rawTable P.mem (GetImportAddressTable HeaderData)) s = true)
    (hleast : ∀ k, k < s →
      isStop P.imageBase (rawTable P.mem (GetImportAddressTable HeaderData)) k = false) :
    RebuildImportsWith res cs P HeaderData =
      .ok (finishRebuild P HeaderData
        (afterWalk res P.imageBase
          ((rawTable P.mem (GetImportAddressTable HeaderData)).take s)
          (boundaryCount P.imageBase
            ((rawTable P.mem (GetImportAddressTable HeaderData)).take s)) walkInit)
        [Event.logFoundIAT (GetImportAddressTable HeaderData),
         Event.remoteRead (GetImportAddressTable HeaderData)
           (iatMaxEntryCount * sizeofSIZE_T) true]) := by
  rw [isStop_eq_isStopFrom] at hs
  have hleast1 : ∀ k, k < s → isStopFrom P.imageBase false
      (rawTable P.mem (GetImportAddressTable HeaderData)) k = false :=
    fun k hk => by rw [← isStop_eq_isStopFrom]; exact hleast k hk
  exact RebuildImportsWith_walk_ok res cs P HeaderData _ hopen hread
    (walk_leastStop res P.imageBase _ false s walkInit hhigh hret hs hleast1)

/-- Everything after the walk, when the table write succeeds and the write of the RVA field
fails. -/
theorem finishRebuild_rva_fail (P : Process) (HeaderData : REMOTE_PE_HEADER) (w : WalkState)
    (tr : List Event)
    (hlen : w.unpackedThunkArray.length ≤ iatMaxEntryCount)
    (hw1 : P.canWrite (GetImportAddressTable HeaderData)
      (8 * (w.unpackedThunkArray.length + 1)) = true)
    (hw2 : P.canWrite (iatDDAddress HeaderData) 4 = false) :
    (finishRebuild P HeaderData w tr).ret = false ∧
      (finishRebuild P HeaderData w tr).proc.mem
        = storeBytes P.mem (GetImportAddressTable HeaderData)
            (bytesOfSlots (w.unpackedThunkArray ++ [0])) := by
  have hl : (w.unpackedThunkArray ++ [0]).length ≤ iatMaxEntryCount + 1 := by
    simp only [List.length_append, List.length_singleton]; omega
  have hsz := iatSize_eq _ hl
  have htk := take_bytesOfSlots _ hl
  have hbl := length_bytesOfSlots (w.unpackedThunkArray ++ [0])
  simp only [List.length_append, List.length_singleton, sizeofSIZE_T] at hsz hbl
  rw [iatSize_eq _ hl] at htk
  simp only [List.length_append, List.length_singleton] at htk
  simp only [finishRebuild, htk, RemoteWrite, hbl, hw1, if_true, sizeofDWORD,
    length_leBytes, hw2, hsz, List.length_append, List.length_singleton, Bool.false_eq_true,
    if_false, and_self]

/-- Everything after the walk, when the table write and the write of the RVA field succeed
and the write of the size field fails. -/
theorem finishRebuild_size_fail (P : Process) (HeaderData : REMOTE_PE_HEADER) (w : WalkState)
    (tr : List Event)
    (hlen : w.unpackedThunkArray.length ≤ iatMaxEntryCount)
    (hw1 : P.canWrite (GetImportAddressTable HeaderData)
      (8 * (w.unpackedThunkArray.length + 1)) = true)
    (hw2 : P.canWrite (iatDDAddress HeaderData) 4 = true)
    (hw3 : P.canWrite (iatSizeAddress HeaderData) 4 = false) :
    (finishRebuild P HeaderData w tr).ret = false ∧
      (finishRebuild P HeaderData w tr).proc.mem
        = storeBytes
            (storeBytes P.mem (GetImportAddressTable HeaderData)
              (bytesOfSlots (w.unpackedThunkArray ++ [0])))
            (iatDDAddress HeaderData) (leBytes 4 (iatRVA HeaderData)) := by
  have hl : (w.unpackedThunkArray ++ [0]).length ≤ iatMaxEntryCount + 1 := by
    simp only [List.length_append, List.length_singleton]; omega
  have hsz := iatSize_eq _ hl
  have htk := take_bytesOfSlots _ hl
  have hbl := length_bytesOfSlots (w.unpackedThunkArray ++ [0])
  simp only [List.length_append, List.length_singleton, sizeofSIZE_T] at hsz hbl
  rw [iatSize_eq _ hl] at htk
  simp only [List.length_append, List.length_singleton] at htk
  simp only [finishRebuild, htk, RemoteWrite, hbl, hw1, if_true, sizeofDWORD,
    length_leBytes, hw2, hw3, hsz, List.length_append, List.length_singleton,
    Bool.false_eq_true, if_false, and_self]

/-- The state of the target when the directory patch fails after the table write: the table
holds the vector `out`, the size field is the old one, and the RVA field is the old one when
its write is the one that fails and the new one otherwise. -/
theorem patch_failure_state (P : Process) (HeaderData : REMOTE_PE_HEADER) (w : WalkState)
    (tr : List Event)
    (hlen : w.unpackedThunkArray.length ≤ iatMaxEntryCount)
    (hw1 : P.canWrite (GetImportAddressTable HeaderData)
      (8 * (w.unpackedThunkArray.length + 1)) = true)
    (hfail : P.canWrite (iatDDAddress HeaderData) 4 = false ∨
      P.canWrite (iatDDAddress HeaderData + 4) 4 = false)
    (hdir : iatDDAddress HeaderData + 8 ≤ GetImportAddressTable HeaderData) :
    (finishRebuild P HeaderData w tr).ret = false ∧
      (∀ k (hk : k < (w.unpackedThunkArray ++ [0]).length),
        slotAt (finishRebuild P HeaderData w tr).proc.mem (GetImportAddressTable HeaderData) k
          = (w.unpackedThunkArray ++ [0])[k] % 2 ^ 64) ∧
      dwordAt (finishRebuild P HeaderData w tr).proc.mem (iatDDAddress HeaderData + 4)
        = dwordAt P.mem (iatDDAddress HeaderData + 4) ∧
      (P.canWrite (iatDDAddress HeaderData) 4 = false →
        dwordAt (finishRebuild P HeaderData w tr).proc.mem (iatDDAddress HeaderData)
          = dwordAt P.mem (iatDDAddress HeaderData)) ∧
      (P.canWrite (iatDDAddress HeaderData) 4 = true →
        dwordAt (finishRebuild P HeaderData w tr).proc.mem (iatDDAddress HeaderData)
          = iatRVA HeaderData) := by
  have hbl := length_bytesOfSlots (w.unpackedThunkArray ++ [0])
  simp only [sizeofSIZE_T] at hbl
  have hrva : iatRVA HeaderData % 256 ^ 4 = iatRVA HeaderData := by
    have : iatRVA HeaderData < 2 ^ 32 := Nat.mod_lt _ (by decide)
    exact Nat.mod_eq_of_lt (by simpa using this)
  by_cases hw2 : P.canWrite (iatDDAddress HeaderData) 4 = true
  · have hw3 : P.canWrite (iatSizeAddress HeaderData) 4 = false := by
      rw [iatSizeAddress_eq HeaderData hdir]
      rcases hfail with h | h
      · rw [hw2] at h; exact absurd h (by decide)
      · exact h
    obtain ⟨hret, hmem⟩ := finishRebuild_size_fail P HeaderData w tr hlen hw1 hw2 hw3
    rw [hmem]
    refine ⟨hret, ?_, ?_, ?_, ?_⟩
    · intro k hk
      rw [← slotAt_store_slots P.mem (GetImportAddressTable HeaderData) _ k hk]
      unfold slotAt
      rw [wordAt_store_frame _ _ _ _ _
        (by right; rw [length_leBytes]; simp only [sizeofSIZE_T]; omega)]
    · unfold dwordAt
      simp only [sizeofDWORD]
      rw [wordAt_store_frame _ _ _ _ _ (by right; rw [length_leBytes]),
        wordAt_store_frame _ _ _ _ _ (by left; omega)]
    · intro h
      rw [hw2] at h
      exact absurd h (by decide)
    · intro _
      unfold dwordAt
      simp only [sizeofDWORD]
      rw [wordAt_store_same, hrva]
  · rw [Bool.not_eq_true] at hw2
    obtain ⟨hret, hmem⟩ := finishRebuild_rva_fail P HeaderData w tr hlen hw1 hw2
    rw [hmem]
    refine ⟨hret, ?_, ?_, ?_, ?_⟩
    · intro k hk
      exact slotAt_store_slots P.mem (GetImportAddressTable HeaderData) _ k hk
    · unfold dwordAt
      simp only [sizeofDWORD]
      rw [wordAt_store_frame _ _ _ _ _ (by left; omega)]
    · intro _
      unfold dwordAt
      simp only [sizeofDWORD]
      rw [wordAt_store_frame _ _ _ _ _ (by left; omega)]
    · intro h
      rw [hw2] at h
      exact absurd h (by decide)

theorem packedTable_groups_raw :
    rawTable packedTable.mem (GetImportAddressTable exampleHeader)
      = groupSlots [([0x10000, 0x10100], 0)] ++ 0 ::
        (rawTable packedTable.mem (GetImportAddressTable exampleHeader)).drop 4 :=
  packedTable_raw.trans
    ((fun X => by simp [groupSlots] :
      ∀ X : List Nat, [0x10000, 0x10100] ++ 0 :: 0 :: X
        = groupSlots [([0x10000, 0x10100], 0)] ++ 0 :: X) _)

theorem sizeWriteFails_raw :
    rawTable sizeWriteFails.mem (GetImportAddressTable exampleHeader)
      = groupSlots [([0x10000, 0x10100], 0)] ++ 0 ::
        (rawTable sizeWriteFails.mem (GetImportAddressTable exampleHeader)).drop 4 := by
  have e : sizeWriteFails.mem = packedTable.mem := rfl
  rw [e]
  exact packedTable_groups_raw

/-- The vector that a run on a table of groups writes holds `SIZE_T` values. -/
theorem rebuilt_getD_mod (cs : Capstone) (P : Process) (fuel : Nat) (visited : List Nat)
    (k : Nat)
    (hk : k < (visited.map (rebuiltSlot (resolve cs P fuel) P.imageBase) ++ [0]).length) :
    (visited.map (rebuiltSlot (resolve cs P fuel) P.imageBase) ++ [0])[k] % 2 ^ 64
      = (visited.map (rebuiltSlot (resolve cs P fuel) P.imageBase) ++ [0]).getD k 0 := by
  rw [List.getD_eq_getElem _ _ hk]
  apply Nat.mod_eq_of_lt
  have hall : ∀ x ∈ visited.map (rebuiltSlot (resolve cs P fuel) P.imageBase) ++ [0],
      x < 2 ^ 64 := by
    intro x hx
    rcases List.mem_append.mp hx with hx | hx
    · obtain ⟨t, _, rfl⟩ := List.mem_map.mp hx
      exact rebuiltSlot_resolve_lt cs P fuel P.imageBase t
    · simp only [List.mem_singleton] at hx
      subst hx; decide
  exact hall _ (List.getElem_mem hk)

/-! ## Further claims on `RebuildImports` -/

/-- C13 as stated fails: with `.rdata` not found the table address is 0, and on `emptyTable`,
where address 0 is accessible, `RebuildImports` reads the table at address 0, writes there
and to the directory entry, and returns success. -/
theorem rebuild_no_rdata_counterexample :
    noRdataHeader.rdata = none ∧
    ∃ r, RebuildImports x64 1 emptyTable noRdataHeader = .ok r ∧ r.ret = true ∧
      windowsOf r.trace = [(0, 0x8000)] ∧
      writesOf r.trace =
        [(0, bytesOfSlots [0]), (0x7FF7000001E8, leBytes 4 (iatRVA noRdataHeader)),
         (0x7FF7000001EC, leBytes 4 8)] := by
  have hrun := RebuildImportsWith_stop_first (resolve x64 emptyTable 1) x64 emptyTable
    noRdataHeader rfl rfl (by decide) rfl rfl rfl
  exact ⟨rfl, _, hrun, rfl, rfl, rfl⟩

/-- C13 amended: if `.rdata` cannot be located, the table address is 0 and `RebuildImports`
attempts the bulk read there (when the disassembler opens); when that read fails it returns
failure, leaves the target as it was, invokes `resolve` zero times and requests no write. -/
theorem rebuild_no_rdata (cs : Capstone) (fuel : Nat) (P : Process)
    (HeaderData : REMOTE_PE_HEADER) (hrdata : HeaderData.rdata = none)
    (hnull : P.canRead 0 (iatMaxEntryCount * sizeofSIZE_T) = false) :
    ∃ r, RebuildImports cs fuel P HeaderData = .ok r ∧ r.ret = false ∧ r.proc = P ∧
      r.calls = [] ∧ writesOf r.trace = [] ∧
      windowsOf r.trace = (if cs.openOk then [(0, iatMaxEntryCount * sizeofSIZE_T)] else []) := by
  have h0 : GetImportAddressTable HeaderData = 0 := by
    simp [GetImportAddressTable, hrdata]
  cases hopen : cs.openOk with
  | false =>
    exact ⟨_, RebuildImportsWith_not_open (resolve cs P fuel) cs P HeaderData hopen,
      rfl, rfl, rfl, rfl, rfl⟩
  | true =>
    have hrun := RebuildImportsWith_read_fail (resolve cs P fuel) cs P HeaderData hopen
      (by rw [h0]; exact hnull)
    refine ⟨_, hrun, rfl, rfl, rfl, rfl, ?_⟩
    simp [windowsOf, h0]

/-- Witness of C13 amended on `nullUnreadable`, whose first page cannot be read. -/
theorem rebuild_no_rdata_witness :
    ∃ r, RebuildImports x64 1 nullUnreadable noRdataHeader = .ok r ∧ r.ret = false ∧
      r.proc = nullUnreadable ∧ r.calls = [] ∧ writesOf r.trace = [] ∧
      windowsOf r.trace
        = (if x64.openOk then [(0, iatMaxEntryCount * sizeofSIZE_T)] else []) :=
  rebuild_no_rdata x64 1 nullUnreadable noRdataHeader rfl (by decide)

/-- C14 as stated fails: on `sizeWriteFails` the bulk write of the table and the write of the
RVA field succeed and the write of the size field fails; `RebuildImports` returns failure,
but the RVA field of the directory entry is not stale: it changed from 0x5000 to 0x2000. -/
theorem rebuild_patch_failure_counterexample :
    sizeWriteFails.canWrite (GetImportAddressTable exampleHeader) 32 = true ∧
    sizeWriteFails.canWrite (iatDDAddress exampleHeader + 4) 4 = false ∧
    ∃ r, RebuildImports x64 1 sizeWriteFails exampleHeader = .ok r ∧ r.ret = false ∧
      dwordAt sizeWriteFails.mem (iatDDAddress exampleHeader) = 0x5000 ∧
      dwordAt r.proc.mem (iatDDAddress exampleHeader) = 0x2000 := by
  have hrun := RebuildImportsWith_groups (resolve x64 sizeWriteFails 1) x64 sizeWriteFails
    exampleHeader [([0x10000, 0x10100], 0)] 0 _ rfl rfl sizeWriteFails_raw (by decide)
    (by decide) (by decide) (by decide)
  obtain ⟨hret, -, -, -, hrva⟩ := patch_failure_state sizeWriteFails exampleHeader
    (afterWalk (resolve x64 sizeWriteFails 1) sizeWriteFails.imageBase
      (groupSlots [([0x10000, 0x10100], 0)]) [([0x10000, 0x10100], 0)].length walkInit)
    [Event.logFoundIAT (GetImportAddressTable exampleHeader),
     Event.remoteRead (GetImportAddressTable exampleHeader)
       (iatMaxEntryCount * sizeofSIZE_T) true]
    (by decide) rfl (Or.inr rfl) (by decide)
  have hst := staleDirectory_fields sizeWriteFails (by rfl)
  refine ⟨rfl, rfl, _, hrun, hret, hst.1, ?_⟩
  rw [hrva rfl]
  decide

/-- C14 amended: if the bulk write of the rebuilt table succeeds and the directory patch then
fails, `RebuildImports` returns failure and the table in the target holds the fully rebuilt
sequence; the size field keeps its value from before the call; the RVA field keeps its old
value when its write is the one that fails, but holds the new table RVA when its write
succeeds and the write of the size field fails. The table is made of groups of packed thunks,
each followed by a boundary slot, and the directory entry is assumed to lie before the table. -/
theorem rebuild_patch_failure (cs : Capstone) (fuel : Nat) (P : Process)
    (HeaderData : REMOTE_PE_HEADER) (groups : List (List Nat × Nat)) (b : Nat)
    (rest : List Nat)
    (hopen : cs.openOk = true)
    (hread : P.canRead (GetImportAddressTable HeaderData)
      (iatMaxEntryCount * sizeofSIZE_T) = true)
    (htable : rawTable P.mem (GetImportAddressTable HeaderData) = groupSlots groups ++ b :: rest)
    (hhigh : ∀ t ∈ groupSlots groups, isPacked P.imageBase t = true → t < 0x00007FF000000000)
    (hv : validGroups P.imageBase groups = true)
    (hret : ∀ t ∈ groupSlots groups, isPacked P.imageBase t = true →
      (resolve cs P fuel t).isSome = true)
    (hb : isPacked P.imageBase b = false)
    (hw1 : P.canWrite (GetImportAddressTable HeaderData)
      (8 * ((groupSlots groups).length + 1)) = true)
    (hfail : P.canWrite (iatDDAddress HeaderData) 4 = false ∨
      P.canWrite (iatDDAddress HeaderData + 4) 4 = false)
    (hdir : iatDDAddress HeaderData + 8 ≤ GetImportAddressTable HeaderData) :
    ∃ r, RebuildImports cs fuel P HeaderData = .ok r ∧ r.ret = false ∧
      r.output = (groupSlots groups).map (rebuiltSlot (resolve cs P fuel) P.imageBase) ++ [0] ∧
      (∀ k, k < r.output.length →
        slotAt r.proc.mem (GetImportAddressTable HeaderData) k = r.output.getD k 0) ∧
      dwordAt r.proc.mem (iatDDAddress HeaderData + 4)
        = dwordAt P.mem (iatDDAddress HeaderData + 4) ∧
      (P.canWrite (iatDDAddress HeaderData) 4 = false →
        dwordAt r.proc.mem (iatDDAddress HeaderData)
          = dwordAt P.mem (iatDDAddress HeaderData)) ∧
      (P.canWrite (iatDDAddress HeaderData) 4 = true →
        dwordAt r.proc.mem (iatDDAddress HeaderData) = iatRVA HeaderData) := by
  have hrun := RebuildImportsWith_groups (resolve cs P fuel) cs P HeaderData groups b rest
    hopen hread htable hhigh hv hret hb
  have hlen := congrArg List.length htable
  rw [length_rawTable, List.length_append, List.length_cons] at hlen
  have hwo : (afterWalk (resolve cs P fuel) P.imageBase (groupSlots groups) groups.length
      walkInit).unpackedThunkArray
        = (groupSlots groups).map (rebuiltSlot (resolve cs P fuel) P.imageBase) := by
    simp [afterWalk, walkInit]
  obtain ⟨h1, h2, h3, h4, h5⟩ := patch_failure_state P HeaderData
    (afterWalk (resolve cs P fuel) P.imageBase (groupSlots groups) groups.length walkInit)
    [Event.logFoundIAT (GetImportAddressTable HeaderData),
     Event.remoteRead (GetImportAddressTable HeaderData)
       (iatMaxEntryCount * sizeofSIZE_T) true]
    (by rw [hwo, List.length_map]; omega) (by rw [hwo, List.length_map]; exact hw1) hfail hdir
  have hout := finishRebuild_output P HeaderData
    (afterWalk (resolve cs P fuel) P.imageBase (groupSlots groups) groups.length walkInit)
    [Event.logFoundIAT (GetImportAddressTable HeaderData),
     Event.remoteRead (GetImportAddressTable HeaderData)
       (iatMaxEntryCount * sizeofSIZE_T) true]
  rw [hwo] at hout h2
  refine ⟨_, hrun, h1, hout, ?_, h3, h4, h5⟩
  intro k hk
  rw [hout] at hk ⊢
  rw [h2 k hk]
  exact rebuilt_getD_mod cs P fuel (groupSlots groups) k hk

/-- Witness of C14 amended on `sizeWriteFails`, where the write of the size field fails. -/
theorem rebuild_patch_failure_witness :
    ∃ r, RebuildImports x64 1 sizeWriteFails exampleHeader = .ok r ∧ r.ret = false ∧
      r.output = (groupSlots [([0x10000, 0x10100], 0)]).map
        (rebuiltSlot (resolve x64 sizeWriteFails 1) sizeWriteFails.imageBase) ++ [0] ∧
      (∀ k, k < r.output.length →
        slotAt r.proc.mem (GetImportAddressTable exampleHeader) k = r.output.getD k 0) ∧
      dwordAt r.proc.mem (iatDDAddress exampleHeader + 4)
        = dwordAt sizeWriteFails.mem (iatDDAddress exampleHeader + 4) ∧
      (sizeWriteFails.canWrite (iatDDAddress exampleHeader) 4 = false →
        dwordAt r.proc.mem (iatDDAddress exampleHeader)
          = dwordAt sizeWriteFails.mem (iatDDAddress exampleHeader)) ∧
      (sizeWriteFails.canWrite (iatDDAddress exampleHeader) 4 = true →
        dwordAt r.proc.mem (iatDDAddress exampleHeader) = iatRVA exampleHeader) :=
  rebuild_patch_failure x64 1 sizeWriteFails exampleHeader [([0x10000, 0x10100], 0)] 0
    ((rawTable sizeWriteFails.mem (GetImportAddressTable exampleHeader)).drop 4)
    rfl rfl sizeWriteFails_raw (by decide) (by decide) (by decide) (by decide) rfl
    (Or.inr rfl) (by decide)

theorem take_rawTable (mem : Nat → Nat) (a n : Nat) (hn : n ≤ iatMaxEntryCount) :
    (rawTable mem a).take n = (List.range n).map (slotAt mem a) := by
  unfold rawTable
  rw [← List.map_take, List.take_range, Nat.min_eq_left hn]

theorem separatorGroups_slots (X : List Nat) :
    ([0x10000, 0x7FE000001234, 0x10100] ++ [0, 0]) ++ X
      = groupSlots [([0x10000], 0x7FE000001234), ([0x10100], 0)] ++ 0 :: X := by
  simp [groupSlots]

theorem separatorTable_raw :
    rawTable separatorTable.mem (GetImportAddressTable lowHeader)
      = groupSlots [([0x10000], 0x7FE000001234), ([0x10100], 0)] ++ 0 ::
        (rawTable separatorTable.mem (GetImportAddressTable lowHeader)).drop 5 :=
  (rawTable_firstSlots separatorTable.mem (GetImportAddressTable lowHeader) 5
    ([0x10000, 0x7FE000001234, 0x10100] ++ [0, 0]) (by decide) (by rfl)).trans
    (separatorGroups_slots _)

theorem length_filter_add_boundaryCount (imageBase : Nat) (l : List Nat) :
    (l.filter (isPacked imageBase)).length + boundaryCount imageBase l = l.length := by
  induction l with
  | nil => rfl
  | cons v l ih =>
    unfold boundaryCount at ih ⊢
    by_cases hp : isPacked imageBase v = true
    · simp only [List.filter_cons, hp, if_true, Bool.not_true, Bool.false_eq_true, if_false,
        List.length_cons]
      omega
    · rw [Bool.not_eq_true] at hp
      simp only [List.filter_cons, hp, Bool.false_eq_true, if_false, Bool.not_false, if_true,
        List.length_cons]
      omega

/-- C15 as stated fails: on `separatorTable` the raw table is
`[0x10000, 0x7FE000001234, 0x10100, 0, 0]` with 0x7FE000001234 at or above the image base
between two packed thunks, and the rebuilt table holds 0 at that position, not the slot's
value: the output is `[0x7FF712345678, 0, 0x7FF7AABBCCDD, 0, 0]`. -/
theorem rebuild_separator_counterexample :
    (List.range 5).map (slotAt separatorTable.mem (GetImportAddressTable lowHeader))
      = [0x10000, 0x7FE000001234, 0x10100, 0, 0] ∧
    separatorTable.imageBase ≤ 0x7FE000001234 ∧
    ∃ r : RebuildResult, RebuildImports x64 1 separatorTable lowHeader = .ok r ∧
      r.ret = true ∧ r.output = [0x7FF712345678, 0, 0x7FF7AABBCCDD, 0, 0] ∧
      r.output[1]? ≠ some 0x7FE000001234 := by
  have hrun := RebuildImportsWith_groups_ok (resolve x64 separatorTable 1) x64 separatorTable
    lowHeader [([0x10000], 0x7FE000001234), ([0x10100], 0)] 0 _ rfl rfl separatorTable_raw
    (by decide) (by decide) (by decide) (by decide) rfl rfl rfl
  refine ⟨by rfl, by decide, _, hrun, rfl, by rfl, ?_⟩
  show ((groupSlots [([0x10000], 0x7FE000001234), ([0x10100], 0)]).map
    (rebuiltSlot (resolve x64 separatorTable 1) separatorTable.imageBase) ++ [0])[1]? ≠ _
  decide

/-- C15 amended: in a raw table made of groups of packed thunks, a slot of value A at or
above the image base that follows a run of packed thunks is a group boundary: with every
access succeeding, `RebuildImports` appends 0 for it, so the rebuilt table holds 0 at that
slot's position (giving `[R1, 0, R2, 0, 0]` for `[T1, A, T2, 0, 0]`), and the resolved
pointers at the thunk positions. The directory entry is assumed to lie before the table. -/
theorem rebuild_separator (cs : Capstone) (fuel : Nat) (P : Process)
    (HeaderData : REMOTE_PE_HEADER) (groups : List (List Nat × Nat)) (b : Nat)
    (rest : List Nat) (k A : Nat)
    (hopen : cs.openOk = true)
    (hread : P.canRead (GetImportAddressTable HeaderData)
      (iatMaxEntryCount * sizeofSIZE_T) = true)
    (hw1 : P.canWrite (GetImportAddressTable HeaderData)
      (8 * ((groupSlots groups).length + 1)) = true)
    (hw2 : P.canWrite (iatDDAddress HeaderData) 4 = true)
    (hw3 : P.canWrite (iatDDAddress HeaderData + 4) 4 = true)
    (hdir : iatDDAddress HeaderData + 8 ≤ GetImportAddressTable HeaderData)
    (htable : rawTable P.mem (GetImportAddressTable HeaderData) = groupSlots groups ++ b :: rest)
    (hhigh : ∀ t ∈ groupSlots groups, isPacked P.imageBase t = true → t < 0x00007FF000000000)
    (hv : validGroups P.imageBase groups = true)
    (hb : isPacked P.imageBase b = false)
    (hret : ∀ t ∈ groupSlots groups, isPacked P.imageBase t = true →
      (resolve cs P fuel t).isSome = true)
    (hk : (groupSlots groups)[k]? = some A)
    (hA : P.imageBase ≤ A) :
    ∃ r : RebuildResult, RebuildImports cs fuel P HeaderData = .ok r ∧ r.ret = true ∧
      r.output[k]? = some 0 ∧
      slotAt r.proc.mem (GetImportAddressTable HeaderData) k = 0 ∧
      ∀ (i t v : Nat) (ev : List Event), (groupSlots groups)[i]? = some t →
        isPacked P.imageBase t = true →
        resolve cs P fuel t = some (v, ev) → r.output[i]? = some v := by
  have hrun := RebuildImportsWith_groups_ok (resolve cs P fuel) cs P HeaderData groups b rest
    hopen hread htable hhigh hv hret hb hw1 hw2 (by rw [iatSizeAddress_eq HeaderData hdir]; exact hw3)
  have hlen := congrArg List.length htable
  rw [length_rawTable, List.length_append, List.length_cons] at hlen
  have hlt : ∀ (i t : Nat), (groupSlots groups)[i]? = some t → i < (groupSlots groups).length := by
    intro i t hi
    by_contra hge
    rw [List.getElem?_eq_none (Nat.le_of_not_lt hge)] at hi
    exact Option.noConfusion hi
  have hAp : isPacked P.imageBase A = false := (isPacked_false_iff _ _).mpr (Or.inr hA)
  have hkout : ((groupSlots groups).map (rebuiltSlot (resolve cs P fuel) P.imageBase)
      ++ [0])[k]? = some 0 := by
    rw [List.getElem?_append_left (by rw [List.length_map]; exact hlt k A hk),
      List.getElem?_map, hk]
    simp [rebuiltSlot, hAp]
  have hkl : k < ((groupSlots groups).map (rebuiltSlot (resolve cs P fuel) P.imageBase)
      ++ [0]).length := by
    simp only [List.length_append, List.length_map, List.length_singleton]
    exact Nat.lt_succ_of_lt (hlt k A hk)
  refine ⟨_, hrun, rfl, hkout, ?_, ?_⟩
  · show slotAt (patchedMem P HeaderData _) _ k = _
    rw [patchedMem_slot P HeaderData _ k
      (by simp only [List.length_append, List.length_map, List.length_singleton]; omega)
      hdir hkl]
    have h0 := List.getElem?_eq_getElem hkl
    rw [hkout] at h0
    rw [← Option.some.inj h0]
    exact Nat.zero_mod _
  · intro i t v ev hi hp hres
    show ((groupSlots groups).map (rebuiltSlot (resolve cs P fuel) P.imageBase) ++ [0])[i]?
      = some v
    rw [List.getElem?_append_left (by rw [List.length_map]; exact hlt i t hi),
      List.getElem?_map, hi]
    simp [rebuiltSlot, hp, resVal_of_eq hres]

/-- Witness of C15 amended on `separatorTable`, at index 1. -/
theorem rebuild_separator_witness :
    ∃ r : RebuildResult, RebuildImports x64 1 separatorTable lowHeader = .ok r ∧
      r.ret = true ∧ r.output[1]? = some 0 ∧
      slotAt r.proc.mem (GetImportAddressTable lowHeader) 1 = 0 ∧
      ∀ (i t v : Nat) (ev : List Event),
        (groupSlots [([0x10000], 0x7FE000001234), ([0x10100], 0)])[i]? = some t →
        isPacked separatorTable.imageBase t = true →
        resolve x64 separatorTable 1 t = some (v, ev) → r.output[i]? = some v :=
  rebuild_separator x64 1 separatorTable lowHeader
    [([0x10000], 0x7FE000001234), ([0x10100], 0)] 0
    ((rawTable separatorTable.mem (GetImportAddressTable lowHeader)).drop 5) 1 0x7FE000001234
    rfl rfl rfl rfl rfl (by decide) separatorTable_raw (by decide) (by decide) (by decide)
    (by decide) rfl (by decide)

/-- C16 as stated fails: on `failingTable` three packed thunks are attempted and the second
resolves to 0, so two are resolved successfully, yet the final log line reports 3. -/
theorem rebuild_report_counterexample :
    ∃ r : RebuildResult, RebuildImports x64 2 failingTable exampleHeader = .ok r ∧
      r.calls = [0x10000, 0x10100, 0x10200] ∧
      r.calls.map (resVal (resolve x64 failingTable 2))
        = [0x7FF712345678, 0, 0x7FF7AABBCCDD] ∧
      r.trace.getLast? = some (Event.logRestored 3 (GetImportAddressTable exampleHeader)) := by
  have hrun := RebuildImportsWith_groups_ok (resolve x64 failingTable 2) x64 failingTable
    exampleHeader [([0x10000, 0x10100, 0x10200], 0)] 0 _ rfl rfl failingTable_raw
    (by decide) (by decide) (by decide) (by decide) rfl rfl rfl
  exact ⟨_, hrun, by rfl, by rfl, by rfl⟩

theorem getD_map_take_append (f : Nat → Nat) (l : List Nat) (s k : Nat) (hk : k < s)
    (hs : s ≤ l.length) : ((l.take s).map f ++ [0]).getD k 0 = f (l.getD k 0) := by
  have hkl : k < l.length := by omega
  have htl : (l.take s).length = s := by rw [List.length_take]; omega
  rw [List.getD_eq_getElem?_getD, List.getElem?_append_left
    (by rw [List.length_map, htl]; exact hk), List.getElem?_map, List.getElem?_take_of_lt hk,
    List.getElem?_eq_getElem hkl, List.getD_eq_getElem _ _ hkl]
  rfl

theorem getD_map_take_append_last (f : Nat → Nat) (l : List Nat) (s : Nat)
    (hs : s ≤ l.length) : ((l.take s).map f ++ [0]).getD s 0 = 0 := by
  have htl : (l.take s).length = s := by rw [List.length_take]; omega
  rw [List.getD_eq_getElem?_getD, List.getElem?_append_right
    (by rw [List.length_map, htl]), List.length_map, htl, Nat.sub_self]
  rfl

/-- C17: position alignment of the table walk, for an image base at or below
0x00007FF000000000. Let `s` be the least index such that slot `s` is not a packed thunk and
`s` is 0 or slot `s - 1` is not a packed thunk. Then, when every `resolve` call returns, the
output sequence has length `s + 1`, holds `resolve(raw[k])` at every packed-thunk index
`k < s` and 0 at every other index up to `s`, and `resolve` is invoked once per packed-thunk
slot below `s`, in increasing index order. -/
theorem rebuild_position_alignment (cs : Capstone) (fuel : Nat) (P : Process)
    (HeaderData : REMOTE_PE_HEADER) (s : Nat)
    (hopen : cs.openOk = true)
    (hread : P.canRead (GetImportAddressTable HeaderData)
      (iatMaxEntryCount * sizeofSIZE_T) = true)
    (hbase : P.imageBase ≤ 0x00007FF000000000)
    (hret : ∀ t ∈ (rawTable P.mem (GetImportAddressTable HeaderData)).take s,
      isPacked P.imageBase t = true → (resolve cs P fuel t).isSome = true)
    (hs : isStop P.imageBase (rawTable P.mem (GetImportAddressTable HeaderData)) s = true)
    (hleast : ∀ k, k < s →
      isStop P.imageBase (rawTable P.mem (GetImportAddressTable HeaderData)) k = false) :
    ∃ r : RebuildResult, RebuildImports cs fuel P HeaderData = .ok r ∧
      r.output.length = s + 1 ∧
      (∀ k, k < s →
        isPacked P.imageBase
          ((rawTable P.mem (GetImportAddressTable HeaderData)).getD k 0) = true →
        r.output.getD k 0 = resVal (resolve cs P fuel)
          ((rawTable P.mem (GetImportAddressTable HeaderData)).getD k 0)) ∧
      (∀ k, k ≤ s →
        (k = s ∨ isPacked P.imageBase
          ((rawTable P.mem (GetImportAddressTable HeaderData)).getD k 0) = false) →
        r.output.getD k 0 = 0) ∧
      r.calls = ((rawTable P.mem (GetImportAddressTable HeaderData)).take s).filter
        (isPacked P.imageBase) := by
  have hsl : s < iatMaxEntryCount := by
    have h := hs
    simp only [isStop, length_rawTable, Bool.and_eq_true, decide_eq_true_eq] at h
    exact h.1.1
  have htl : ((rawTable P.mem (GetImportAddressTable HeaderData)).take s).length = s := by
    rw [List.length_take, length_rawTable]; omega
  have hrun := RebuildImportsWith_leastStop (resolve cs P fuel) cs P HeaderData s hopen hread
    (fun t _ hp => by rw [isPacked_true_iff] at hp; omega) hret hs hleast
  obtain ⟨w, hw, hwo, hwc⟩ : ∃ w : WalkState,
      w = afterWalk (resolve cs P fuel) P.imageBase
        ((rawTable P.mem (GetImportAddressTable HeaderData)).take s)
        (boundaryCount P.imageBase
          ((rawTable P.mem (GetImportAddressTable HeaderData)).take s)) walkInit ∧
      w.unpackedThunkArray = ((rawTable P.mem (GetImportAddressTable HeaderData)).take s).map
        (rebuiltSlot (resolve cs P fuel) P.imageBase) ∧
      w.calls = ((rawTable P.mem (GetImportAddressTable HeaderData)).take s).filter
        (isPacked P.imageBase) :=
    ⟨_, rfl, by simp only [afterWalk, walkInit, List.nil_append],
      by simp only [afterWalk, walkInit, List.nil_append]⟩
  rw [← hw] at hrun
  have hout : (finishRebuild P HeaderData w
      [Event.logFoundIAT (GetImportAddressTable HeaderData),
       Event.remoteRead (GetImportAddressTable HeaderData)
         (iatMaxEntryCount * sizeofSIZE_T) true]).output
      = ((rawTable P.mem (GetImportAddressTable HeaderData)).take s).map
        (rebuiltSlot (resolve cs P fuel) P.imageBase) ++ [0] := by
    rw [finishRebuild_output, hwo]
  have hcalls : (finishRebuild P HeaderData w
      [Event.logFoundIAT (GetImportAddressTable HeaderData),
       Event.remoteRead (GetImportAddressTable HeaderData)
         (iatMaxEntryCount * sizeofSIZE_T) true]).calls
      = ((rawTable P.mem (GetImportAddressTable HeaderData)).take s).filter
        (isPacked P.imageBase) := by
    rw [finishRebuild_calls, hwc]
  have hlen : s ≤ (rawTable P.mem (GetImportAddressTable HeaderData)).length := by
    rw [length_rawTable]; omega
  refine ⟨_, hrun, ?_, ?_, ?_, hcalls⟩
  · rw [hout, List.length_append, List.length_map, htl]
    rfl
  · intro k hk hp
    rw [hout, getD_map_take_append _ _ s k hk hlen, rebuiltSlot, if_pos hp]
  · intro k hk hc
    rw [hout]
    by_cases hks : k = s
    · subst hks
      exact getD_map_take_append_last _ _ k hlen
    · have hp : isPacked P.imageBase
          ((rawTable P.mem (GetImportAddressTable HeaderData)).getD k 0) = false := by
        rcases hc with hc | hc
        · exact absurd hc hks
        · exact hc
      rw [getD_map_take_append _ _ s k (by omega) hlen, rebuiltSlot, hp]
      rfl

/-- Witness of C17 on `separatorTable`, whose image base 0x7FE000000000 is below the bound
and whose walk ends at index 4. -/
theorem rebuild_position_alignment_witness :
    ∃ r : RebuildResult, RebuildImports x64 1 separatorTable lowHeader = .ok r ∧
      r.output.length = 4 + 1 ∧
      (∀ k, k < 4 →
        isPacked separatorTable.imageBase
          ((rawTable separatorTable.mem (GetImportAddressTable lowHeader)).getD k 0) = true →
        r.output.getD k 0 = resVal (resolve x64 separatorTable 1)
          ((rawTable separatorTable.mem (GetImportAddressTable lowHeader)).getD k 0)) ∧
      (∀ k, k ≤ 4 →
        (k = 4 ∨ isPacked separatorTable.imageBase
          ((rawTable separatorTable.mem (GetImportAddressTable lowHeader)).getD k 0) = false) →
        r.output.getD k 0 = 0) ∧
      r.calls = ((rawTable separatorTable.mem (GetImportAddressTable lowHeader)).take 4).filter
        (isPacked separatorTable.imageBase) :=
  rebuild_position_alignment x64 1 separatorTable lowHeader 4 rfl rfl (by decide)
    (by rw [take_rawTable _ _ 4 (by decide)]; decide)
    ((isStop_rawTable _ _ _ 4 (by decide)).trans (by decide))
    (fun k hk => by
      interval_cases k <;> exact (isStop_rawTable _ _ _ _ (by decide)).trans (by decide))

/-- C18: bounds safety of the table walk. If some index `s` of the 4096-slot raw array is
such that slot `s` is not a packed thunk and `s` is 0 or slot `s - 1` is not a packed thunk,
then `RebuildImports` never reads past the array, every index that the nested loops read
is at most `s` and so below 4096, and the walk does not depend on the slots behind `s`: it
behaves the same on the array cut after slot `s`. This holds for every image base and whether
or not the `resolve` calls return. -/
theorem rebuild_walk_in_bounds (cs : Capstone) (fuel : Nat) (P : Process)
    (HeaderData : REMOTE_PE_HEADER) (s : Nat)
    (hs : isStop P.imageBase (rawTable P.mem (GetImportAddressTable HeaderData)) s = true) :
    s < iatMaxEntryCount ∧
      RebuildImports cs fuel P HeaderData ≠ .error .outOfBounds ∧
      (∀ r : RebuildResult, RebuildImports cs fuel P HeaderData = .ok r →
        ∀ i ∈ r.reads, i ≤ s ∧ i < iatMaxEntryCount) ∧
      walk (resolve cs P fuel) P.imageBase false
          ((rawTable P.mem (GetImportAddressTable HeaderData)).take (s + 1)) walkInit
        = walk (resolve cs P fuel) P.imageBase false
            (rawTable P.mem (GetImportAddressTable HeaderData)) walkInit := by
  have hsl : s < iatMaxEntryCount := by
    have h := hs
    simp only [isStop, length_rawTable, Bool.and_eq_true, decide_eq_true_eq] at h
    exact h.1.1
  rw [isStop_eq_isStopFrom] at hs
  obtain ⟨hoob, htake, hreads⟩ := walk_reads_bounded (resolve cs P fuel) P.imageBase
    (rawTable P.mem (GetImportAddressTable HeaderData)) false s walkInit hs
  refine ⟨hsl, ?_, ?_, htake⟩
  · cases hopen : cs.openOk with
    | false =>
      rw [RebuildImports, RebuildImportsWith_not_open _ cs P HeaderData hopen]
      exact fun h => Except.noConfusion h
    | true =>
      cases hread : P.canRead (GetImportAddressTable HeaderData)
          (iatMaxEntryCount * sizeofSIZE_T) with
      | false =>
        rw [RebuildImports, RebuildImportsWith_read_fail _ cs P HeaderData hopen hread]
        exact fun h => Except.noConfusion h
      | true =>
        cases hw : walk (resolve cs P fuel) P.imageBase false
            (rawTable P.mem (GetImportAddressTable HeaderData)) walkInit with
        | error e =>
          rw [RebuildImports, RebuildImportsWith_walk_error _ cs P HeaderData e hopen hread hw]
          intro h
          rw [hw] at hoob
          injection h with h
          exact hoob (congrArg Except.error h)
        | ok w =>
          rw [RebuildImports, RebuildImportsWith_walk_ok _ cs P HeaderData w hopen hread hw]
          exact fun h => Except.noConfusion h
  · intro r hr i hi
    have hle : i ≤ s := by
      cases hopen : cs.openOk with
      | false =>
        rw [RebuildImports, RebuildImportsWith_not_open _ cs P HeaderData hopen] at hr
        injection hr with hr
        subst hr
        simp at hi
      | true =>
        cases hread : P.canRead (GetImportAddressTable HeaderData)
            (iatMaxEntryCount * sizeofSIZE_T) with
        | false =>
          rw [RebuildImports, RebuildImportsWith_read_fail _ cs P HeaderData hopen hread] at hr
          injection hr with hr
          subst hr
          simp at hi
        | true =>
          cases hw : walk (resolve cs P fuel) P.imageBase false
              (rawTable P.mem (GetImportAddressTable HeaderData)) walkInit with
          | error e =>
            rw [RebuildImports,
              RebuildImportsWith_walk_error _ cs P HeaderData e hopen hread hw] at hr
            exact Except.noConfusion hr
          | ok w =>
            rw [RebuildImports,
              RebuildImportsWith_walk_ok _ cs P HeaderData w hopen hread hw] at hr
            injection hr with hr
            subst hr
            rw [finishRebuild_reads] at hi
            rcases hreads w hw i hi with h | h
            · simp [walkInit] at h
            · have h2 := h.2
              simp only [walkInit, Nat.zero_add] at h2
              exact h2
    exact ⟨hle, by omega⟩

/-- Witness of C18 on `separatorTable`, with `s = 4`. -/
theorem rebuild_walk_in_bounds_witness :
    4 < iatMaxEntryCount ∧
      RebuildImports x64 1 separatorTable lowHeader ≠ .error .outOfBounds ∧
      (∀ r : RebuildResult, RebuildImports x64 1 separatorTable lowHeader = .ok r →
        ∀ i ∈ r.reads, i ≤ 4 ∧ i < iatMaxEntryCount) ∧
      walk (resolve x64 separatorTable 1) separatorTable.imageBase false
          ((rawTable separatorTable.mem (GetImportAddressTable lowHeader)).take (4 + 1))
          walkInit
        = walk (resolve x64 separatorTable 1) separatorTable.imageBase false
            (rawTable separatorTable.mem (GetImportAddressTable lowHeader)) walkInit :=
  rebuild_walk_in_bounds x64 1 separatorTable lowHeader 4
    ((isStop_rawTable _ _ _ 4 (by decide)).trans (by decide))

/-! ## The walk up to the slot at which the outer loop ends it -/

theorem isEnd_eq_isEndFrom (imageBase : Nat) (raw : List Nat) (k : Nat) :
    isEnd imageBase raw k = isEndFrom imageBase false raw k := by
  unfold isEnd isEndFrom
  by_cases hk : k = 0 <;> simp [hk]

theorem isEndFrom_cons (imageBase : Nat) (inner : Bool) (v : Nat) (rest : List Nat) (k : Nat) :
    isEndFrom imageBase inner (v :: rest) (k + 1)
      = isEndFrom imageBase (isPacked imageBase v) rest k := by
  unfold isEndFrom
  cases k with
  | zero => simp
  | succ k => simp

theorem isEnd_rawTable (imageBase : Nat) (mem : Nat → Nat) (a k : Nat)
    (hk : k < iatMaxEntryCount) :
    isEnd imageBase (rawTable mem a) k =
      (endsWalk imageBase (slotAt mem a k) &&
        (decide (k = 0) || !isPacked imageBase (slotAt mem a (k - 1)))) := by
  unfold isEnd
  rw [length_rawTable, getD_rawTable mem a k hk, getD_rawTable mem a (k - 1) (by omega)]
  simp [hk]

/-- The outer loop ends at a slot that is not a packed thunk or is at or above the
high-address bound. -/
theorem walk_outer_end (res : Nat → Option (Nat × List Event)) (imageBase v : Nat)
    (l : List Nat) (s : WalkState) (hv : endsWalk imageBase v = true) :
    walk res imageBase false (v :: l) s = .ok { s with reads := s.reads ++ [s.i] } := by
  by_cases hp : isPacked imageBase v = true
  · have hh : 0x00007FF000000000 ≤ v := by
      simpa [endsWalk, hp] using hv
    rw [isPacked_true_iff] at hp
    simp [walk, outerHead, hp.1, hp.2, hh]
  · rw [Bool.not_eq_true] at hp
    exact walk_outer_stop res imageBase v l s hp

/-- The walk up to the least index that ends it, when every `resolve` call returns. -/
theorem walk_leastEnd (res : Nat → Option (Nat × List Event)) (imageBase : Nat)
    (l : List Nat) (inner : Bool) (s : Nat) (st : WalkState)
    (hret : ∀ t ∈ l.take s, isPacked imageBase t = true → (res t).isSome = true)
    (hs : isEndFrom imageBase inner l s = true)
    (hleast : ∀ k, k < s → isEndFrom imageBase inner l k = false) :
    walk res imageBase inner l st
      = .ok (afterWalk res imageBase (l.take s) (boundaryCount imageBase (l.take s)) st) := by
  induction l generalizing inner s st with
  | nil => simp [isEndFrom] at hs
  | cons v rest ih =>
    cases s with
    | zero =>
      simp only [isEndFrom, List.length_cons, List.getD_cons_zero, if_true,
        Bool.and_eq_true, Bool.not_eq_true', decide_eq_true_eq] at hs
      obtain ⟨⟨-, hv⟩, hin⟩ := hs
      subst hin
      rw [walk_outer_end res imageBase v _ st hv]
      simp [afterWalk, boundaryCount]
    | succ s1 =>
      rw [List.take_succ_cons] at hret ⊢
      rw [isEndFrom_cons] at hs
      have hleast1 : ∀ k, k < s1 → isEndFrom imageBase (isPacked imageBase v) rest k = false :=
        fun k hk => by rw [← isEndFrom_cons imageBase inner]; exact hleast (k + 1) (by omega)
      have h0 := hleast 0 (Nat.succ_pos s1)
      by_cases hp : isPacked imageBase v = true
      · have hstep : walk res imageBase inner (v :: rest) st
            = walk res imageBase true rest (afterRun res [v] st) := by
          cases inner with
          | true =>
            exact walk_inner_packed res imageBase v rest st hp
              (hret v (List.mem_cons_self _ _) hp)
          | false =>
            have hh : v < 0x00007FF000000000 := by
              simpa [isEndFrom, endsWalk, hp] using h0
            rw [walk_outer_packed res imageBase v rest st hp hh]
            exact walk_inner_packed res imageBase v rest st hp
              (hret v (List.mem_cons_self _ _) hp)
        rw [hp] at hs hleast1
        rw [hstep, ih true s1 _ (fun t ht => hret t (List.mem_cons_of_mem _ ht)) hs hleast1,
          afterWalk_after_packed res imageBase v _ st hp]
      · rw [Bool.not_eq_true] at hp
        have hin : inner = true := by
          simpa [isEndFrom, endsWalk, hp] using h0
        subst hin
        rw [hp] at hs hleast1
        rw [walk_inner_boundary res imageBase v rest st hp,
          ih false s1 _ (fun t ht => hret t (List.mem_cons_of_mem _ ht)) hs hleast1,
          afterWalk_after_boundary res imageBase v _ st hp]

/-- The run up to the end of the walk on a raw table in which the walk ends at the least
index `s`, when every `resolve` call returns. -/
theorem RebuildImportsWith_leastEnd (res : Nat → Option (Nat × List Event)) (cs : Capstone)
    (P : Process) (HeaderData : REMOTE_PE_HEADER) (s : Nat)
    (hopen : cs.openOk = true)
    (hread : P.canRead (GetImportAddressTable HeaderData)
      (iatMaxEntryCount * sizeofSIZE_T) = true)
    (hret : ∀ t ∈ (rawTable P.mem (GetImportAddressTable HeaderData)).take s,
      isPacked P.imageBase t = true → (res t).isSome = true)
    (hs : isEnd P.imageBase (rawTable P.mem (GetImportAddressTable HeaderData)) s = true)
    (hleast : ∀ k, k < s →
      isEnd P.imageBase (rawTable P.mem (GetImportAddressTable HeaderData)) k = false) :
    RebuildImportsWith res cs P HeaderData =
      .ok (finishRebuild P HeaderData
        (afterWalk res P.imageBase
          ((rawTable P.mem (GetImportAddressTable HeaderData)).take s)
          (boundaryCount P.imageBase
            ((rawTable P.mem (GetImportAddressTable HeaderData)).take s)) walkInit)
        [Event.logFoundIAT (GetImportAddressTable HeaderData),
         Event.remoteRead (GetImportAddressTable HeaderData)
           (iatMaxEntryCount * sizeofSIZE_T) true]) := by
  rw [isEnd_eq_isEndFrom] at hs
  have hleast1 : ∀ k, k < s → isEndFrom P.imageBase false
      (rawTable P.mem (GetImportAddressTable HeaderData)) k = false :=
    fun k hk => by rw [← isEnd_eq_isEndFrom]; exact hleast k hk
  exact RebuildImportsWith_walk_ok res cs P HeaderData _ hopen hread
    (walk_leastEnd res P.imageBase _ false s walkInit hret hs hleast1)

theorem getElem?_map_rebuiltSlot_append (res : Nat → Option (Nat × List Event))
    (imageBase : Nat) (l : List Nat) (k t v : Nat) (ev : List Event)
    (hk : l[k]? = some t) (hp : isPacked imageBase t = true) (hres : res t = some (v, ev)) :
    (l.map (rebuiltSlot res imageBase) ++ [0])[k]? = some v := by
  have hlt : k < l.length := by
    by_contra hge
    rw [List.getElem?_eq_none (Nat.le_of_not_lt hge)] at hk
    exact Option.noConfusion hk
  rw [List.getElem?_append_left (by rw [List.length_map]; exact hlt), List.getElem?_map, hk]
  simp [rebuiltSlot, hp, resVal_of_eq hres]

/-- C10: a failing `resolve` call is isolated. Let `s` be the least index at which the walk
ends (control is at the head of the outer loop there and the slot is not a packed thunk or
is at or above 0x00007FF000000000). When every access succeeds, every `resolve` call
returns and the one on the packed thunk at index `j < s` returns 0, `RebuildImports` still
returns success and calls `resolve` on every packed thunk below `s`, also those after `j`;
the output has one entry per visited slot plus the terminator, holds 0 at position `j` and
the value of `resolve` at every thunk position. -/
theorem rebuild_failure_isolated (cs : Capstone) (fuel : Nat) (P : Process)
    (HeaderData : REMOTE_PE_HEADER) (s j tj : Nat) (evj : List Event)
    (hopen : cs.openOk = true)
    (hread : P.canRead (GetImportAddressTable HeaderData)
      (iatMaxEntryCount * sizeofSIZE_T) = true)
    (hw1 : P.canWrite (GetImportAddressTable HeaderData) (8 * (s + 1)) = true)
    (hw2 : P.canWrite (iatDDAddress HeaderData) 4 = true)
    (hw3 : P.canWrite (iatSizeAddress HeaderData) 4 = true)
    (hret : ∀ t ∈ (rawTable P.mem (GetImportAddressTable HeaderData)).take s,
      isPacked P.imageBase t = true → (resolve cs P fuel t).isSome = true)
    (hs : isEnd P.imageBase (rawTable P.mem (GetImportAddressTable HeaderData)) s = true)
    (hleast : ∀ k, k < s →
      isEnd P.imageBase (rawTable P.mem (GetImportAddressTable HeaderData)) k = false)
    (hj : ((rawTable P.mem (GetImportAddressTable HeaderData)).take s)[j]? = some tj)
    (hjp : isPacked P.imageBase tj = true)
    (hfail : resolve cs P fuel tj = some (0, evj)) :
    ∃ r : RebuildResult, RebuildImports cs fuel P HeaderData = .ok r ∧ r.ret = true ∧
      r.calls = ((rawTable P.mem (GetImportAddressTable HeaderData)).take s).filter
        (isPacked P.imageBase) ∧
      r.output.length = s + 1 ∧
      r.output[j]? = some 0 ∧
      ∀ (k t v : Nat) (ev : List Event),
        ((rawTable P.mem (GetImportAddressTable HeaderData)).take s)[k]? = some t →
        isPacked P.imageBase t = true →
        resolve cs P fuel t = some (v, ev) → r.output[k]? = some v := by
  have hsl : s < iatMaxEntryCount := by
    have h := hs
    simp only [isEnd, length_rawTable, Bool.and_eq_true, decide_eq_true_eq] at h
    exact h.1.1
  have htl : ((rawTable P.mem (GetImportAddressTable HeaderData)).take s).length = s := by
    rw [List.length_take, length_rawTable]; omega
  have hrun := RebuildImportsWith_leastEnd (resolve cs P fuel) cs P HeaderData s hopen hread
    hret hs hleast
  obtain ⟨w, hw, hwo, hwl, hwc⟩ : ∃ w : WalkState,
      w = afterWalk (resolve cs P fuel) P.imageBase
        ((rawTable P.mem (GetImportAddressTable HeaderData)).take s)
        (boundaryCount P.imageBase
          ((rawTable P.mem (GetImportAddressTable HeaderData)).take s)) walkInit ∧
      w.unpackedThunkArray = ((rawTable P.mem (GetImportAddressTable HeaderData)).take s).map
        (rebuiltSlot (resolve cs P fuel) P.imageBase) ∧
      w.unpackedThunkArray.length = s ∧
      w.calls = ((rawTable P.mem (GetImportAddressTable HeaderData)).take s).filter
        (isPacked P.imageBase) :=
    ⟨_, rfl, by simp only [afterWalk, walkInit, List.nil_append],
      by simp only [afterWalk, walkInit, List.nil_append, List.length_map]; exact htl,
      by simp only [afterWalk, walkInit, List.nil_append]⟩
  rw [← hw, finishRebuild_ok P HeaderData w _ (by rw [hwl]; omega) (by rw [hwl]; exact hw1)
    hw2 hw3] at hrun
  have hat : ∀ (k t v : Nat) (ev : List Event),
      ((rawTable P.mem (GetImportAddressTable HeaderData)).take s)[k]? = some t →
      isPacked P.imageBase t = true →
      resolve cs P fuel t = some (v, ev) → (w.unpackedThunkArray ++ [0])[k]? = some v := by
    intro k t v ev hk hp hres
    rw [hwo]
    exact getElem?_map_rebuiltSlot_append _ _ _ k t v ev hk hp hres
  refine ⟨_, hrun, rfl, hwc, ?_, hat j tj 0 evj hj hjp hfail, hat⟩
  show (w.unpackedThunkArray ++ [0]).length = s + 1
  rw [List.length_append, hwl]
  rfl

/-- Witness of C10 on `failingTable`, whose walk ends at index 4: the second of three thunks
is a `nop` and resolves to 0, the third is still resolved. -/
theorem rebuild_failure_isolated_witness :
    ∃ r : RebuildResult, RebuildImports x64 2 failingTable exampleHeader = .ok r ∧
      r.ret = true ∧
      r.calls = ((rawTable failingTable.mem (GetImportAddressTable exampleHeader)).take 4).filter
        (isPacked failingTable.imageBase) ∧
      r.output.length = 4 + 1 ∧
      r.output[1]? = some 0 ∧
      ∀ (k t v : Nat) (ev : List Event),
        ((rawTable failingTable.mem (GetImportAddressTable exampleHeader)).take 4)[k]?
          = some t →
        isPacked failingTable.imageBase t = true →
        resolve x64 failingTable 2 t = some (v, ev) → r.output[k]? = some v :=
  rebuild_failure_isolated x64 2 failingTable exampleHeader 4 1 0x10100
    [Event.remoteRead 0x10100 0x50 true, Event.logUnhandledInsn 0x10100,
      Event.remoteRead 0 0x50 false, Event.logReadFailed 0x50 0]
    rfl rfl rfl rfl rfl
    (by rw [take_rawTable _ _ 4 (by decide)]; decide)
    ((isEnd_rawTable _ _ _ 4 (by decide)).trans (by decide))
    (fun k hk => by
      interval_cases k <;> exact (isEnd_rawTable _ _ _ _ (by decide)).trans (by decide))
    (by rw [take_rawTable _ _ 4 (by decide)]; rfl)
    (by decide) (by rfl)

/-- C16 amended: on every raw table whose walk ends at a least index `s` of the array, with
every memory access succeeding and every `resolve` call returning, `RebuildImports` returns
success and the count in its final log line (output length minus `importCountDelta`) equals
the number of packed thunks attempted, that is the number of `resolve` calls, whether or
not a call returned 0. -/
theorem rebuild_report_count (cs : Capstone) (fuel : Nat) (P : Process)
    (HeaderData : REMOTE_PE_HEADER) (s : Nat)
    (hopen : cs.openOk = true)
    (hread : P.canRead (GetImportAddressTable HeaderData)
      (iatMaxEntryCount * sizeofSIZE_T) = true)
    (hw1 : P.canWrite (GetImportAddressTable HeaderData) (8 * (s + 1)) = true)
    (hw2 : P.canWrite (iatDDAddress HeaderData) 4 = true)
    (hw3 : P.canWrite (iatSizeAddress HeaderData) 4 = true)
    (hret : ∀ t ∈ (rawTable P.mem (GetImportAddressTable HeaderData)).take s,
      isPacked P.imageBase t = true → (resolve cs P fuel t).isSome = true)
    (hs : isEnd P.imageBase (rawTable P.mem (GetImportAddressTable HeaderData)) s = true)
    (hleast : ∀ k, k < s →
      isEnd P.imageBase (rawTable P.mem (GetImportAddressTable HeaderData)) k = false) :
    ∃ r : RebuildResult, RebuildImports cs fuel P HeaderData = .ok r ∧ r.ret = true ∧
      r.calls = ((rawTable P.mem (GetImportAddressTable HeaderData)).take s).filter
        (isPacked P.imageBase) ∧
      Event.logRestored r.calls.length (GetImportAddressTable HeaderData) ∈ r.trace := by
  have hsl : s < iatMaxEntryCount := by
    have h := hs
    simp only [isEnd, length_rawTable, Bool.and_eq_true, decide_eq_true_eq] at h
    exact h.1.1
  have htl : ((rawTable P.mem (GetImportAddressTable HeaderData)).take s).length = s := by
    rw [List.length_take, length_rawTable]; omega
  have hcount := length_filter_add_boundaryCount P.imageBase
    ((rawTable P.mem (GetImportAddressTable HeaderData)).take s)
  rw [htl] at hcount
  have hrun := RebuildImportsWith_leastEnd (resolve cs P fuel) cs P HeaderData s hopen hread
    hret hs hleast
  obtain ⟨w, hw, hwo, hwc, hwd⟩ : ∃ w : WalkState,
      w = afterWalk (resolve cs P fuel) P.imageBase
        ((rawTable P.mem (GetImportAddressTable HeaderData)).take s)
        (boundaryCount P.imageBase
          ((rawTable P.mem (GetImportAddressTable HeaderData)).take s)) walkInit ∧
      w.unpackedThunkArray.length = s ∧
      w.calls = ((rawTable P.mem (GetImportAddressTable HeaderData)).take s).filter
        (isPacked P.imageBase) ∧
      w.importCountDelta = 1 + boundaryCount P.imageBase
        ((rawTable P.mem (GetImportAddressTable HeaderData)).take s) :=
    ⟨_, rfl, by simp only [afterWalk, walkInit, List.nil_append, List.length_map]; exact htl,
      by simp only [afterWalk, walkInit, List.nil_append],
      by simp only [afterWalk, walkInit]⟩
  rw [← hw, finishRebuild_ok P HeaderData w _ (by rw [hwo]; omega) (by rw [hwo]; exact hw1)
    hw2 hw3] at hrun
  refine ⟨_, hrun, rfl, hwc, ?_⟩
  have hX : (w.unpackedThunkArray.length + 1 + SIZE_T_MOD - w.importCountDelta) % SIZE_T_MOD
      = w.calls.length := by
    rw [hwo, hwd, hwc]
    simp only [SIZE_T_MOD, iatMaxEntryCount] at hsl ⊢
    omega
  show Event.logRestored w.calls.length _ ∈ _ ++ _
  apply List.mem_append_right
  rw [hX]
  simp

/-- Witness of C16 amended on `failingTable`, whose walk ends at index 4. -/
theorem rebuild_report_count_witness :
    ∃ r : RebuildResult, RebuildImports x64 2 failingTable exampleHeader = .ok r ∧
      r.ret = true ∧
      r.calls = ((rawTable failingTable.mem (GetImportAddressTable exampleHeader)).take 4).filter
        (isPacked failingTable.imageBase) ∧
      Event.logRestored r.calls.length (GetImportAddressTable exampleHeader) ∈ r.trace :=
  rebuild_report_count x64 2 failingTable exampleHeader 4 rfl rfl rfl rfl rfl
    (by rw [take_rawTable _ _ 4 (by decide)]; decide)
    ((isEnd_rawTable _ _ _ 4 (by decide)).trans (by decide))
    (fun k hk => by
      interval_cases k <;> exact (isEnd_rawTable _ _ _ _ (by decide)).trans (by decide))

/-! ## A decoded run with an instruction that lacks operand detail -/

end WowDumpFix
